import Mathlib

/-!
# Pulse Battle: escrow ledger, matchmaking and session settlement

A shallow embedding of `src/server/betManager.js` and `src/server/gameManager.js`.

Modelling conventions
* JavaScript numbers that carry credits are exact rationals (`ℚ`); click counts and
  timestamps are natural numbers.
* Identifiers (`UserId`, `SocketId`, `RoomId`) are abstract names of *truthy* JavaScript
  values: `registerPlayer` rejects a falsy `userId`, socket ids and UUIDs are non-empty
  strings.  A `null`, `undefined` or otherwise falsy identifier is `none`.
* A JavaScript `Map` is an association list in insertion order with unique keys.
* The `players` object of a room is the list of its entries as `Object.entries` yields
  them.  Entries are added in insertion order, which is the enumeration order of JavaScript
  for keys that are not canonical array indices (UUIDs, large Telegram ids); the general
  statements about rooms quantify over the list and so hold for any enumeration order.
* `Date.now()` is the explicit argument `now`; `randomUUID()` for a room id is an explicit
  argument; the random `id` of a transaction-log entry is not represented.
* Objects held by reference in a `Map` and mutated in place are written back with `set`.
* Socket emissions and console output are not part of the state; where a statement is about
  an emission, `enqueuePlayerEmit` and `handleClickEmit` give the handler together with what
  it emits, and their state component is proved equal to the handler.
* `io.sockets.sockets` is the list `sockets` of open connections; closing a connection
  removes it from that list and runs its `disconnect` handler in the same step.
* `LedgerOp` lists the public methods of the ledger that change it; `performAll` applies a
  sequence of such calls, `run` a sequence of server events.
-/

namespace PulseBattle

abbrev UserId := Nat
abbrev SocketId := Nat
abbrev RoomId := Nat

/-! ## JavaScript `Map` as an association list -/

namespace JsMap

variable {κ α : Type} [DecidableEq κ]

/-- Value stored under key `k` (`Map.prototype.get`), `none` for `undefined`. -/
def get : List (κ × α) → κ → Option α
  | [], _ => none
  | (k', v) :: m, k => if k' = k then some v else get m k

/-- Membership test (`Map.prototype.has`). -/
def has (m : List (κ × α)) (k : κ) : Bool := (get m k).isSome

/-- Insert or overwrite (`Map.prototype.set`): an existing key keeps its position,
a new key goes to the end. -/
def set : List (κ × α) → κ → α → List (κ × α)
  | [], k, v => [(k, v)]
  | (k', v') :: m, k, v => if k' = k then (k, v) :: m else (k', v') :: set m k v

/-- Remove a key (`Map.prototype.delete`). -/
def delete (m : List (κ × α)) (k : κ) : List (κ × α) :=
  m.filter (fun e => decide (e.1 ≠ k))

/-- The number of entries stored under a key. -/
def count (m : List (κ × α)) (k : κ) : Nat := (m.filter (fun e => decide (e.1 = k))).length

end JsMap

/-! ## `betManager.js` -/

def DEFAULT_HOUSE_PERCENTAGE : ℚ := 1 / 10

def LOG_LIMIT : Nat := 200

inductive EscrowStatus where
  | waiting
  | matched
  | inRoom
  deriving DecidableEq, Repr

/-- Value of the `escrows` map: `{ amount, status, lockedAt }`, plus `roomId` once the
escrow is attached to a room. -/
structure Escrow where
  amount : ℚ
  status : EscrowStatus
  lockedAt : Nat
  roomId : Option RoomId
  deriving DecidableEq, Repr

/-- Entry of the `pending` array: `{ userId, amount, createdAt }`. -/
structure Offer where
  userId : UserId
  amount : ℚ
  createdAt : Nat
  deriving DecidableEq, Repr

/-- Value of the `matches` map (the bet summary built by `attachRoom`). -/
structure Bet where
  roomId : RoomId
  amountPerPlayer : ℚ
  pot : ℚ
  houseFee : ℚ
  housePercentage : ℚ
  createdAt : Nat
  players : List UserId
  deriving DecidableEq, Repr

inductive TxType where
  | lock
  | payout
  | refund
  | house
  deriving DecidableEq, Repr

/-- Entry of the `transactions` array: `{ ts, type, ...payload }`. -/
structure Tx where
  ts : Nat
  type : TxType
  userId : Option UserId
  amount : ℚ
  roomId : Option RoomId
  note : Option String
  deriving DecidableEq, Repr

/-- Fields of a `BetManager` instance. -/
structure BetManager where
  houseCutPercentage : ℚ
  pending : List Offer
  escrows : List (UserId × Escrow)
  matches_ : List (RoomId × Bet)
  transactions : List Tx
  deriving DecidableEq, Repr

/-- Element of `settlement.payouts`: `{ userId, amount }`. -/
structure Payout where
  userId : UserId
  amount : ℚ
  deriving DecidableEq, Repr

/-- Non-null result of `settle`: `{ payouts, houseFee, bet }`. -/
structure Settlement where
  payouts : List Payout
  houseFee : ℚ
  bet : Bet
  deriving DecidableEq, Repr

/-- Result of `queuePlayer`: `{ matched, opponentId?, amount }`. -/
structure QueueResult where
  matched : Bool
  opponentId : Option UserId
  amount : ℚ
  deriving DecidableEq, Repr

namespace BetManager

/-- The constructor: `new BetManager({ houseCutPercentage })`. -/
def new (houseCutPercentage : Option ℚ) : BetManager :=
  { houseCutPercentage := houseCutPercentage.getD DEFAULT_HOUSE_PERCENTAGE
    pending := []
    escrows := []
    matches_ := []
    transactions := [] }

def hasEscrow (b : BetManager) (userId : UserId) : Bool :=
  JsMap.has b.escrows userId

/-- Append an entry, dropping the oldest one when the log exceeds `LOG_LIMIT`. -/
def log (b : BetManager) (entry : Tx) : BetManager :=
  let pushed := b.transactions ++ [entry]
  { b with transactions := if pushed.length > LOG_LIMIT then pushed.tail else pushed }

/-- The predicate of `pending.findIndex` in `queuePlayer`. -/
def isOpponent (userId : UserId) (amount : ℚ) (entry : Offer) : Bool :=
  decide (entry.amount = amount) && decide (entry.userId ≠ userId)

/-- `queuePlayer(userId, amount)`.  The first component is the returned object, or
`Except.error` with the message of the thrown `Error`; the second is the ledger after the
call, also when it throws. -/
def queuePlayer (b : BetManager) (userId : UserId) (amount : ℚ) (now : Nat) :
    Except String QueueResult × BetManager :=
  if b.hasEscrow userId then
    (Except.error "El jugador ya tiene créditos bloqueados", b)
  else
    let opponentIndex := b.pending.findIdx (isOpponent userId amount)
    let escrow : Escrow := { amount := amount, status := .waiting, lockedAt := now, roomId := none }
    let b1 := { b with escrows := JsMap.set b.escrows userId escrow }
    let b2 := b1.log
      { ts := now, type := .lock, userId := some userId, amount := amount, roomId := none,
        note := some "offer" }
    if h : opponentIndex < b.pending.length then
      let opponent := b.pending[opponentIndex]
      let b3 := { b2 with pending := b2.pending.eraseIdx opponentIndex }
      let b4 := { b3 with escrows := JsMap.set b3.escrows userId { escrow with status := .matched } }
      let b5 :=
        match JsMap.get b4.escrows opponent.userId with
        | some opponentEscrow =>
          { b4 with
            escrows := JsMap.set b4.escrows opponent.userId { opponentEscrow with status := .matched } }
        | none => b4
      (Except.ok { matched := true, opponentId := some opponent.userId, amount := amount }, b5)
    else
      let b3 := { b2 with pending := b2.pending ++ [{ userId := userId, amount := amount, createdAt := now }] }
      (Except.ok { matched := false, opponentId := none, amount := amount }, b3)

/-- `unlockUser(userId, reason)`: returns the refunded amount and the new ledger. -/
def unlockUser (b : BetManager) (userId : UserId) (reason : String) (now : Nat) : ℚ × BetManager :=
  match JsMap.get b.escrows userId with
  | none => (0, b)
  | some escrow =>
    let b1 := { b with escrows := JsMap.delete b.escrows userId }
    let b2 := b1.log
      { ts := now, type := .refund, userId := some userId, amount := escrow.amount, roomId := none,
        note := some reason }
    (escrow.amount, b2)

/-- `cancelWaiting(userId, reason)`. -/
def cancelWaiting (b : BetManager) (userId : UserId) (reason : String) (now : Nat) : ℚ × BetManager :=
  let index := b.pending.findIdx (fun entry => decide (entry.userId = userId))
  let b1 := if index < b.pending.length then { b with pending := b.pending.eraseIdx index } else b
  b1.unlockUser userId reason now

/-- The `forEach` of `attachRoom`: flip one escrow to in-room when it exists. -/
def attachEscrow (roomId : RoomId) (escrows : List (UserId × Escrow)) (userId : UserId) :
    List (UserId × Escrow) :=
  match JsMap.get escrows userId with
  | some escrow => JsMap.set escrows userId { escrow with status := .inRoom, roomId := some roomId }
  | none => escrows

/-- `attachRoom(roomId, amount, playerIds)`: returns the bet and the new ledger. -/
def attachRoom (b : BetManager) (roomId : RoomId) (amount : ℚ) (playerIds : List UserId) (now : Nat) :
    Bet × BetManager :=
  let pot := amount * (playerIds.length : ℚ)
  let houseFee := pot * b.houseCutPercentage
  let bet : Bet :=
    { roomId := roomId
      amountPerPlayer := amount
      pot := pot
      houseFee := houseFee
      housePercentage := b.houseCutPercentage
      createdAt := now
      players := playerIds }
  let b1 := { b with matches_ := JsMap.set b.matches_ roomId bet }
  (bet, { b1 with escrows := playerIds.foldl (attachEscrow roomId) b1.escrows })

/-- The tie branch of `settle`: one payout and one refund entry per player. -/
def refundStep (roomId : RoomId) (bet : Bet) (now : Nat) (acc : List Payout × BetManager)
    (userId : UserId) : List Payout × BetManager :=
  (acc.1 ++ [{ userId := userId, amount := bet.amountPerPlayer }],
   acc.2.log
     { ts := now, type := .refund, userId := some userId, amount := bet.amountPerPlayer,
       roomId := some roomId, note := some "tie" })

/-- `settle(roomId, winnerId)`: `none` is the `null` result. -/
def settle (b : BetManager) (roomId : RoomId) (winnerId : Option UserId) (now : Nat) :
    Option Settlement × BetManager :=
  match JsMap.get b.matches_ roomId with
  | none => (none, b)
  | some bet =>
    let b1 := { b with matches_ := JsMap.delete b.matches_ roomId }
    let paid : List Payout × BetManager :=
      match winnerId with
      | some w =>
        let netPrize := bet.pot - bet.houseFee
        let b2 := b1.log
          { ts := now, type := .payout, userId := some w, amount := netPrize,
            roomId := some roomId, note := none }
        let b3 :=
          if bet.houseFee > 0 then
            b2.log
              { ts := now, type := .house, userId := none, amount := bet.houseFee,
                roomId := some roomId, note := none }
          else b2
        ([{ userId := w, amount := netPrize }], b3)
      | none => bet.players.foldl (refundStep roomId bet now) ([], b1)
    let b4 := { paid.2 with escrows := bet.players.foldl JsMap.delete paid.2.escrows }
    (some
      { payouts := paid.1
        houseFee := if winnerId.isSome then bet.houseFee else 0
        bet := bet },
     b4)

/-- One step of the `map` in `refundRoom`. -/
def refundRoomStep (roomId : RoomId) (bet : Bet) (reason : String) (now : Nat)
    (acc : List Payout × BetManager) (userId : UserId) : List Payout × BetManager :=
  let b1 := acc.2.log
    { ts := now, type := .refund, userId := some userId, amount := bet.amountPerPlayer,
      roomId := some roomId, note := some reason }
  (acc.1 ++ [{ userId := userId, amount := bet.amountPerPlayer }],
   { b1 with escrows := JsMap.delete b1.escrows userId })

/-- `refundRoom(roomId, reason)`. -/
def refundRoom (b : BetManager) (roomId : RoomId) (reason : String) (now : Nat) :
    List Payout × BetManager :=
  match JsMap.get b.matches_ roomId with
  | none => ([], b)
  | some bet =>
    bet.players.foldl (refundRoomStep roomId bet reason now)
      ([], { b with matches_ := JsMap.delete b.matches_ roomId })

/-- `releasePlayers(userIds, reason)`: unlock each identity in turn. -/
def releasePlayers (b : BetManager) (userIds : List UserId) (reason : String) (now : Nat) :
    List Payout × BetManager :=
  userIds.foldl
    (fun acc userId =>
      let r := acc.2.unlockUser userId reason now
      (acc.1 ++ [{ userId := userId, amount := r.1 }], r.2))
    ([], b)

/-- `getTransactions(limit)`: `slice(-limit).reverse()`. -/
def getTransactions (b : BetManager) (limit : Nat) : List Tx :=
  (if limit = 0 then b.transactions else b.transactions.drop (b.transactions.length - limit)).reverse

end BetManager

/-! ## `gameManager.js` -/

def GAME_DURATION_MS : Nat := 10000

def DEFAULT_BALANCE : ℚ := 20

def DEFAULT_BETS : List ℚ := [1, 5, 10]

def HOUSE_CUT_PERCENTAGE : ℚ := 1 / 10

def TICK_RATE_MS : Nat := 100

def MIN_CLICK_INTERVAL_MS : Nat := 60

def MAX_CLICKS_PER_SECOND : Nat := 15

def RESULTS_LIMIT : Nat := 25

/-- Value of the `players` map: `{ userId, nickname, balance, socketId }`. -/
structure Player where
  userId : UserId
  nickname : String
  balance : ℚ
  socketId : SocketId
  deriving DecidableEq, Repr

/-- Value of the `socketMeta` map. -/
structure SocketMeta where
  userId : UserId
  roomId : Option RoomId
  lastClickTs : Nat
  cpsWindowStart : Nat
  clicksThisWindow : Nat
  deriving DecidableEq, Repr

/-- Value of `room.players[userId]`: `{ socketId, clicks }`. -/
structure PlayerState where
  socketId : SocketId
  clicks : Nat
  deriving DecidableEq, Repr

inductive RoomStatus where
  | waiting
  | running
  | ended
  deriving DecidableEq, Repr

/-- Value of the `rooms` map.  `players` lists the own properties of the `players` object
as `Object.entries` enumerates them; `timer` records whether the interval is set. -/
structure Room where
  id : RoomId
  status : RoomStatus
  players : List (UserId × PlayerState)
  startTime : Option Nat
  timer : Bool
  bet : Bet
  deriving DecidableEq, Repr

/-- Value of the `ranking` map. -/
structure RankStats where
  userId : UserId
  nickname : String
  wins : Nat
  games : Nat
  creditsEarned : ℚ
  deriving DecidableEq, Repr

/-- Element of `standings` in `finishGame`: `{ userId, clicks }`. -/
structure Standing where
  userId : UserId
  clicks : Nat
  deriving DecidableEq, Repr

/-- Element of the `players` summary of a result. -/
structure PlayerSummary where
  userId : UserId
  nickname : String
  clicks : Nat
  balance : ℚ
  deriving DecidableEq, Repr

inductive FinishReason where
  | time
  | disconnect
  deriving DecidableEq, Repr

/-- Element of the `results` array. -/
structure GameResult where
  roomId : RoomId
  winnerId : Option UserId
  reason : FinishReason
  players : List PlayerSummary
  bet : Bet
  timestamp : Nat
  deriving DecidableEq, Repr

/-- Fields of a `GameManager` instance.  `sockets` stands for `io.sockets.sockets`, the
connections that are currently open. -/
structure GameManager where
  sockets : List SocketId
  rooms : List (RoomId × Room)
  players : List (UserId × Player)
  socketMeta : List (SocketId × SocketMeta)
  results : List GameResult
  ranking : List (UserId × RankStats)
  houseBalance : ℚ
  allowedBets : List ℚ
  betManager : BetManager
  deriving DecidableEq, Repr

/-- The `user` object returned by the Telegram verifier; `id` stands for `String(user.id)`. -/
structure TelegramUser where
  id : UserId
  username : Option String
  first_name : Option String
  last_name : Option String

/-- Payload of the `register` event; a falsy field is `none`. -/
structure RegisterPayload where
  telegramInitData : Option String
  userId : Option UserId
  nickname : Option String
  deriving DecidableEq, Repr

/-- The external verifier `verifyTelegramInitData`, `none` when it is not configured. -/
abbrev Verifier := Option (String → Except String TelegramUser)

/-- Whitespace removed by `trim`. -/
def isSpace (c : Char) : Bool :=
  c = ' ' || c = '\t' || c = '\n' || c = '\r'

/-- `s.trim()`. -/
def jsTrim (s : String) : String :=
  String.mk (((s.data.dropWhile isSpace).reverse.dropWhile isSpace).reverse)

/-- `nickname.trim().slice(0, 18) || "Player"`. -/
def trimNick (nickname : String) : String :=
  let t := String.mk ((jsTrim nickname).data.take 18)
  if t = "" then "Player" else t

/-- `[first_name, last_name].filter(Boolean).join(" ")`. -/
def joinNames (first last : Option String) : String :=
  match first, last with
  | some f, some l => if f = "" then l else if l = "" then f else f ++ " " ++ l
  | some f, none => f
  | none, some l => l
  | none, none => ""

namespace GameManager

/-- The constructor: `new GameManager(io, { allowedBets, houseCutPercentage })`. -/
def new (allowedBets : Option (List ℚ)) (houseCutPercentage : Option ℚ) : GameManager :=
  { sockets := []
    rooms := []
    players := []
    socketMeta := []
    results := []
    ranking := []
    houseBalance := 0
    allowedBets := (allowedBets.getD DEFAULT_BETS).insertionSort (fun a b => a ≤ b)
    betManager := BetManager.new (some (houseCutPercentage.getD HOUSE_CUT_PERCENTAGE)) }

/-- `debitPlayer(player, amount)`, the player object being the entry of `userId`. -/
def debitPlayer (g : GameManager) (userId : UserId) (amount : ℚ) : GameManager :=
  match JsMap.get g.players userId with
  | some p => { g with players := JsMap.set g.players userId { p with balance := p.balance - amount } }
  | none => g

/-- `creditPlayer(player, amount)`, the player object being the entry of `userId`. -/
def creditPlayer (g : GameManager) (userId : UserId) (amount : ℚ) : GameManager :=
  match JsMap.get g.players userId with
  | some p => { g with players := JsMap.set g.players userId { p with balance := p.balance + amount } }
  | none => g

/-- `creditPlayerById(userId, amount)`: nothing happens for a zero amount. -/
def creditPlayerById (g : GameManager) (userId : UserId) (amount : ℚ) : GameManager :=
  if amount = 0 then g else g.creditPlayer userId amount

/-- `ensureRanking(userId)`: creates the entry when missing and refreshes its nickname. -/
def ensureRanking (g : GameManager) (userId : UserId) : GameManager :=
  let player := JsMap.get g.players userId
  let g1 :=
    if JsMap.has g.ranking userId then g
    else
      { g with
        ranking := JsMap.set g.ranking userId
          { userId := userId
            nickname :=
              match player with
              | some p => p.nickname
              | none => "Player"
            wins := 0
            games := 0
            creditsEarned := 0 } }
  match player, JsMap.get g1.ranking userId with
  | some p, some stats =>
    { g1 with ranking := JsMap.set g1.ranking userId { stats with nickname := p.nickname } }
  | _, _ => g1

/-- `updateGamesPlayed(userIds)`. -/
def updateGamesPlayed (g : GameManager) (userIds : List UserId) : GameManager :=
  userIds.foldl
    (fun acc userId =>
      let g1 := acc.ensureRanking userId
      match JsMap.get g1.ranking userId with
      | some stats =>
        { g1 with ranking := JsMap.set g1.ranking userId { stats with games := stats.games + 1 } }
      | none => g1)
    g

/-- `recordResult(result)`: newest first, at most `RESULTS_LIMIT` records. -/
def recordResult (g : GameManager) (result : GameResult) : GameManager :=
  { g with results := (result :: g.results).take RESULTS_LIMIT }

/-- The `standings` of `finishGame`: the entries sorted by clicks, highest first (the
sort of an array is stable). -/
def standings (playerEntries : List (UserId × PlayerState)) : List Standing :=
  (playerEntries.map (fun e => ({ userId := e.1, clicks := e.2.clicks } : Standing))).insertionSort
    (fun a b => b.clicks ≤ a.clicks)

/-- The `winnerId` computed by `finishGame` from the standings and the forfeiting
identity. -/
def pickWinner (st : List Standing) (forfeitingUserId : Option UserId) : Option UserId :=
  let byScore : Option UserId :=
    match st[0]?, st[1]? with
    | some first, some second => if first.clicks > second.clicks then some first.userId else none
    | _, _ => none
  match byScore, forfeitingUserId with
  | none, some f => (st.find? (fun entry => decide (entry.userId ≠ f))).map (fun entry => entry.userId)
  | w, _ => w

/-- The body of `settlement.payouts.forEach` in `finishGame`. -/
def applyPayout (winnerId : Option UserId) (g : GameManager) (p : Payout) : GameManager :=
  let g1 := g.creditPlayerById p.userId p.amount
  if winnerId = some p.userId then
    let g2 := g1.ensureRanking p.userId
    match JsMap.get g2.ranking p.userId with
    | some stats =>
      { g2 with
        ranking := JsMap.set g2.ranking p.userId
          { stats with wins := stats.wins + 1, creditsEarned := stats.creditsEarned + p.amount } }
    | none => g2
  else g1

/-- The `summary` of `finishGame`. -/
def summarize (g : GameManager) (playerEntries : List (UserId × PlayerState)) : List PlayerSummary :=
  playerEntries.map (fun e =>
    match JsMap.get g.players e.1 with
    | some player =>
      { userId := e.1, nickname := player.nickname, clicks := e.2.clicks, balance := player.balance }
    | none => { userId := e.1, nickname := "Anon", clicks := e.2.clicks, balance := 0 })

/-- The last `forEach` of `finishGame`: clear the room of the meta of the socket currently
recorded for the player. -/
def resetMeta (g : GameManager) (userId : UserId) : GameManager :=
  match JsMap.get g.players userId with
  | some player =>
    match JsMap.get g.socketMeta player.socketId with
    | some m =>
      { g with
        socketMeta := JsMap.set g.socketMeta player.socketId
          { m with roomId := none, clicksThisWindow := 0, lastClickTs := 0 } }
    | none => g
  | none => g

/-- `finishGame(roomId, reason, { forfeitingUserId })`.  The room object is dropped from
`rooms` at the end, so its intermediate `status = ended` and cleared timer leave no trace. -/
def finishGame (g : GameManager) (roomId : RoomId) (reason : FinishReason)
    (forfeitingUserId : Option UserId) (now : Nat) : GameManager :=
  match JsMap.get g.rooms roomId with
  | none => g
  | some room =>
    let playerEntries := room.players
    let winnerId := pickWinner (standings playerEntries) forfeitingUserId
    let participantIds := playerEntries.map Prod.fst
    let g1 := g.updateGamesPlayed participantIds
    let settled := g1.betManager.settle roomId winnerId now
    let g2 := { g1 with betManager := settled.2 }
    let g3 :=
      match settled.1 with
      | some settlement =>
        let g' := settlement.payouts.foldl (applyPayout winnerId) g2
        { g' with houseBalance := g'.houseBalance + settlement.houseFee }
      | none => g2
    let bet :=
      match settled.1 with
      | some settlement => settlement.bet
      | none => room.bet
    let g4 := g3.recordResult
      { roomId := roomId, winnerId := winnerId, reason := reason,
        players := summarize g3 playerEntries, bet := bet, timestamp := now }
    let g5 := participantIds.foldl resetMeta g4
    { g5 with rooms := JsMap.delete g5.rooms roomId }

/-- `startGame(roomId)`. -/
def startGame (g : GameManager) (roomId : RoomId) (now : Nat) : GameManager :=
  match JsMap.get g.rooms roomId with
  | none => g
  | some room =>
    { g with
      rooms := JsMap.set g.rooms roomId
        { room with status := .running, startTime := some now, timer := true } }

/-- The socket of an identity in `createRoom`: the connection recorded for the player, if
the player exists and that connection is open. -/
def liveSocket (g : GameManager) (userId : UserId) : Option SocketId :=
  match JsMap.get g.players userId with
  | some player => if player.socketId ∈ g.sockets then some player.socketId else none
  | none => none

/-- The first `socketEntries.forEach` of `createRoom`: seat one identity.  A connection that
is open and recorded for a player always has a meta; the source would raise a `TypeError`
otherwise. -/
def seat (roomId : RoomId) (acc : List (UserId × PlayerState) × GameManager) (userId : UserId) :
    List (UserId × PlayerState) × GameManager :=
  match liveSocket acc.2 userId with
  | some socket =>
    (JsMap.set acc.1 userId { socketId := socket, clicks := 0 },
     match JsMap.get acc.2.socketMeta socket with
     | some m =>
       { acc.2 with socketMeta := JsMap.set acc.2.socketMeta socket { m with roomId := some roomId } }
     | none => acc.2)
  | none => acc

/-- `createRoom(userIds, betAmount)` with `roomId` the UUID drawn for the room. -/
def createRoom (g : GameManager) (userIds : List UserId) (betAmount : ℚ) (now : Nat)
    (roomId : RoomId) : Bool × GameManager :=
  if userIds.any (fun userId => (liveSocket g userId).isNone) then
    let released := g.betManager.releasePlayers userIds "oponente-offline" now
    let g1 := { g with betManager := released.2 }
    (false, released.1.foldl (fun acc r => acc.creditPlayerById r.userId r.amount) g1)
  else
    let attached := g.betManager.attachRoom roomId betAmount userIds now
    let g1 := { g with betManager := attached.2 }
    let seated := userIds.foldl (seat roomId) ([], g1)
    let room : Room :=
      { id := roomId, status := .waiting, players := seated.1, startTime := none, timer := false,
        bet := attached.1 }
    let g2 := { seated.2 with rooms := JsMap.set seated.2.rooms roomId room }
    (true, g2.startGame roomId now)

/-- `enqueuePlayer(socket, payload)`; `amount` is `Number(payload?.amount ?? 0)`, `none`
when that number is not finite. -/
def enqueuePlayer (g : GameManager) (socket : SocketId) (amount : Option ℚ) (now : Nat)
    (uuid : RoomId) : GameManager :=
  match JsMap.get g.socketMeta socket with
  | none => g
  | some m =>
    if m.roomId.isSome then g
    else
      match JsMap.get g.players m.userId with
      | none => g
      | some player =>
        match amount with
        | none => g
        | some betAmount =>
          if ¬ betAmount ∈ g.allowedBets then g
          else if g.betManager.hasEscrow m.userId then g
          else if player.balance < betAmount then g
          else
            let g1 := g.debitPlayer m.userId betAmount
            let queued := g1.betManager.queuePlayer m.userId betAmount now
            let g2 := { g1 with betManager := queued.2 }
            match queued.1 with
            | Except.error _ => g2.creditPlayer m.userId betAmount
            | Except.ok res =>
              match res.matched, res.opponentId with
              | true, some opponentId => (g2.createRoom [m.userId, opponentId] betAmount now uuid).2
              | _, _ => g2

/-- `handleClick(socket)`. -/
def handleClick (g : GameManager) (socket : SocketId) (now : Nat) : GameManager :=
  match JsMap.get g.socketMeta socket with
  | none => g
  | some m =>
    match m.roomId with
    | none => g
    | some roomId =>
      match JsMap.get g.rooms roomId with
      | none => g
      | some room =>
        if room.status ≠ .running then g
        else
          match JsMap.get room.players m.userId with
          | none => g
          | some playerState =>
            if now - m.lastClickTs < MIN_CLICK_INTERVAL_MS then g
            else
              let m1 :=
                if now - m.cpsWindowStart ≥ 1000 then
                  { m with cpsWindowStart := now, clicksThisWindow := 0 }
                else m
              if m1.clicksThisWindow ≥ MAX_CLICKS_PER_SECOND then
                { g with socketMeta := JsMap.set g.socketMeta socket m1 }
              else
                let m2 := { m1 with clicksThisWindow := m1.clicksThisWindow + 1, lastClickTs := now }
                { g with
                  socketMeta := JsMap.set g.socketMeta socket m2
                  rooms := JsMap.set g.rooms roomId
                    { room with
                      players := JsMap.set room.players m.userId
                        { playerState with clicks := playerState.clicks + 1 } } }

/-- `handleDisconnect(socket)`. -/
def handleDisconnect (g : GameManager) (socket : SocketId) (now : Nat) : GameManager :=
  match JsMap.get g.socketMeta socket with
  | none => g
  | some m =>
    let g0 := { g with socketMeta := JsMap.delete g.socketMeta socket }
    let cancelled := g0.betManager.cancelWaiting m.userId "disconnect" now
    let g1 := { g0 with betManager := cancelled.2 }
    let g2 := if (0 : ℚ) < cancelled.1 then g1.creditPlayerById m.userId cancelled.1 else g1
    match m.roomId with
    | some roomId => g2.finishGame roomId .disconnect (some m.userId) now
    | none => g2

/-- `socket.disconnect(true)`, and equally the closing of a connection by its client: the
connection leaves `io.sockets.sockets` and its `disconnect` handler runs at once (socket.io
emits the event synchronously).  Nothing happens for a connection that is not open. -/
def closeSocket (g : GameManager) (socket : SocketId) (now : Nat) : GameManager :=
  if socket ∈ g.sockets then
    handleDisconnect { g with sockets := g.sockets.filter (fun s => decide (s ≠ socket)) } socket now
  else g

/-- The identity and nickname that `registerPlayer` derives from the payload: `none` when
the Telegram branch fails (verifier not configured, or the verifier throws). -/
def resolveIdentity (verify : Verifier) (payload : RegisterPayload) :
    Option (Option UserId × String) :=
  match payload.telegramInitData with
  | some initData =>
    match verify with
    | none => none
    | some v =>
      match v initData with
      | Except.error _ => none
      | Except.ok user =>
        let tgName :=
          match user.username with
          | some n => if n = "" then joinNames user.first_name user.last_name else n
          | none => joinNames user.first_name user.last_name
        some (some user.id,
          if jsTrim tgName = "" then payload.nickname.getD "Player" else tgName)
  | none => some (payload.userId, payload.nickname.getD "Player")

/-- `registerPlayer(socket, payload)`.  A failed Telegram check closes the registering
connection; a live earlier connection of the same identity is closed before the player
record is rewritten, and the balance is read from the record after that. -/
def registerPlayer (verify : Verifier) (g : GameManager) (socket : SocketId)
    (payload : RegisterPayload) (now : Nat) : GameManager :=
  match resolveIdentity verify payload with
  | none => g.closeSocket socket now
  | some (none, _) => g
  | some (some userId, nickname) =>
    let trimmedNick := trimNick nickname
    let g1 :=
      match JsMap.get g.players userId with
      | some existing => if existing.socketId ≠ socket then g.closeSocket existing.socketId now else g
      | none => g
    let balance :=
      match JsMap.get g1.players userId with
      | some existing => existing.balance
      | none => DEFAULT_BALANCE
    { g1 with
      players := JsMap.set g1.players userId
        { userId := userId, nickname := trimmedNick, balance := balance, socketId := socket }
      socketMeta := JsMap.set g1.socketMeta socket
        { userId := userId, roomId := none, lastClickTs := 0, cpsWindowStart := 0,
          clicksThisWindow := 0 } }

/-- The interval callback installed by `startGame` for `roomId`: it finishes the game once
no time is left. -/
def tick (g : GameManager) (roomId : RoomId) (now : Nat) : GameManager :=
  match JsMap.get g.rooms roomId with
  | none => g
  | some room =>
    match room.timer, room.startTime with
    | true, some startTime =>
      if GAME_DURATION_MS - (now - startTime) = 0 then g.finishGame roomId .time none now else g
    | _, _ => g

/-- The comparator of `getRanking` does not place `a` after `b`: more wins first, and on
equal wins more credits earned first. -/
def rankedBefore (a b : RankStats) : Prop :=
  if b.wins = a.wins then b.creditsEarned ≤ a.creditsEarned else b.wins < a.wins

instance (a b : RankStats) : Decidable (rankedBefore a b) := by
  unfold rankedBefore
  exact inferInstance

/-- `getRanking()`: the ranking entries in insertion order, sorted (stably) by the
comparator. -/
def getRanking (g : GameManager) : List RankStats :=
  (g.ranking.map Prod.snd).insertionSort rankedBefore

/-- `getResults()`. -/
def getResults (g : GameManager) : List GameResult := g.results

end GameManager

/-! ## Events -/

/-- The inbound events of the server: a new connection, the three socket messages, the
closing of a connection and the firing of a room timer. -/
inductive Event where
  | connect (socket : SocketId)
  | register (socket : SocketId) (payload : RegisterPayload) (now : Nat)
  | queueJoin (socket : SocketId) (amount : Option ℚ) (now : Nat) (uuid : RoomId)
  | click (socket : SocketId) (now : Nat)
  | disconnect (socket : SocketId) (now : Nat)
  | tick (roomId : RoomId) (now : Nat)

/-- One event handled to completion.  Messages are only delivered for open connections, and
a connection is removed from the open ones before its `disconnect` handler runs. -/
def step (verify : Verifier) (g : GameManager) : Event → GameManager
  | .connect socket => if socket ∈ g.sockets then g else { g with sockets := g.sockets ++ [socket] }
  | .register socket payload now =>
    if socket ∈ g.sockets then g.registerPlayer verify socket payload now else g
  | .queueJoin socket amount now uuid =>
    if socket ∈ g.sockets then g.enqueuePlayer socket amount now uuid else g
  | .click socket now => if socket ∈ g.sockets then g.handleClick socket now else g
  | .disconnect socket now => g.closeSocket socket now
  | .tick roomId now => g.tick roomId now

/-- A sequence of events handled in arrival order. -/
def run (verify : Verifier) (g : GameManager) (events : List Event) : GameManager :=
  events.foldl (step verify) g

/-- The quantity of the conservation property: all balances, all escrowed amounts and the
house balance. -/
def totalCredits (g : GameManager) : ℚ :=
  (g.players.map (fun e => e.2.balance)).sum
    + (g.betManager.escrows.map (fun e => e.2.amount)).sum
    + g.houseBalance

/-! ## Emissions of the queue-join and click handlers -/

namespace GameManager

/-- `enqueuePlayer` together with the message of the `error` event it emits to the socket;
`none` when it emits no error. -/
def enqueuePlayerEmit (g : GameManager) (socket : SocketId) (amount : Option ℚ) (now : Nat)
    (uuid : RoomId) : Option String × GameManager :=
  match JsMap.get g.socketMeta socket with
  | none => (some "Regístrate primero", g)
  | some m =>
    if m.roomId.isSome then (some "Partida en curso", g)
    else
      match JsMap.get g.players m.userId with
      | none => (some "Jugador inválido", g)
      | some player =>
        match amount with
        | none => (some "Apuesta inválida", g)
        | some betAmount =>
          if ¬ betAmount ∈ g.allowedBets then (some "Apuesta inválida", g)
          else if g.betManager.hasEscrow m.userId then
            (some "Ya creaste una apuesta. Espera al rival.", g)
          else if player.balance < betAmount then (some "Saldo insuficiente para esa apuesta", g)
          else
            let g1 := g.debitPlayer m.userId betAmount
            let queued := g1.betManager.queuePlayer m.userId betAmount now
            let g2 := { g1 with betManager := queued.2 }
            match queued.1 with
            | Except.error msg =>
              (some (if msg = "" then "No se pudo crear la apuesta" else msg),
               g2.creditPlayer m.userId betAmount)
            | Except.ok res =>
              match res.matched, res.opponentId with
              | true, some opponentId =>
                (none, (g2.createRoom [m.userId, opponentId] betAmount now uuid).2)
              | _, _ => (none, g2)

/-- `buildClickSnapshot(room)`: the click count of every participant. -/
def buildClickSnapshot (room : Room) : List (UserId × Nat) :=
  room.players.map (fun e => (e.1, e.2.clicks))

/-- What `handleClick` emits: the `warning` sent to the socket, or the `game:update`
broadcast to the room with the click snapshot. -/
inductive ClickEmit where
  | warning
  | update (roomId : RoomId) (clicks : List (UserId × Nat))
  deriving DecidableEq, Repr

/-- The window roll of `handleClick`: a window that is 1000 ms old or more restarts at
`now` with a count of 0. -/
def rollWindow (m : SocketMeta) (now : Nat) : SocketMeta :=
  if now - m.cpsWindowStart ≥ 1000 then { m with cpsWindowStart := now, clicksThisWindow := 0 }
  else m

/-- `handleClick` together with what it emits; `none` when it emits nothing. -/
def handleClickEmit (g : GameManager) (socket : SocketId) (now : Nat) :
    Option ClickEmit × GameManager :=
  match JsMap.get g.socketMeta socket with
  | none => (none, g)
  | some m =>
    match m.roomId with
    | none => (none, g)
    | some roomId =>
      match JsMap.get g.rooms roomId with
      | none => (none, g)
      | some room =>
        if room.status ≠ .running then (none, g)
        else
          match JsMap.get room.players m.userId with
          | none => (none, g)
          | some playerState =>
            if now - m.lastClickTs < MIN_CLICK_INTERVAL_MS then (none, g)
            else
              let m1 := rollWindow m now
              if m1.clicksThisWindow ≥ MAX_CLICKS_PER_SECOND then
                (some .warning, { g with socketMeta := JsMap.set g.socketMeta socket m1 })
              else
                let m2 := { m1 with clicksThisWindow := m1.clicksThisWindow + 1, lastClickTs := now }
                let room' : Room :=
                  { room with
                    players := JsMap.set room.players m.userId
                      { playerState with clicks := playerState.clicks + 1 } }
                (some (.update roomId (buildClickSnapshot room')),
                 { g with
                   socketMeta := JsMap.set g.socketMeta socket m2
                   rooms := JsMap.set g.rooms roomId room' })

/-- The guards of `handleClick` ahead of the limiter: the meta of the socket, its room id,
the running room and the state of the identity in it; `none` when a guard drops the click. -/
def clickContext (g : GameManager) (socket : SocketId) :
    Option (SocketMeta × RoomId × Room × PlayerState) :=
  match JsMap.get g.socketMeta socket with
  | none => none
  | some m =>
    match m.roomId with
    | none => none
    | some roomId =>
      match JsMap.get g.rooms roomId with
      | none => none
      | some room =>
        if room.status ≠ .running then none
        else
          match JsMap.get room.players m.userId with
          | none => none
          | some playerState => some (m, roomId, room, playerState)

/-- Whether the limiter of `handleClick` lets a click at `now` through: it comes at least
`MIN_CLICK_INTERVAL_MS` after the last counted click and the rolled window is not full. -/
def limiterPasses (m : SocketMeta) (now : Nat) : Bool :=
  decide (¬ now - m.lastClickTs < MIN_CLICK_INTERVAL_MS) &&
    decide (¬ (rollWindow m now).clicksThisWindow ≥ MAX_CLICKS_PER_SECOND)

/-- The limiter fields after a click at `now`: untouched when the click comes too early,
else the rolled window, with the click recorded when the window is not full. -/
def limiterNext (m : SocketMeta) (now : Nat) : SocketMeta :=
  if now - m.lastClickTs < MIN_CLICK_INTERVAL_MS then m
  else if (rollWindow m now).clicksThisWindow ≥ MAX_CLICKS_PER_SECOND then rollWindow m now
  else
    { rollWindow m now with
      clicksThisWindow := (rollWindow m now).clicksThisWindow + 1, lastClickTs := now }

/-- The limiter alone on the timestamps `ts`: the clicks let through, each with the window
start in effect when it was counted. -/
def limiterRun (m : SocketMeta) : List Nat → List (Nat × Nat)
  | [] => []
  | t :: ts =>
    (if limiterPasses m t then [(t, (limiterNext m t).cpsWindowStart)] else [])
      ++ limiterRun (limiterNext m t) ts

/-- Whether a click at `now` on `socket` is counted: some click count changes. -/
def clickCounted (g : GameManager) (socket : SocketId) (now : Nat) : Bool :=
  decide ((g.handleClick socket now).rooms ≠ g.rooms)

/-- The window start recorded by the limiter for `socket`, 0 when the socket has no meta. -/
def windowStart (g : GameManager) (socket : SocketId) : Nat :=
  match JsMap.get g.socketMeta socket with
  | some m => m.cpsWindowStart
  | none => 0

/-- The clicks of `socket` at the timestamps `ts`, handled in order: the list of the counted
ones, each with the limiter window (its start) in which it was counted. -/
def acceptedClicks (g : GameManager) (socket : SocketId) : List Nat → List (Nat × Nat)
  | [] => []
  | t :: ts =>
    (if clickCounted g socket t then [(t, windowStart (g.handleClick socket t) socket)] else [])
      ++ acceptedClicks (g.handleClick socket t) socket ts

end GameManager

/-! ## Calls on the ledger -/

/-- The calls that a client of the ledger can make. -/
inductive LedgerOp where
  | queuePlayer (userId : UserId) (amount : ℚ) (now : Nat)
  | unlockUser (userId : UserId) (reason : String) (now : Nat)
  | cancelWaiting (userId : UserId) (reason : String) (now : Nat)
  | attachRoom (roomId : RoomId) (amount : ℚ) (playerIds : List UserId) (now : Nat)
  | settle (roomId : RoomId) (winnerId : Option UserId) (now : Nat)
  | refundRoom (roomId : RoomId) (reason : String) (now : Nat)
  | releasePlayers (userIds : List UserId) (reason : String) (now : Nat)

/-- The ledger after one call. -/
def BetManager.perform (b : BetManager) : LedgerOp → BetManager
  | .queuePlayer userId amount now => (b.queuePlayer userId amount now).2
  | .unlockUser userId reason now => (b.unlockUser userId reason now).2
  | .cancelWaiting userId reason now => (b.cancelWaiting userId reason now).2
  | .attachRoom roomId amount playerIds now => (b.attachRoom roomId amount playerIds now).2
  | .settle roomId winnerId now => (b.settle roomId winnerId now).2
  | .refundRoom roomId reason now => (b.refundRoom roomId reason now).2
  | .releasePlayers userIds reason now => (b.releasePlayers userIds reason now).2

/-- The ledger after a sequence of calls. -/
def BetManager.performAll (b : BetManager) (ops : List LedgerOp) : BetManager :=
  ops.foldl BetManager.perform b

/-! ## Scenarios -/

/-- A `register` payload without Telegram data: `{ userId }`. -/
def plainRegister (userId : UserId) : RegisterPayload :=
  { telegramInitData := none, userId := some userId, nickname := none }

/-- Identities 11 and 12 connect on sockets 1 and 2 and register; identity 12 stakes 5 and
waits, then identity 11 stakes 5, is matched with it, and room 101 starts. -/
def matchOfFive : List Event :=
  [ .connect 1, .connect 2, .register 1 (plainRegister 11) 0, .register 2 (plainRegister 12) 0,
    .queueJoin 2 (some 5) 0 100, .queueJoin 1 (some 5) 1 101 ]

/-- The match of `matchOfFive` with identity 11 at three clicks and identity 12 at one. -/
def threeToOne : List Event :=
  matchOfFive ++ [ .click 1 100, .click 1 200, .click 1 300, .click 2 300 ]

/-- The server state after a list of events, from a fresh server with the default options
and no Telegram verifier. -/
def after (events : List Event) : GameManager :=
  run none (GameManager.new none none) events

/-- The bet of room 101 in `matchOfFive`: two stakes of 5 at the default house cut. -/
def betOfFive : Bet :=
  { roomId := 101, amountPerPlayer := 5, pot := 10, houseFee := 1, housePercentage := 1 / 10,
    createdAt := 1, players := [11, 12] }

/-- Room 101 of `matchOfFive` with identity 11 at `c11` clicks and identity 12 at `c12`. -/
def roomOfFive (c11 c12 : Nat) : Room :=
  { id := 101, status := .running,
    players := [(11, { socketId := 1, clicks := c11 }), (12, { socketId := 2, clicks := c12 })],
    startTime := some 1, timer := true, bet := betOfFive }

/-- The state of `matchOfFive` after the ledger alone has settled room 101: the room is
still listed, its BetRecord is gone. -/
def settledBehindTheRoom : GameManager :=
  { after matchOfFive with
    betManager := ((after matchOfFive).betManager.settle 101 (some 12) 9000).2 }

/-- A ledger on which identity 2 has queued a stake of 5 and was then released: its offer
is still pending, its escrow is gone. -/
def orphanOffer : BetManager :=
  ((((BetManager.new none).queuePlayer 2 5 0).2).releasePlayers [2] "unlock" 1).2

/-- `matchOfFive`, then socket 1 sends `register` for identity 11 once more (its meta is
rewritten without a room id) and closes: the stake of identity 11 is refunded and room 101
is not finished. -/
def lostRoomLink : List Event :=
  matchOfFive ++ [ .register 1 (plainRegister 11) 2, .disconnect 1 3 ]

/-- `lostRoomLink`, then identity 11 comes back on socket 3. -/
def secondCommitment : List Event :=
  lostRoomLink ++ [ .connect 3, .register 3 (plainRegister 11) 4 ]

/-- Identity 12 stakes 5 on socket 2 and waits; socket 2 then registers as identity 13 and
closes, so the offer of identity 12 stays pending with no open connection behind it;
identity 11 registers on socket 1. -/
def vanishedOpponent : List Event :=
  [ .connect 2, .register 2 (plainRegister 12) 0, .queueJoin 2 (some 5) 1 100,
    .register 2 (plainRegister 13) 2, .disconnect 2 3, .connect 1,
    .register 1 (plainRegister 11) 4 ]

/-- The state in which `enqueuePlayer` calls `createRoom` when identity 11 stakes 5 after
`vanishedOpponent`: the stake is debited and the ledger has matched 11 with 12. -/
def pairedWithVanished : GameManager :=
  { (after vanishedOpponent).debitPlayer 11 5 with
    betManager := ((after vanishedOpponent).betManager.queuePlayer 11 5 5).2 }

/-- A click at 5000, then seventeen clicks 60 ms apart from 5520 to 6480. -/
def burstAcrossWindows : List Nat :=
  5000 :: (List.range 17).map (fun k => 5520 + 60 * k)

/-- Thirty clicks 17 ms apart, from 8000 to 8493. -/
def thirtyClicks : List Nat :=
  (List.range 30).map (fun k => 8000 + 17 * k)

/-- The balance of an identity, `none` when it is not registered. -/
def balanceOf (g : GameManager) (u : UserId) : Option ℚ :=
  (JsMap.get g.players u).map (fun p => p.balance)

/-- Whether `u` is a participant of an existing room. -/
def inSomeRoom (g : GameManager) (u : UserId) : Bool :=
  g.rooms.any (fun r => r.2.players.any (fun e => decide (e.1 = u)))

/-- Whether `u` has an offer in the pending list. -/
def hasPendingOffer (b : BetManager) (u : UserId) : Bool :=
  b.pending.any (fun o => decide (o.userId = u))

/-- The amount escrowed for `u`, 0 when it has no escrow. -/
def escrowAmount (b : BetManager) (u : UserId) : ℚ :=
  ((JsMap.get b.escrows u).map (fun e => e.amount)).getD 0

/-- The refund entries that unlocking the identities `ids` writes to the log of `b`: one
for each identity that holds an escrow. -/
def refundEntries (b : BetManager) (ids : List UserId) (reason : String) (now : Nat) : List Tx :=
  ids.filterMap (fun u =>
    (JsMap.get b.escrows u).map (fun e =>
      ({ ts := now, type := .refund, userId := some u, amount := e.amount, roomId := none,
         note := some reason } : Tx)))

/-- Whether two offers of a pending list have the same amount and different identities. -/
def matchablePair (pending : List Offer) : Bool :=
  pending.any (fun o1 =>
    pending.any (fun o2 => decide (o1.amount = o2.amount) && decide (o1.userId ≠ o2.userId)))

/-- The newest `LOG_LIMIT` entries of a sequence of log entries. -/
def newestEntries (l : List Tx) : List Tx := l.drop (l.length - LOG_LIMIT)

/-- The games count of an identity in the ranking, 0 when it has no entry. -/
def gamesOf (g : GameManager) (u : UserId) : Nat :=
  ((JsMap.get g.ranking u).map (fun s => s.games)).getD 0

/-- The wins of an identity in the ranking, 0 when it has no entry. -/
def winsOf (g : GameManager) (u : UserId) : Nat :=
  ((JsMap.get g.ranking u).map (fun s => s.wins)).getD 0

/-- The credits earned by an identity in the ranking, 0 when it has no entry. -/
def creditsEarnedOf (g : GameManager) (u : UserId) : ℚ :=
  ((JsMap.get g.ranking u).map (fun s => s.creditsEarned)).getD 0

/-- The amounts held by a ledger are in order: the house cut rate lies in [0, 1], no escrow
is negative, and no BetRecord has a negative stake or a fee above its pot. -/
def BetManager.sound (b : BetManager) : Prop :=
  (0 ≤ b.houseCutPercentage ∧ b.houseCutPercentage ≤ 1) ∧
    (∀ e ∈ b.escrows, 0 ≤ e.2.amount) ∧
    (∀ e ∈ b.matches_, 0 ≤ e.2.amountPerPlayer ∧ e.2.houseFee ≤ e.2.pot)

/-- No balance is negative, every allowed stake is positive and the ledger is sound. -/
def GameManager.solvent (g : GameManager) : Prop :=
  (∀ e ∈ g.players, 0 ≤ e.2.balance) ∧ (∀ a ∈ g.allowedBets, 0 < a) ∧ g.betManager.sound

/-! ## Lemmas on maps -/

namespace JsMap

variable {κ α : Type} [DecidableEq κ]

theorem get_set_self (m : List (κ × α)) (k : κ) (v : α) : get (set m k v) k = some v := by
  induction m with
  | nil => simp [set, get]
  | cons e m ih =>
    obtain ⟨k', v'⟩ := e
    by_cases h : k' = k
    · simp [set, get, h]
    · simp [set, get, h, ih]

theorem get_set_ne (m : List (κ × α)) (k k' : κ) (v : α) (h : k ≠ k') :
    get (set m k v) k' = get m k' := by
  induction m with
  | nil => simp [set, get, h]
  | cons e m ih =>
    obtain ⟨k0, v0⟩ := e
    by_cases h0 : k0 = k
    · subst h0
      simp [set, get, h]
    · simp only [set, h0, if_false, get, ih]

theorem get_delete_self (m : List (κ × α)) (k : κ) : get (delete m k) k = none := by
  induction m with
  | nil => simp [delete, get]
  | cons e m ih =>
    obtain ⟨k0, v0⟩ := e
    by_cases h0 : k0 = k
    · simpa [delete, h0] using ih
    · simpa [delete, h0, get] using ih

theorem get_delete_ne (m : List (κ × α)) (k k' : κ) (h : k ≠ k') :
    get (delete m k) k' = get m k' := by
  induction m with
  | nil => simp [delete, get]
  | cons e m ih =>
    obtain ⟨k0, v0⟩ := e
    by_cases h0 : k0 = k
    · subst h0
      simpa [delete, get, h] using ih
    · by_cases h1 : k0 = k'
      · subst h1
        simp [delete, h0, get]
      · simpa [delete, h0, get, h1] using ih

/-- Deleting keys never brings a key back. -/
theorem get_foldl_delete_of_none (ks : List κ) (m : List (κ × α)) (k : κ)
    (h : get m k = none) : get (ks.foldl delete m) k = none := by
  induction ks generalizing m with
  | nil => simpa using h
  | cons k0 ks ih =>
    apply ih
    by_cases h0 : k0 = k
    · subst h0
      exact get_delete_self m k0
    · rw [get_delete_ne m k0 k h0]
      exact h

/-- After deleting a list of keys, none of them is present. -/
theorem get_foldl_delete (ks : List κ) (m : List (κ × α)) (k : κ) (hk : k ∈ ks) :
    get (ks.foldl delete m) k = none := by
  induction ks generalizing m with
  | nil => simp at hk
  | cons k0 ks ih =>
    by_cases h0 : k0 = k
    · subst h0
      exact get_foldl_delete_of_none ks _ k0 (get_delete_self m k0)
    · have hk' : k ∈ ks := by
        rcases List.mem_cons.mp hk with h | h
        · exact absurd h.symm h0
        · exact h
      exact ih _ hk'

end JsMap

/-! ## Lemmas on the ledger -/

namespace BetManager

theorem log_escrows (b : BetManager) (e : Tx) : (b.log e).escrows = b.escrows := rfl
theorem log_matches (b : BetManager) (e : Tx) : (b.log e).matches_ = b.matches_ := rfl
theorem log_pending (b : BetManager) (e : Tx) : (b.log e).pending = b.pending := rfl
theorem log_houseCut (b : BetManager) (e : Tx) :
    (b.log e).houseCutPercentage = b.houseCutPercentage := rfl

theorem foldl_refundStep (roomId : RoomId) (bet : Bet) (now : Nat) (us : List UserId)
    (acc : List Payout × BetManager) :
    (us.foldl (refundStep roomId bet now) acc).1 =
        acc.1 ++ us.map (fun u => ({ userId := u, amount := bet.amountPerPlayer } : Payout)) ∧
      (us.foldl (refundStep roomId bet now) acc).2.escrows = acc.2.escrows ∧
      (us.foldl (refundStep roomId bet now) acc).2.matches_ = acc.2.matches_ ∧
      (us.foldl (refundStep roomId bet now) acc).2.pending = acc.2.pending := by
  induction us generalizing acc with
  | nil => simp
  | cons u us ih =>
    simp only [List.foldl, List.map]
    obtain ⟨h1, h2, h3, h4⟩ := ih (refundStep roomId bet now acc u)
    refine ⟨?_, ?_, ?_, ?_⟩
    · rw [h1]; simp [refundStep]
    · rw [h2]; simp [refundStep, log_escrows]
    · rw [h3]; simp [refundStep, log_matches]
    · rw [h4]; simp [refundStep, log_pending]

theorem settle_none (b : BetManager) (roomId : RoomId) (w : Option UserId) (now : Nat)
    (h : JsMap.get b.matches_ roomId = none) : b.settle roomId w now = (none, b) := by
  simp [settle, h]

theorem settle_some_winner (b : BetManager) (roomId : RoomId) (bet : Bet) (w : UserId) (now : Nat)
    (h : JsMap.get b.matches_ roomId = some bet) :
    (b.settle roomId (some w) now).1 =
      some { payouts := [{ userId := w, amount := bet.pot - bet.houseFee }]
             houseFee := bet.houseFee
             bet := bet } := by
  simp [settle, h]

theorem settle_some_tie (b : BetManager) (roomId : RoomId) (bet : Bet) (now : Nat)
    (h : JsMap.get b.matches_ roomId = some bet) :
    (b.settle roomId none now).1 =
      some { payouts := bet.players.map (fun u => ({ userId := u, amount := bet.amountPerPlayer } : Payout))
             houseFee := 0
             bet := bet } := by
  simp [settle, h, (foldl_refundStep roomId bet now bet.players _).1]

theorem settle_escrows (b : BetManager) (roomId : RoomId) (bet : Bet) (w : Option UserId) (now : Nat)
    (h : JsMap.get b.matches_ roomId = some bet) :
    (b.settle roomId w now).2.escrows = bet.players.foldl JsMap.delete b.escrows := by
  cases w with
  | none => simp [settle, h, (foldl_refundStep roomId bet now bet.players _).2.1, log_escrows]
  | some w =>
    simp only [settle, h]
    split <;> simp [log_escrows]

theorem settle_matches (b : BetManager) (roomId : RoomId) (bet : Bet) (w : Option UserId) (now : Nat)
    (h : JsMap.get b.matches_ roomId = some bet) :
    (b.settle roomId w now).2.matches_ = JsMap.delete b.matches_ roomId := by
  cases w with
  | none => simp [settle, h, (foldl_refundStep roomId bet now bet.players _).2.2.1, log_matches]
  | some w =>
    simp only [settle, h]
    split <;> simp [log_matches]

theorem settle_pending (b : BetManager) (roomId : RoomId) (w : Option UserId) (now : Nat) :
    (b.settle roomId w now).2.pending = b.pending := by
  unfold settle
  split
  · rfl
  · cases w with
    | none => simp [(foldl_refundStep roomId _ now _ _).2.2.2, log_pending]
    | some w =>
      simp only
      split <;> simp [log_pending]

end BetManager

/-! ## Lemmas on the winner and the result record -/

namespace GameManager

theorem standings_pair (p q : UserId) (sp sq : PlayerState) :
    standings [(p, sp), (q, sq)] =
      if sq.clicks ≤ sp.clicks then [⟨p, sp.clicks⟩, ⟨q, sq.clicks⟩]
      else [⟨q, sq.clicks⟩, ⟨p, sp.clicks⟩] := by
  simp [standings, List.insertionSort, List.orderedInsert]

/-- The winner of a two-participant room, as the code computes it: the strictly higher
score wins; only on equal scores does a forfeit give the win to the first participant that is
not the forfeiting identity. -/
theorem pickWinner_pair (p q : UserId) (sp sq : PlayerState) (f : Option UserId) :
    pickWinner (standings [(p, sp), (q, sq)]) f =
      if sq.clicks < sp.clicks then some p
      else if sp.clicks < sq.clicks then some q
      else
        match f with
        | none => none
        | some x => if p ≠ x then some p else if q ≠ x then some q else none := by
  rw [standings_pair]
  by_cases h1 : sq.clicks < sp.clicks
  · have h2 : sq.clicks ≤ sp.clicks := Nat.le_of_lt h1
    simp [pickWinner, h1, h2]
  · by_cases h2 : sp.clicks < sq.clicks
    · have h3 : ¬ sq.clicks ≤ sp.clicks := Nat.not_le.mpr h2
      simp [pickWinner, h1, h2, h3]
    · have h3 : sq.clicks ≤ sp.clicks := Nat.le_of_not_lt h2
      cases f with
      | none => simp [pickWinner, h1, h2, h3]
      | some x =>
        by_cases hp : p = x
        · by_cases hq : q = x
          · simp [pickWinner, h1, h2, h3, hp, hq, List.find?]
          · simp [pickWinner, h1, h2, h3, hp, hq, List.find?]
        · simp [pickWinner, h1, h2, h3, hp, List.find?]

theorem resetMeta_results (g : GameManager) (u : UserId) : (resetMeta g u).results = g.results := by
  unfold resetMeta
  split
  · split <;> rfl
  · rfl

theorem foldl_resetMeta_results (us : List UserId) (g : GameManager) :
    (us.foldl resetMeta g).results = g.results := by
  induction us generalizing g with
  | nil => rfl
  | cons u us ih => simp [List.foldl, ih, resetMeta_results]

theorem finishGame_results (g : GameManager) (roomId : RoomId) (room : Room) (reason : FinishReason)
    (f : Option UserId) (now : Nat) (hroom : JsMap.get g.rooms roomId = some room) :
    ((g.finishGame roomId reason f now).results.head?).map (fun r => r.winnerId) =
      some (pickWinner (standings room.players) f) := by
  unfold finishGame
  simp only [hroom]
  simp [foldl_resetMeta_results, recordResult, RESULTS_LIMIT]

end GameManager

/-! ## Lemmas on `finishGame` -/

namespace GameManager

/-- The part of the server state that ranking updates never touch. -/
theorem ensureRanking_frame (g : GameManager) (u : UserId) :
    (g.ensureRanking u).players = g.players ∧
      (g.ensureRanking u).betManager = g.betManager ∧
      (g.ensureRanking u).houseBalance = g.houseBalance ∧
      (g.ensureRanking u).socketMeta = g.socketMeta ∧
      (g.ensureRanking u).rooms = g.rooms ∧
      (g.ensureRanking u).results = g.results ∧
      (g.ensureRanking u).sockets = g.sockets := by
  unfold ensureRanking
  by_cases h : JsMap.has g.ranking u = true
  · simp only [h, if_true]
    split <;> simp
  · simp only [h]
    split <;> simp

theorem updateGamesPlayed_frame (us : List UserId) (g : GameManager) :
    (g.updateGamesPlayed us).players = g.players ∧
      (g.updateGamesPlayed us).betManager = g.betManager ∧
      (g.updateGamesPlayed us).houseBalance = g.houseBalance ∧
      (g.updateGamesPlayed us).socketMeta = g.socketMeta ∧
      (g.updateGamesPlayed us).rooms = g.rooms ∧
      (g.updateGamesPlayed us).results = g.results ∧
      (g.updateGamesPlayed us).sockets = g.sockets := by
  unfold updateGamesPlayed
  induction us generalizing g with
  | nil => simp
  | cons u us ih =>
    simp only [List.foldl]
    obtain ⟨h1, h2, h3, h4, h5, h6, h7⟩ := ensureRanking_frame g u
    split
    · obtain ⟨i1, i2, i3, i4, i5, i6, i7⟩ := ih _
      rw [i1, i2, i3, i4, i5, i6, i7]
      exact ⟨h1, h2, h3, h4, h5, h6, h7⟩
    · obtain ⟨i1, i2, i3, i4, i5, i6, i7⟩ := ih (g.ensureRanking u)
      rw [i1, i2, i3, i4, i5, i6, i7]
      exact ⟨h1, h2, h3, h4, h5, h6, h7⟩

theorem resetMeta_frame (g : GameManager) (u : UserId) :
    (resetMeta g u).players = g.players ∧
      (resetMeta g u).betManager = g.betManager ∧
      (resetMeta g u).houseBalance = g.houseBalance ∧
      (resetMeta g u).ranking = g.ranking ∧
      (resetMeta g u).rooms = g.rooms ∧
      (resetMeta g u).sockets = g.sockets := by
  unfold resetMeta
  split
  · split <;> simp
  · simp

theorem foldl_resetMeta_frame (us : List UserId) (g : GameManager) :
    (us.foldl resetMeta g).players = g.players ∧
      (us.foldl resetMeta g).betManager = g.betManager ∧
      (us.foldl resetMeta g).houseBalance = g.houseBalance ∧
      (us.foldl resetMeta g).ranking = g.ranking ∧
      (us.foldl resetMeta g).rooms = g.rooms ∧
      (us.foldl resetMeta g).sockets = g.sockets := by
  induction us generalizing g with
  | nil => simp
  | cons u us ih =>
    simp only [List.foldl]
    obtain ⟨i1, i2, i3, i4, i5, i6⟩ := ih (resetMeta g u)
    obtain ⟨h1, h2, h3, h4, h5, h6⟩ := resetMeta_frame g u
    rw [i1, i2, i3, i4, i5, i6]
    exact ⟨h1, h2, h3, h4, h5, h6⟩

theorem updateGamesPlayed_players (us : List UserId) (g : GameManager) :
    (g.updateGamesPlayed us).players = g.players := (updateGamesPlayed_frame us g).1

theorem updateGamesPlayed_betManager (us : List UserId) (g : GameManager) :
    (g.updateGamesPlayed us).betManager = g.betManager := (updateGamesPlayed_frame us g).2.1

theorem updateGamesPlayed_houseBalance (us : List UserId) (g : GameManager) :
    (g.updateGamesPlayed us).houseBalance = g.houseBalance := (updateGamesPlayed_frame us g).2.2.1

theorem foldl_resetMeta_players (us : List UserId) (g : GameManager) :
    (us.foldl resetMeta g).players = g.players := (foldl_resetMeta_frame us g).1

theorem foldl_resetMeta_betManager (us : List UserId) (g : GameManager) :
    (us.foldl resetMeta g).betManager = g.betManager := (foldl_resetMeta_frame us g).2.1

theorem foldl_resetMeta_houseBalance (us : List UserId) (g : GameManager) :
    (us.foldl resetMeta g).houseBalance = g.houseBalance := (foldl_resetMeta_frame us g).2.2.1

/-- What `finishGame` leaves in `players`, `houseBalance` and the ledger when the room has
no BetRecord. -/
theorem finishGame_unsettled (g : GameManager) (roomId : RoomId) (room : Room)
    (reason : FinishReason) (f : Option UserId) (now : Nat)
    (hroom : JsMap.get g.rooms roomId = some room)
    (hbet : JsMap.get g.betManager.matches_ roomId = none) :
    (g.finishGame roomId reason f now).players = g.players ∧
      (g.finishGame roomId reason f now).houseBalance = g.houseBalance ∧
      (g.finishGame roomId reason f now).betManager = g.betManager := by
  unfold finishGame
  simp only [hroom]
  simp [recordResult, BetManager.settle_none _ _ _ _ hbet, updateGamesPlayed_players,
    updateGamesPlayed_betManager, updateGamesPlayed_houseBalance, foldl_resetMeta_players,
    foldl_resetMeta_betManager, foldl_resetMeta_houseBalance]

end GameManager


namespace GameManager

theorem balanceOf_creditPlayer (g : GameManager) (u v : UserId) (a : ℚ) :
    balanceOf (g.creditPlayer u a) v =
      (balanceOf g v).map (fun x => x + (if u = v then a else 0)) := by
  unfold creditPlayer
  cases hget : JsMap.get g.players u with
  | none =>
    by_cases huv : u = v
    · subst huv
      simp [balanceOf, hget]
    · simp only [balanceOf, huv, if_false, add_zero]
      cases JsMap.get g.players v <;> rfl
  | some p =>
    by_cases huv : u = v
    · subst huv
      simp [balanceOf, hget, JsMap.get_set_self]
    · simp only [balanceOf, huv, if_false, add_zero, JsMap.get_set_ne _ _ _ _ huv]
      cases JsMap.get g.players v <;> rfl

theorem balanceOf_creditPlayerById (g : GameManager) (u v : UserId) (a : ℚ) :
    balanceOf (g.creditPlayerById u a) v =
      (balanceOf g v).map (fun x => x + (if u = v then a else 0)) := by
  unfold creditPlayerById
  by_cases ha : a = 0
  · simp [ha]
  · simp only [ha, if_false]
    exact balanceOf_creditPlayer g u v a

theorem creditPlayerById_frame (g : GameManager) (u : UserId) (a : ℚ) :
    (g.creditPlayerById u a).houseBalance = g.houseBalance ∧
      (g.creditPlayerById u a).betManager = g.betManager := by
  unfold creditPlayerById creditPlayer
  split
  · simp
  · split <;> simp

end GameManager

namespace GameManager

end GameManager

/-! ## Lemmas on `queuePlayer` -/

namespace JsMap
variable {κ α : Type} [DecidableEq κ]

theorem count_eq_zero_of_get_none (m : List (κ × α)) (k : κ) (h : get m k = none) :
    count m k = 0 := by
  induction m with
  | nil => rfl
  | cons e m ih =>
    obtain ⟨k0, v0⟩ := e
    by_cases h0 : k0 = k
    · simp [get, h0] at h
    · simp only [get, h0, if_false] at h
      simpa [count, List.filter_cons, h0] using ih h

theorem count_set_self (m : List (κ × α)) (k : κ) (v : α) :
    count (set m k v) k = if count m k = 0 then 1 else count m k := by
  induction m with
  | nil => simp [set, count]
  | cons e m ih =>
    obtain ⟨k0, v0⟩ := e
    by_cases h0 : k0 = k
    · subst h0
      simp [set, count, List.filter_cons]
    · have hf : ∀ l : List (κ × α), count ((k0, v0) :: l) k = count l k := by
        intro l
        simp [count, List.filter_cons, h0]
      simp only [set, h0, if_false]
      rw [hf, hf]
      exact ih

theorem count_set_ne (m : List (κ × α)) (k k' : κ) (v : α) (h : k ≠ k') :
    count (set m k v) k' = count m k' := by
  induction m with
  | nil => simp [set, count, List.filter_cons, h]
  | cons e m ih =>
    obtain ⟨k0, v0⟩ := e
    by_cases h0 : k0 = k
    · subst h0
      simp [set, count, List.filter_cons, h]
    · simp only [set, h0, if_false]
      by_cases h1 : k0 = k'
      · simpa [count, List.filter_cons, h1] using ih
      · simpa [count, List.filter_cons, h1] using ih

end JsMap

namespace BetManager

theorem hasEscrow_false_iff (b : BetManager) (u : UserId) :
    b.hasEscrow u = false ↔ JsMap.get b.escrows u = none := by
  simp [hasEscrow, JsMap.has]

theorem isOpponent_iff (u : UserId) (a : ℚ) (e : Offer) :
    isOpponent u a e = true ↔ e.amount = a ∧ e.userId ≠ u := by
  simp [isOpponent]

/-- The ledger and result of a successful `queuePlayer` that finds an opponent. -/
theorem queuePlayer_matched (b : BetManager) (u : UserId) (a : ℚ) (now : Nat)
    (hfree : b.hasEscrow u = false)
    (hlt : b.pending.findIdx (isOpponent u a) < b.pending.length) :
    (b.queuePlayer u a now).1 =
        Except.ok { matched := true,
                    opponentId := some (b.pending[b.pending.findIdx (isOpponent u a)]).userId,
                    amount := a } ∧
      (b.queuePlayer u a now).2.pending = b.pending.eraseIdx (b.pending.findIdx (isOpponent u a)) ∧
      JsMap.get (b.queuePlayer u a now).2.escrows u =
        some { amount := a, status := .matched, lockedAt := now, roomId := none } ∧
      JsMap.get (b.queuePlayer u a now).2.escrows
          (b.pending[b.pending.findIdx (isOpponent u a)]).userId =
        (JsMap.get b.escrows (b.pending[b.pending.findIdx (isOpponent u a)]).userId).map
          (fun e => { e with status := .matched }) ∧
      JsMap.count (b.queuePlayer u a now).2.escrows u = 1 ∧
      (b.queuePlayer u a now).2.matches_ = b.matches_ := by
  have hopp : isOpponent u a (b.pending[b.pending.findIdx (isOpponent u a)]) = true :=
    List.findIdx_getElem
  have hne : u ≠ (b.pending[b.pending.findIdx (isOpponent u a)]).userId :=
    fun h => ((isOpponent_iff u a _).mp hopp).2 h.symm
  have hcount0 := JsMap.count_eq_zero_of_get_none b.escrows u ((hasEscrow_false_iff b u).mp hfree)
  have hq : (b.queuePlayer u a now).1 =
        Except.ok { matched := true,
                    opponentId := some (b.pending[b.pending.findIdx (isOpponent u a)]).userId,
                    amount := a } ∧
      (b.queuePlayer u a now).2.pending = b.pending.eraseIdx (b.pending.findIdx (isOpponent u a)) ∧
      (b.queuePlayer u a now).2.matches_ = b.matches_ ∧
      (b.queuePlayer u a now).2.escrows =
        (match JsMap.get b.escrows (b.pending[b.pending.findIdx (isOpponent u a)]).userId with
          | some oe =>
            JsMap.set
              (JsMap.set
                (JsMap.set b.escrows u { amount := a, status := .waiting, lockedAt := now, roomId := none })
                u { amount := a, status := .matched, lockedAt := now, roomId := none })
              (b.pending[b.pending.findIdx (isOpponent u a)]).userId { oe with status := .matched }
          | none =>
            JsMap.set
              (JsMap.set b.escrows u { amount := a, status := .waiting, lockedAt := now, roomId := none })
              u { amount := a, status := .matched, lockedAt := now, roomId := none }) := by
    unfold queuePlayer
    rw [if_neg (by simp [hfree]), dif_pos hlt]
    simp only [log_escrows, log_pending, log_matches, JsMap.get_set_ne _ _ _ _ hne]
    cases JsMap.get b.escrows (b.pending[b.pending.findIdx (isOpponent u a)]).userId <;> simp
  obtain ⟨q1, q2, q3, q4⟩ := hq
  refine ⟨q1, q2, ?_, ?_, ?_, q3⟩
  · rw [q4]
    cases JsMap.get b.escrows (b.pending[b.pending.findIdx (isOpponent u a)]).userId with
    | none => exact JsMap.get_set_self _ _ _
    | some oe =>
      simp only []
      rw [JsMap.get_set_ne _ _ _ _ hne.symm]
      exact JsMap.get_set_self _ _ _
  · rw [q4]
    cases hget : JsMap.get b.escrows (b.pending[b.pending.findIdx (isOpponent u a)]).userId with
    | none =>
      simp only [Option.map_none']
      rw [JsMap.get_set_ne _ _ _ _ hne, JsMap.get_set_ne _ _ _ _ hne]
      exact hget
    | some oe => exact JsMap.get_set_self _ _ _
  · rw [q4]
    cases JsMap.get b.escrows (b.pending[b.pending.findIdx (isOpponent u a)]).userId with
    | none =>
      simp only []
      rw [JsMap.count_set_self, JsMap.count_set_self, hcount0]
      simp
    | some oe =>
      simp only []
      rw [JsMap.count_set_ne _ _ _ _ hne.symm, JsMap.count_set_self, JsMap.count_set_self, hcount0]
      simp

/-- The ledger and result of a successful `queuePlayer` that finds no opponent. -/
theorem queuePlayer_waiting (b : BetManager) (u : UserId) (a : ℚ) (now : Nat)
    (hfree : b.hasEscrow u = false)
    (hnot : ¬ b.pending.findIdx (isOpponent u a) < b.pending.length) :
    (b.queuePlayer u a now).1 = Except.ok { matched := false, opponentId := none, amount := a } ∧
      (b.queuePlayer u a now).2.pending =
        b.pending ++ [{ userId := u, amount := a, createdAt := now }] ∧
      JsMap.get (b.queuePlayer u a now).2.escrows u =
        some { amount := a, status := .waiting, lockedAt := now, roomId := none } ∧
      JsMap.count (b.queuePlayer u a now).2.escrows u = 1 ∧
      (b.queuePlayer u a now).2.matches_ = b.matches_ := by
  have hcount0 := JsMap.count_eq_zero_of_get_none b.escrows u ((hasEscrow_false_iff b u).mp hfree)
  have hq : (b.queuePlayer u a now).1
        = Except.ok { matched := false, opponentId := none, amount := a } ∧
      (b.queuePlayer u a now).2.pending =
        b.pending ++ [{ userId := u, amount := a, createdAt := now }] ∧
      (b.queuePlayer u a now).2.matches_ = b.matches_ ∧
      (b.queuePlayer u a now).2.escrows =
        JsMap.set b.escrows u { amount := a, status := .waiting, lockedAt := now, roomId := none } := by
    unfold queuePlayer
    rw [if_neg (by simp [hfree]), dif_neg hnot]
    exact ⟨rfl, rfl, rfl, rfl⟩
  obtain ⟨q1, q2, q3, q4⟩ := hq
  refine ⟨q1, q2, ?_, ?_, q3⟩
  · rw [q4]
    exact JsMap.get_set_self _ _ _
  · rw [q4, JsMap.count_set_self, hcount0]
    simp

end BetManager

/-! ## Lemmas on emissions and on the click limiter -/

namespace GameManager

/-- The state component of `enqueuePlayerEmit` is `enqueuePlayer`. -/
theorem enqueuePlayerEmit_state (g : GameManager) (socket : SocketId) (amount : Option ℚ)
    (now : Nat) (uuid : RoomId) :
    (g.enqueuePlayerEmit socket amount now uuid).2 = g.enqueuePlayer socket amount now uuid := by
  unfold enqueuePlayerEmit enqueuePlayer
  cases JsMap.get g.socketMeta socket with
  | none => rfl
  | some m =>
    simp only []
    by_cases hroom : m.roomId.isSome = true
    · rw [if_pos hroom, if_pos hroom]
    · rw [if_neg hroom, if_neg hroom]
      cases JsMap.get g.players m.userId with
      | none => rfl
      | some player =>
        cases amount with
        | none => rfl
        | some a =>
          simp only []
          by_cases hallow : ¬ a ∈ g.allowedBets
          · rw [if_pos hallow, if_pos hallow]
          · rw [if_neg hallow, if_neg hallow]
            by_cases hesc : g.betManager.hasEscrow m.userId = true
            · rw [if_pos hesc, if_pos hesc]
            · rw [if_neg hesc, if_neg hesc]
              by_cases hbal : player.balance < a
              · rw [if_pos hbal, if_pos hbal]
              · rw [if_neg hbal, if_neg hbal]
                generalize (g.debitPlayer m.userId a).betManager.queuePlayer m.userId a now = q
                obtain ⟨q1, q2⟩ := q
                cases q1 with
                | error msg => rfl
                | ok res =>
                  obtain ⟨matched, opp, amt⟩ := res
                  cases matched <;> cases opp <;> rfl

/-- The state component of `handleClickEmit` is `handleClick`. -/
theorem handleClickEmit_state (g : GameManager) (socket : SocketId) (now : Nat) :
    (g.handleClickEmit socket now).2 = g.handleClick socket now := by
  unfold handleClickEmit handleClick
  cases JsMap.get g.socketMeta socket with
  | none => rfl
  | some m =>
    obtain ⟨uid, rid, last, ws, cnt⟩ := m
    cases rid with
    | none => rfl
    | some roomId =>
      simp only []
      cases JsMap.get g.rooms roomId with
      | none => rfl
      | some room =>
        simp only []
        by_cases hrun : room.status ≠ .running
        · rw [if_pos hrun, if_pos hrun]
        · rw [if_neg hrun, if_neg hrun]
          cases JsMap.get room.players uid with
          | none => rfl
          | some ps =>
            simp only []
            by_cases hint : now - last < MIN_CLICK_INTERVAL_MS
            · rw [if_pos hint, if_pos hint]
            · rw [if_neg hint, if_neg hint]
              by_cases hw : now - ws ≥ 1000
              · simp only [rollWindow, if_pos hw]
                split_ifs <;> rfl
              · simp only [rollWindow, if_neg hw]
                split_ifs <;> rfl

end GameManager

namespace GameManager

/-- `handleClick` with its emission, when a guard ahead of the limiter drops the click. -/
theorem handleClickEmit_of_no_context (g : GameManager) (socket : SocketId) (now : Nat)
    (h : clickContext g socket = none) : g.handleClickEmit socket now = (none, g) := by
  unfold clickContext at h
  unfold handleClickEmit
  cases hm : JsMap.get g.socketMeta socket with
  | none => rfl
  | some m =>
    rw [hm] at h
    obtain ⟨uid, rid, last, ws, cnt⟩ := m
    cases rid with
    | none => rfl
    | some roomId =>
      simp only [] at h ⊢
      cases hroom : JsMap.get g.rooms roomId with
      | none => rfl
      | some room =>
        rw [hroom] at h
        simp only [] at h ⊢
        by_cases hrun : room.status ≠ .running
        · rw [if_pos hrun]
        · rw [if_neg hrun] at h ⊢
          cases hps : JsMap.get room.players uid with
          | none => rfl
          | some ps =>
            rw [hps] at h
            exact Option.noConfusion h

/-- `handleClick` with its emission, when the guards ahead of the limiter pass. -/
theorem handleClickEmit_of_context (g : GameManager) (socket : SocketId) (now : Nat)
    (m : SocketMeta) (roomId : RoomId) (room : Room) (ps : PlayerState)
    (h : clickContext g socket = some (m, roomId, room, ps)) :
    g.handleClickEmit socket now =
      if limiterPasses m now then
        (some (.update roomId (buildClickSnapshot
            { room with players := JsMap.set room.players m.userId { ps with clicks := ps.clicks + 1 } })),
         { g with
           socketMeta := JsMap.set g.socketMeta socket (limiterNext m now)
           rooms := JsMap.set g.rooms roomId
             { room with players := JsMap.set room.players m.userId { ps with clicks := ps.clicks + 1 } } })
      else if now - m.lastClickTs < MIN_CLICK_INTERVAL_MS then (none, g)
      else (some .warning, { g with socketMeta := JsMap.set g.socketMeta socket (limiterNext m now) }) := by
  unfold clickContext at h
  unfold handleClickEmit
  cases hm : JsMap.get g.socketMeta socket with
  | none => rw [hm] at h; exact Option.noConfusion h
  | some m0 =>
    rw [hm] at h
    obtain ⟨uid, rid, last, ws, cnt⟩ := m0
    cases rid with
    | none => exact Option.noConfusion h
    | some r =>
      simp only [] at h ⊢
      cases hroom : JsMap.get g.rooms r with
      | none => rw [hroom] at h; exact Option.noConfusion h
      | some room0 =>
        rw [hroom] at h
        simp only [] at h ⊢
        by_cases hrun : room0.status ≠ .running
        · rw [if_pos hrun] at h; exact Option.noConfusion h
        · rw [if_neg hrun] at h ⊢
          cases hps : JsMap.get room0.players uid with
          | none => rw [hps] at h; exact Option.noConfusion h
          | some ps0 =>
            rw [hps] at h
            simp only [Option.some.injEq, Prod.mk.injEq] at h
            obtain ⟨rfl, rfl, rfl, rfl⟩ := h
            simp only []
            by_cases hint : now - last < MIN_CLICK_INTERVAL_MS
            · have hp : limiterPasses ⟨uid, some r, last, ws, cnt⟩ now = false := by
                simp [limiterPasses, hint]
              rw [if_pos hint, hp]
              simp [hint]
            · rw [if_neg hint]
              by_cases hfull : (rollWindow ⟨uid, some r, last, ws, cnt⟩ now).clicksThisWindow
                  ≥ MAX_CLICKS_PER_SECOND
              · have hp : limiterPasses ⟨uid, some r, last, ws, cnt⟩ now = false := by
                  simp [limiterPasses, hfull]
                rw [if_pos hfull, hp]
                simp [hint, limiterNext, hfull]
              · have hp : limiterPasses ⟨uid, some r, last, ws, cnt⟩ now = true := by
                  simp [limiterPasses, hint, hfull]
                rw [if_neg hfull, hp]
                simp [limiterNext, hint, hfull]

end GameManager

namespace GameManager

theorem limiterNext_userId (m : SocketMeta) (now : Nat) : (limiterNext m now).userId = m.userId := by
  unfold limiterNext rollWindow
  split_ifs <;> rfl

theorem limiterNext_roomId (m : SocketMeta) (now : Nat) : (limiterNext m now).roomId = m.roomId := by
  unfold limiterNext rollWindow
  split_ifs <;> rfl

/-- The three ways a click leaves the limiter: rejected (too early, or window full), and then
no limiter field changes; counted as the first click of a new window; or counted in the
current window. -/
theorem limiterNext_cases (m : SocketMeta) (now : Nat) :
    (limiterPasses m now = false ∧ limiterNext m now = m) ∨
      (limiterPasses m now = true ∧ m.lastClickTs + 60 ≤ now ∧ m.cpsWindowStart + 1000 ≤ now ∧
        limiterNext m now =
          { m with cpsWindowStart := now, clicksThisWindow := 1, lastClickTs := now }) ∨
      (limiterPasses m now = true ∧ m.lastClickTs + 60 ≤ now ∧ now - m.cpsWindowStart < 1000 ∧
        m.clicksThisWindow < 15 ∧
        limiterNext m now =
          { m with clicksThisWindow := m.clicksThisWindow + 1, lastClickTs := now }) := by
  unfold limiterPasses limiterNext rollWindow
  simp only [MIN_CLICK_INTERVAL_MS, MAX_CLICKS_PER_SECOND]
  by_cases h1 : now - m.lastClickTs < 60
  · left
    simp [h1]
  · have h1' : m.lastClickTs + 60 ≤ now := by omega
    by_cases h2 : now - m.cpsWindowStart ≥ 1000
    · right; left
      have h2' : m.cpsWindowStart + 1000 ≤ now := by omega
      simp [h1, h2, h1', h2']
    · by_cases h3 : m.clicksThisWindow ≥ 15
      · left
        simp [h1, h2, h3]
      · right; right
        have h3' : m.clicksThisWindow < 15 := by omega
        have h2' : now - m.cpsWindowStart < 1000 := by omega
        simp [h1, h2, h3, h1', h2', h3']


theorem windowCount_cons (t x w : Nat) (l : List (Nat × Nat)) :
    (((t, x) :: l).filter (fun e => decide (e.2 = w))).length =
      (if x = w then 1 else 0) + (l.filter (fun e => decide (e.2 = w))).length := by
  by_cases h : x = w
  · simp [List.filter_cons, h]
    omega
  · simp [List.filter_cons, h]

/-- Window bound of the limiter alone: the clicks counted under a window start `w` number at
most what the window still admits. -/
theorem limiterRun_window_count (ts : List Nat) (m : SocketMeta) (w : Nat) :
    ((limiterRun m ts).filter (fun e => decide (e.2 = w))).length ≤
      if w = m.cpsWindowStart then 15 - m.clicksThisWindow
      else if m.cpsWindowStart < w then 15 else 0 := by
  induction ts generalizing m with
  | nil => simp [limiterRun]
  | cons t ts ih =>
    have ih' := ih (limiterNext m t)
    rcases limiterNext_cases m t with ⟨hp, hn⟩ | ⟨hp, -, hw, hn⟩ | ⟨hp, -, hw, hc, hn⟩
    · simp only [limiterRun, hp, hn] at ih' ⊢
      simpa using ih'
    · simp only [limiterRun, hp, hn, if_true, List.singleton_append, windowCount_cons] at ih' ⊢
      split_ifs at ih' ⊢ <;> omega
    · simp only [limiterRun, hp, hn, if_true, List.singleton_append, windowCount_cons] at ih' ⊢
      split_ifs at ih' ⊢ <;> omega

/-- Every click the limiter counts is one of the clicks handled. -/
theorem limiterRun_subset (ts : List Nat) (m : SocketMeta) :
    ∀ e ∈ limiterRun m ts, e.1 ∈ ts := by
  induction ts generalizing m with
  | nil => simp [limiterRun]
  | cons t ts ih =>
    intro e he
    simp only [limiterRun, List.mem_append] at he
    rcases he with he | he
    · split_ifs at he
      · simp only [List.mem_singleton] at he
        rw [he]
        exact List.mem_cons_self _ _
      · simp at he
    · exact List.mem_cons_of_mem _ (ih _ e he)

/-- Every counted click lies in the 1000 ms after the window start it is counted under, for
non-decreasing timestamps that are not before the current window start. -/
theorem limiterRun_in_window (ts : List Nat) (m : SocketMeta)
    (hsorted : ts.Pairwise (fun a b => a ≤ b)) (hstart : ∀ t ∈ ts, m.cpsWindowStart ≤ t) :
    ∀ e ∈ limiterRun m ts, e.2 ≤ e.1 ∧ e.1 < e.2 + 1000 := by
  induction ts generalizing m with
  | nil => simp [limiterRun]
  | cons t ts ih =>
    obtain ⟨hhead, htail⟩ := List.pairwise_cons.mp hsorted
    have ht : m.cpsWindowStart ≤ t := hstart t (List.mem_cons_self _ _)
    have hts : ∀ x ∈ ts, m.cpsWindowStart ≤ x := fun x hx => hstart x (List.mem_cons_of_mem _ hx)
    intro e he
    simp only [limiterRun, List.mem_append] at he
    rcases limiterNext_cases m t with ⟨hp, hn⟩ | ⟨hp, -, hw, hn⟩ | ⟨hp, -, hw, hc, hn⟩
    · rw [hp, hn] at he
      rcases he with he | he
      · simp at he
      · exact ih m htail hts e he
    · rw [hp, hn] at he
      rcases he with he | he
      · simp only [if_true, List.mem_singleton] at he
        rw [he]
        simp
      · exact ih _ htail (fun x hx => hhead x hx) e he
    · rw [hp, hn] at he
      rcases he with he | he
      · simp only [if_true, List.mem_singleton] at he
        rw [he]
        simp only []
        omega
      · exact ih { m with clicksThisWindow := m.clicksThisWindow + 1, lastClickTs := t } htail
          (fun x hx => hts x hx) e he

/-- Spacing of the limiter alone: the counted clicks are at least 60 ms after the last
counted click before them. -/
theorem limiterRun_spacing (ts : List Nat) (m : SocketMeta) :
    (∀ x ∈ (limiterRun m ts).map Prod.fst, m.lastClickTs + 60 ≤ x) ∧
      List.Chain' (fun a b => a + 60 ≤ b) ((limiterRun m ts).map Prod.fst) := by
  induction ts generalizing m with
  | nil => simp [limiterRun]
  | cons t ts ih =>
    obtain ⟨ih1, ih2⟩ := ih (limiterNext m t)
    rcases limiterNext_cases m t with ⟨hp, hn⟩ | ⟨hp, hl, -, hn⟩ | ⟨hp, hl, -, -, hn⟩
    · simp only [limiterRun, hp, hn] at ih1 ih2 ⊢
      exact ⟨fun x hx => ih1 x (by simpa using hx), by simpa using ih2⟩
    all_goals
      simp only [limiterRun, hp, hn, if_true, List.singleton_append, List.map_cons] at ih1 ih2 ⊢
      refine ⟨?_, ?_⟩
      · intro x hx
        rcases List.mem_cons.mp hx with hx | hx
        · omega
        · have := ih1 x hx
          omega
      · exact List.chain'_cons'.mpr ⟨fun y hy => ih1 y (List.mem_of_mem_head? hy), ih2⟩

/-- A list whose neighbours are at least 60 apart and whose elements lie in `[lo, lo + d]`
has at most `d / 60 + 1` elements. -/
theorem spaced_length_le (l : List Nat) (lo d : Nat)
    (hchain : List.Chain' (fun a b => a + 60 ≤ b) l) (hrange : ∀ x ∈ l, lo ≤ x ∧ x ≤ lo + d) :
    l.length ≤ d / 60 + 1 := by
  have key : ∀ (l : List Nat) (a : Nat), List.Chain (fun a b => a + 60 ≤ b) a l →
      ∀ hi, (∀ x ∈ a :: l, x ≤ hi) → a + 60 * l.length ≤ hi := by
    intro l
    induction l with
    | nil => intro a _ hi h; simpa using h a (List.mem_cons_self _ _)
    | cons b l ih =>
      intro a hc hi h
      obtain ⟨hab, hc'⟩ := List.chain_cons.mp hc
      have := ih b hc' hi (fun x hx => h x (List.mem_cons_of_mem _ hx))
      simp only [List.length_cons]
      omega
  cases l with
  | nil => simp
  | cons a l =>
    have h1 := key l a hchain (lo + d) (fun x hx => (hrange x hx).2)
    have h2 := (hrange a (List.mem_cons_self _ _)).1
    have h3 : l.length * 60 ≤ d := by omega
    have h4 : l.length ≤ d / 60 := (Nat.le_div_iff_mul_le (by norm_num)).mpr h3
    simp only [List.length_cons]
    omega

end GameManager

namespace JsMap
variable {κ α : Type} [DecidableEq κ]

/-- Writing back the value a key already has changes nothing. -/
theorem set_get_self (m : List (κ × α)) (k : κ) (v : α) (h : get m k = some v) :
    set m k v = m := by
  induction m with
  | nil => simp [get] at h
  | cons e m ih =>
    obtain ⟨k0, v0⟩ := e
    by_cases h0 : k0 = k
    · subst h0
      simp only [get, if_true, Option.some.injEq] at h
      simp [set, h]
    · simp only [get, h0, if_false] at h
      simp [set, h0, ih h]

end JsMap

namespace GameManager

theorem clickContext_iff (g : GameManager) (socket : SocketId) (m : SocketMeta) (r : RoomId)
    (room : Room) (ps : PlayerState) :
    clickContext g socket = some (m, r, room, ps) ↔
      JsMap.get g.socketMeta socket = some m ∧ m.roomId = some r ∧
        JsMap.get g.rooms r = some room ∧ room.status = RoomStatus.running ∧
        JsMap.get room.players m.userId = some ps := by
  unfold clickContext
  constructor
  · intro h
    cases hm : JsMap.get g.socketMeta socket with
    | none => rw [hm] at h; exact Option.noConfusion h
    | some m0 =>
      rw [hm] at h
      simp only [] at h
      cases hr : m0.roomId with
      | none => rw [hr] at h; exact Option.noConfusion h
      | some r0 =>
        rw [hr] at h
        simp only [] at h
        cases hroom : JsMap.get g.rooms r0 with
        | none => rw [hroom] at h; exact Option.noConfusion h
        | some room0 =>
          rw [hroom] at h
          simp only [] at h
          by_cases hrun : room0.status ≠ .running
          · rw [if_pos hrun] at h; exact Option.noConfusion h
          · rw [if_neg hrun] at h
            cases hps : JsMap.get room0.players m0.userId with
            | none => rw [hps] at h; exact Option.noConfusion h
            | some ps0 =>
              rw [hps] at h
              simp only [Option.some.injEq, Prod.mk.injEq] at h
              obtain ⟨rfl, rfl, rfl, rfl⟩ := h
              exact ⟨rfl, hr, hroom, not_not.mp hrun, hps⟩
  · rintro ⟨hm, hr, hroom, hrun, hps⟩
    simp [hm, hr, hroom, hrun, hps]

/-- Outside a click context `handleClick` changes nothing. -/
theorem handleClick_of_no_context (g : GameManager) (socket : SocketId) (now : Nat)
    (h : clickContext g socket = none) : g.handleClick socket now = g := by
  rw [← handleClickEmit_state, handleClickEmit_of_no_context g socket now h]

/-- A rejected click changes nothing at all. -/
theorem handleClick_of_rejected (g : GameManager) (socket : SocketId) (now : Nat)
    (m : SocketMeta) (r : RoomId) (room : Room) (ps : PlayerState)
    (h : clickContext g socket = some (m, r, room, ps)) (hp : limiterPasses m now = false) :
    g.handleClick socket now = g := by
  rw [← handleClickEmit_state, handleClickEmit_of_context g socket now m r room ps h, hp,
    if_neg Bool.false_ne_true]
  obtain ⟨hm, -, -, -, -⟩ := (clickContext_iff g socket m r room ps).mp h
  rcases limiterNext_cases m now with ⟨-, hn⟩ | ⟨hp', -⟩ | ⟨hp', -⟩
  · rw [hn, JsMap.set_get_self _ _ _ hm]
    split_ifs <;> rfl
  · rw [hp] at hp'; exact Bool.noConfusion hp'
  · rw [hp] at hp'; exact Bool.noConfusion hp'

/-- A click that passes the limiter is counted for the identity of the socket. -/
theorem handleClick_of_passed (g : GameManager) (socket : SocketId) (now : Nat)
    (m : SocketMeta) (r : RoomId) (room : Room) (ps : PlayerState)
    (h : clickContext g socket = some (m, r, room, ps)) (hp : limiterPasses m now = true) :
    g.handleClick socket now =
      { g with
        socketMeta := JsMap.set g.socketMeta socket (limiterNext m now)
        rooms := JsMap.set g.rooms r
          { room with players := JsMap.set room.players m.userId { ps with clicks := ps.clicks + 1 } } } := by
  rw [← handleClickEmit_state, handleClickEmit_of_context g socket now m r room ps h, hp,
    if_pos rfl]

/-- The click context after a click: the limiter fields advance, and the count of the
identity goes up by one exactly when the click passes the limiter. -/
theorem clickContext_handleClick (g : GameManager) (socket : SocketId) (now : Nat)
    (m : SocketMeta) (r : RoomId) (room : Room) (ps : PlayerState)
    (h : clickContext g socket = some (m, r, room, ps)) :
    ∃ room' ps', clickContext (g.handleClick socket now) socket
        = some (limiterNext m now, r, room', ps') ∧
      ps'.clicks = ps.clicks + (if limiterPasses m now then 1 else 0) := by
  obtain ⟨hm, hr, hroom, hrun, hps⟩ := (clickContext_iff g socket m r room ps).mp h
  cases hp : limiterPasses m now with
  | false =>
    rw [handleClick_of_rejected g socket now m r room ps h hp]
    rcases limiterNext_cases m now with ⟨-, hn⟩ | ⟨hp', -⟩ | ⟨hp', -⟩
    · exact ⟨room, ps, by rw [hn]; exact h, by simp⟩
    · rw [hp] at hp'; exact Bool.noConfusion hp'
    · rw [hp] at hp'; exact Bool.noConfusion hp'
  | true =>
    rw [handleClick_of_passed g socket now m r room ps h hp]
    refine ⟨{ room with
        players := JsMap.set room.players m.userId { ps with clicks := ps.clicks + 1 } },
      { ps with clicks := ps.clicks + 1 }, ?_, by simp⟩
    rw [clickContext_iff]
    refine ⟨JsMap.get_set_self _ _ _, ?_, JsMap.get_set_self _ _ _, hrun, ?_⟩
    · rw [limiterNext_roomId]; exact hr
    · rw [limiterNext_userId]
      exact JsMap.get_set_self _ _ _

/-- Outside a click context no click is counted. -/
theorem clickCounted_of_no_context (g : GameManager) (socket : SocketId) (now : Nat)
    (h : clickContext g socket = none) : clickCounted g socket now = false := by
  simp [clickCounted, handleClick_of_no_context g socket now h]

/-- In a click context a click is counted exactly when it passes the limiter. -/
theorem clickCounted_of_context (g : GameManager) (socket : SocketId) (now : Nat)
    (m : SocketMeta) (r : RoomId) (room : Room) (ps : PlayerState)
    (h : clickContext g socket = some (m, r, room, ps)) :
    clickCounted g socket now = limiterPasses m now := by
  obtain ⟨hm, hr, hroom, hrun, hps⟩ := (clickContext_iff g socket m r room ps).mp h
  cases hp : limiterPasses m now with
  | false => simp [clickCounted, handleClick_of_rejected g socket now m r room ps h hp]
  | true =>
    have hne : (g.handleClick socket now).rooms ≠ g.rooms := by
      rw [handleClick_of_passed g socket now m r room ps h hp]
      intro heq
      have h1 := congrArg (fun l => JsMap.get l r) heq
      simp only [JsMap.get_set_self, hroom, Option.some.injEq] at h1
      have h2 := congrArg (fun (x : Room) => JsMap.get x.players m.userId) h1
      simp only [JsMap.get_set_self, hps, Option.some.injEq] at h2
      have h3 := congrArg PlayerState.clicks h2
      simp at h3
    simp [clickCounted, hne]

/-- The clicks counted by `handleClick` are those the limiter lets through, and none
outside a click context. -/
theorem acceptedClicks_eq (ts : List Nat) (g : GameManager) (socket : SocketId) :
    acceptedClicks g socket ts =
      match clickContext g socket with
      | some c => limiterRun c.1 ts
      | none => [] := by
  induction ts generalizing g with
  | nil =>
    cases clickContext g socket <;> rfl
  | cons t ts ih =>
    cases h : clickContext g socket with
    | none =>
      simp only [acceptedClicks, clickCounted_of_no_context g socket t h,
        handleClick_of_no_context g socket t h]
      rw [ih g, h]
      simp
    | some c =>
      obtain ⟨m, r, room, ps⟩ := c
      obtain ⟨room', ps', hctx, -⟩ := clickContext_handleClick g socket t m r room ps h
      have hw : windowStart (g.handleClick socket t) socket = (limiterNext m t).cpsWindowStart := by
        obtain ⟨hm', -⟩ := (clickContext_iff _ socket _ r room' ps').mp hctx
        simp [windowStart, hm']
      simp only [acceptedClicks, clickCounted_of_context g socket t m r room ps h, hw, limiterRun]
      rw [ih (g.handleClick socket t), hctx]

end GameManager

namespace GameManager

/-- A click on a socket without meta, without room id, whose room is missing or not running,
or whose identity is not in the room, emits nothing and changes nothing. -/
theorem handleClickEmit_dropped (g : GameManager) (socket : SocketId) (now : Nat)
    (h : JsMap.get g.socketMeta socket = none ∨
      ∃ m, JsMap.get g.socketMeta socket = some m ∧
        (m.roomId = none ∨
          ∃ r, m.roomId = some r ∧
            (JsMap.get g.rooms r = none ∨
              ∃ room, JsMap.get g.rooms r = some room ∧
                (room.status ≠ RoomStatus.running ∨ JsMap.get room.players m.userId = none)))) :
    g.handleClickEmit socket now = (none, g) := by
  unfold handleClickEmit
  rcases h with h | ⟨m, hm, h⟩
  · simp [h]
  · simp only [hm]
    rcases h with h | ⟨r, hr, h⟩
    · simp [h]
    · simp only [hr]
      rcases h with h | ⟨room, hroom, h⟩
      · simp [h]
      · simp only [hroom]
        rcases h with h | h
        · simp [h]
        · by_cases hrun : room.status ≠ RoomStatus.running
          · simp [hrun]
          · simp [hrun, h]

/-- A click never brings back a room that is absent. -/
theorem handleClick_room_absent (g : GameManager) (socket : SocketId) (now : Nat) (roomId : RoomId)
    (habsent : JsMap.get g.rooms roomId = none) :
    JsMap.get (g.handleClick socket now).rooms roomId = none := by
  cases h : clickContext g socket with
  | none => rw [handleClick_of_no_context g socket now h]; exact habsent
  | some c =>
    obtain ⟨m, r, room, ps⟩ := c
    cases hp : limiterPasses m now with
    | false => rw [handleClick_of_rejected g socket now m r room ps h hp]; exact habsent
    | true =>
      obtain ⟨-, -, hroom, -, -⟩ := (clickContext_iff g socket m r room ps).mp h
      have hne : r ≠ roomId := by
        intro heq
        rw [heq, habsent] at hroom
        exact Option.noConfusion hroom
      rw [handleClick_of_passed g socket now m r room ps h hp]
      simp only []
      rw [JsMap.get_set_ne _ _ _ _ hne]
      exact habsent

end GameManager

/-! ## Lemmas on cancelling, unlocking and finishing -/

/-- Without a pending offer and without an escrow, `cancelWaiting` returns 0 and changes
nothing. -/
theorem cancelWaiting_idle (b : BetManager) (u : UserId) (reason : String) (now : Nat)
    (hoffer : ∀ o ∈ b.pending, o.userId ≠ u) (hfree : b.hasEscrow u = false) :
    b.cancelWaiting u reason now = (0, b) := by
  have hidx : b.pending.findIdx (fun entry => decide (entry.userId = u)) = b.pending.length := by
    rw [List.findIdx_eq_length]
    intro o ho
    simpa using hoffer o ho
  have hget : JsMap.get b.escrows u = none := (BetManager.hasEscrow_false_iff b u).mp hfree
  simp [BetManager.cancelWaiting, hidx, BetManager.unlockUser, hget]

/-- Without the room, `finishGame` returns at once. -/
theorem finishGame_of_no_room (g : GameManager) (roomId : RoomId) (reason : FinishReason)
    (f : Option UserId) (now : Nat) (h : JsMap.get g.rooms roomId = none) :
    g.finishGame roomId reason f now = g := by
  simp [GameManager.finishGame, h]

/-- After `finishGame` the room is gone. -/
theorem finishGame_room_gone (g : GameManager) (roomId : RoomId) (reason : FinishReason)
    (f : Option UserId) (now : Nat) :
    JsMap.get (g.finishGame roomId reason f now).rooms roomId = none := by
  cases hroom : JsMap.get g.rooms roomId with
  | none => rw [finishGame_of_no_room g roomId reason f now hroom]; exact hroom
  | some room =>
    unfold GameManager.finishGame
    simp only [hroom]
    exact JsMap.get_delete_self _ _

namespace BetManager

/-- What `unlockUser` returns and leaves behind. -/
theorem unlockUser_spec (b : BetManager) (u : UserId) (reason : String) (now : Nat) :
    (b.unlockUser u reason now).1 = escrowAmount b u ∧
      (∀ v, JsMap.get (b.unlockUser u reason now).2.escrows v =
        if u = v then none else JsMap.get b.escrows v) ∧
      (b.unlockUser u reason now).2.matches_ = b.matches_ ∧
      (b.unlockUser u reason now).2.pending = b.pending := by
  unfold unlockUser escrowAmount
  cases hget : JsMap.get b.escrows u with
  | none =>
    refine ⟨rfl, fun v => ?_, rfl, rfl⟩
    by_cases huv : u = v
    · subst huv
      simp [hget]
    · simp [huv]
  | some e =>
    refine ⟨rfl, fun v => ?_, rfl, rfl⟩
    by_cases huv : u = v
    · subst huv
      simp [log_escrows, JsMap.get_delete_self]
    · simp [log_escrows, huv, JsMap.get_delete_ne _ _ _ huv]

end BetManager

namespace GameManager

theorem creditPlayerById_rooms (g : GameManager) (u : UserId) (a : ℚ) :
    (g.creditPlayerById u a).rooms = g.rooms ∧
      (g.creditPlayerById u a).socketMeta = g.socketMeta ∧
      (g.creditPlayerById u a).sockets = g.sockets := by
  unfold creditPlayerById creditPlayer
  split
  · simp
  · split <;> simp

/-- The offline branch of `createRoom` for two identities. -/
theorem createRoom_offline (g : GameManager) (u1 u2 : UserId) (a : ℚ) (now : Nat) (roomId : RoomId)
    (hoff : (liveSocket g u1).isNone = true ∨ (liveSocket g u2).isNone = true) :
    g.createRoom [u1, u2] a now roomId =
      (false,
        ({ g with
            betManager :=
              ((g.betManager.unlockUser u1 "oponente-offline" now).2.unlockUser u2 "oponente-offline"
                now).2 }.creditPlayerById u1
              (g.betManager.unlockUser u1 "oponente-offline" now).1).creditPlayerById u2
          ((g.betManager.unlockUser u1 "oponente-offline" now).2.unlockUser u2 "oponente-offline"
            now).1) := by
  have hany : ([u1, u2].any fun userId => (liveSocket g userId).isNone) = true := by
    rcases hoff with h | h <;> simp [h]
  unfold createRoom
  rw [if_pos hany]
  rfl

end GameManager

namespace BetManager

end BetManager

/-! ## Lemmas on the ranking order, the transaction log and the pending list -/

theorem rankedBefore_iff (a b : RankStats) :
    GameManager.rankedBefore a b ↔
      b.wins < a.wins ∨ (b.wins = a.wins ∧ b.creditsEarned ≤ a.creditsEarned) := by
  unfold GameManager.rankedBefore
  by_cases h : b.wins = a.wins
  · rw [if_pos h]
    constructor
    · intro hc
      exact Or.inr ⟨h, hc⟩
    · intro hc
      rcases hc with hlt | ⟨_, hc⟩
      · omega
      · exact hc
  · rw [if_neg h]
    constructor
    · intro hc
      exact Or.inl hc
    · intro hc
      rcases hc with hlt | ⟨he, _⟩
      · exact hlt
      · exact absurd he h

theorem rankedBefore_total (a b : RankStats) :
    GameManager.rankedBefore a b ∨ GameManager.rankedBefore b a := by
  rw [rankedBefore_iff, rankedBefore_iff]
  rcases Nat.lt_trichotomy a.wins b.wins with h | h | h
  · exact Or.inr (Or.inl h)
  · rcases le_total a.creditsEarned b.creditsEarned with hc | hc
    · exact Or.inr (Or.inr ⟨h, hc⟩)
    · exact Or.inl (Or.inr ⟨h.symm, hc⟩)
  · exact Or.inl (Or.inl h)

theorem rankedBefore_trans (a b c : RankStats) (hab : GameManager.rankedBefore a b)
    (hbc : GameManager.rankedBefore b c) : GameManager.rankedBefore a c := by
  rw [rankedBefore_iff] at hab hbc ⊢
  rcases hab with h1 | ⟨h1, c1⟩ <;> rcases hbc with h2 | ⟨h2, c2⟩
  · exact Or.inl (by omega)
  · exact Or.inl (by omega)
  · exact Or.inl (by omega)
  · exact Or.inr ⟨by omega, le_trans c2 c1⟩

theorem getTransactions_of_pos (b : BetManager) (limit : Nat) (h : 0 < limit) :
    b.getTransactions limit = b.transactions.reverse.take limit := by
  unfold BetManager.getTransactions
  rw [if_neg (by omega)]
  rw [List.take_reverse]

theorem newestEntries_of_le (l : List Tx) (h : l.length ≤ LOG_LIMIT) : newestEntries l = l := by
  unfold newestEntries
  rw [Nat.sub_eq_zero_of_le h]
  rfl

theorem newestEntries_length (l : List Tx) : (newestEntries l).length ≤ LOG_LIMIT := by
  unfold newestEntries
  rw [List.length_drop]
  omega

theorem newestEntries_append (l es : List Tx) :
    newestEntries (newestEntries l ++ es) = newestEntries (l ++ es) := by
  by_cases h : l.length ≤ LOG_LIMIT
  · rw [newestEntries_of_le l h]
  · unfold newestEntries
    simp only [List.length_append, List.length_drop]
    generalize LOG_LIMIT = n at h
    have h1 : l.length - (l.length - n) + es.length - n = es.length := by omega
    have h2 : l.length + es.length - n = l.length - n + es.length := by omega
    have hA : List.drop (l.length - n) (l ++ es) = List.drop (l.length - n) l ++ es :=
      List.drop_append_of_le_length (by omega)
    rw [h1, h2, ← List.drop_drop, hA]

theorem newestEntries_suffix (l es : List Tx) (h : es.length ≤ LOG_LIMIT) :
    es <:+ newestEntries (l ++ es) := by
  unfold newestEntries
  rw [List.drop_append_of_le_length (by simp only [List.length_append]; omega)]
  exact List.suffix_append _ _

theorem BetManager.log_transactions (b : BetManager) (e : Tx)
    (h : b.transactions.length ≤ LOG_LIMIT) :
    (b.log e).transactions = newestEntries (b.transactions ++ [e]) := by
  unfold BetManager.log newestEntries
  simp only [List.length_append, List.length_singleton]
  by_cases hfull : b.transactions.length + 1 > LOG_LIMIT
  · rw [if_pos hfull]
    have : b.transactions.length + 1 - LOG_LIMIT = 1 := by omega
    rw [this]
    simp
  · rw [if_neg hfull]
    have : b.transactions.length + 1 - LOG_LIMIT = 0 := by omega
    rw [this]
    rfl

theorem BetManager.log_full (b : BetManager) (e : Tx) :
    (b.log e).transactions =
      if b.transactions.length < LOG_LIMIT then b.transactions ++ [e]
      else b.transactions.tail ++ [e] := by
  unfold BetManager.log
  simp only [List.length_append, List.length_singleton]
  by_cases hfull : b.transactions.length < LOG_LIMIT
  · rw [if_pos hfull, if_neg (by omega)]
  · rw [if_neg hfull, if_pos (by omega)]
    cases hb : b.transactions with
    | nil => rw [hb] at hfull; simp [LOG_LIMIT] at hfull
    | cons x xs => rfl

namespace BetManager

theorem queuePlayer_transactions (b : BetManager) (u : UserId) (a : ℚ) (now : Nat)
    (hlen : b.transactions.length ≤ LOG_LIMIT) (hfree : b.hasEscrow u = false) :
    (b.queuePlayer u a now).2.transactions =
      newestEntries (b.transactions ++
        [{ ts := now, type := .lock, userId := some u, amount := a, roomId := none,
           note := some "offer" }]) := by
  have hlog := log_transactions
    { b with escrows := JsMap.set b.escrows u ⟨a, .waiting, now, none⟩ }
    ({ ts := now, type := .lock, userId := some u, amount := a, roomId := none,
       note := some "offer" } : Tx) hlen
  unfold queuePlayer
  rw [hfree]
  simp only [Bool.false_eq_true, if_false]
  by_cases h : b.pending.findIdx (isOpponent u a) < b.pending.length
  · rw [dif_pos h]
    simp only
    split <;> exact hlog
  · rw [dif_neg h]
    exact hlog

theorem queuePlayer_held (b : BetManager) (u : UserId) (a : ℚ) (now : Nat)
    (hheld : b.hasEscrow u = true) : (b.queuePlayer u a now).2 = b := by
  unfold queuePlayer
  rw [hheld]
  rfl

theorem unlockUser_transactions (b : BetManager) (u : UserId) (reason : String) (now : Nat)
    (hlen : b.transactions.length ≤ LOG_LIMIT) :
    (b.unlockUser u reason now).2.transactions =
      match JsMap.get b.escrows u with
      | some e =>
        newestEntries (b.transactions ++
          [{ ts := now, type := .refund, userId := some u, amount := e.amount, roomId := none,
             note := some reason }])
      | none => b.transactions := by
  unfold unlockUser
  cases hget : JsMap.get b.escrows u with
  | none => rfl
  | some e => exact log_transactions { b with escrows := JsMap.delete b.escrows u } _ hlen

theorem cancelWaiting_transactions (b : BetManager) (u : UserId) (reason : String) (now : Nat)
    (hlen : b.transactions.length ≤ LOG_LIMIT) :
    (b.cancelWaiting u reason now).2.transactions =
      match JsMap.get b.escrows u with
      | some e =>
        newestEntries (b.transactions ++
          [{ ts := now, type := .refund, userId := some u, amount := e.amount, roomId := none,
             note := some reason }])
      | none => b.transactions := by
  unfold cancelWaiting
  simp only
  split
  · exact unlockUser_transactions { b with pending := _ } u reason now hlen
  · exact unlockUser_transactions b u reason now hlen

theorem cancelWaiting_amount (b : BetManager) (u : UserId) (reason : String) (now : Nat) :
    (b.cancelWaiting u reason now).1 = escrowAmount b u := by
  unfold cancelWaiting
  simp only
  split
  · exact (unlockUser_spec { b with pending := _ } u reason now).1
  · exact (unlockUser_spec b u reason now).1

theorem foldl_refundStep_transactions (roomId : RoomId) (bet : Bet) (now : Nat) (us : List UserId)
    (acc : List Payout × BetManager) (hlen : acc.2.transactions.length ≤ LOG_LIMIT) :
    (us.foldl (refundStep roomId bet now) acc).2.transactions =
      newestEntries (acc.2.transactions ++ us.map (fun u =>
        ({ ts := now, type := .refund, userId := some u, amount := bet.amountPerPlayer,
           roomId := some roomId, note := some "tie" } : Tx))) := by
  induction us generalizing acc with
  | nil => simp [newestEntries_of_le _ hlen]
  | cons u us ih =>
    simp only [List.foldl, List.map]
    have hstep : (refundStep roomId bet now acc u).2.transactions =
        newestEntries (acc.2.transactions ++
          [{ ts := now, type := .refund, userId := some u, amount := bet.amountPerPlayer,
             roomId := some roomId, note := some "tie" }]) :=
      log_transactions acc.2 _ hlen
    rw [ih _ (by rw [hstep]; exact newestEntries_length _), hstep, newestEntries_append]
    simp

theorem settle_transactions (b : BetManager) (roomId : RoomId) (bet : Bet) (w : Option UserId)
    (now : Nat) (hlen : b.transactions.length ≤ LOG_LIMIT)
    (hbet : JsMap.get b.matches_ roomId = some bet) :
    (b.settle roomId w now).2.transactions =
      newestEntries (b.transactions ++
        match w with
        | some x =>
          ({ ts := now, type := .payout, userId := some x, amount := bet.pot - bet.houseFee,
             roomId := some roomId, note := none } : Tx) ::
            (if bet.houseFee > 0 then
              [{ ts := now, type := .house, userId := none, amount := bet.houseFee,
                 roomId := some roomId, note := none }]
            else [])
        | none => bet.players.map (fun u =>
          ({ ts := now, type := .refund, userId := some u, amount := bet.amountPerPlayer,
             roomId := some roomId, note := some "tie" } : Tx))) := by
  cases w with
  | none =>
    simp only [settle, hbet]
    exact foldl_refundStep_transactions roomId bet now bet.players
      ([], { b with matches_ := JsMap.delete b.matches_ roomId }) hlen
  | some x =>
    have h1 := log_transactions { b with matches_ := JsMap.delete b.matches_ roomId }
      { ts := now, type := .payout, userId := some x, amount := bet.pot - bet.houseFee,
        roomId := some roomId, note := none } hlen
    simp only [settle, hbet]
    by_cases hfee : bet.houseFee > 0
    · rw [if_pos hfee, if_pos hfee]
      rw [log_transactions _ _ (by rw [h1]; exact newestEntries_length _), h1,
        newestEntries_append]
      simp
    · rw [if_neg hfee, if_neg hfee]
      rw [h1]

theorem refundEntries_congr (b b' : BetManager) (ids : List UserId) (reason : String) (now : Nat)
    (h : ∀ u ∈ ids, JsMap.get b'.escrows u = JsMap.get b.escrows u) :
    refundEntries b' ids reason now = refundEntries b ids reason now := by
  induction ids with
  | nil => rfl
  | cons u us ih =>
    unfold refundEntries at ih ⊢
    rw [List.filterMap_cons, List.filterMap_cons, h u (List.mem_cons_self _ _),
      ih (fun v hv => h v (List.mem_cons_of_mem _ hv))]

theorem unlockUser_transactions_le (b : BetManager) (u : UserId) (reason : String) (now : Nat)
    (hlen : b.transactions.length ≤ LOG_LIMIT) :
    (b.unlockUser u reason now).2.transactions.length ≤ LOG_LIMIT := by
  rw [unlockUser_transactions b u reason now hlen]
  split
  · exact newestEntries_length _
  · exact hlen

theorem releasePlayers_foldl (ids : List UserId) (reason : String) (now : Nat)
    (acc : List Payout × BetManager) (hlen : acc.2.transactions.length ≤ LOG_LIMIT)
    (hnodup : ids.Nodup) :
    (ids.foldl
        (fun acc userId =>
          let r := acc.2.unlockUser userId reason now
          (acc.1 ++ [{ userId := userId, amount := r.1 }], r.2))
        acc).1 =
        acc.1 ++ ids.map (fun u => ({ userId := u, amount := escrowAmount acc.2 u } : Payout)) ∧
      (ids.foldl
        (fun acc userId =>
          let r := acc.2.unlockUser userId reason now
          (acc.1 ++ [{ userId := userId, amount := r.1 }], r.2))
        acc).2.transactions =
        newestEntries (acc.2.transactions ++ refundEntries acc.2 ids reason now) := by
  induction ids generalizing acc with
  | nil => simp [refundEntries, newestEntries_of_le _ hlen]
  | cons u us ih =>
    have hu : u ∉ us := (List.nodup_cons.mp hnodup).1
    have hspec := unlockUser_spec acc.2 u reason now
    have hkeep : ∀ v ∈ us, JsMap.get (acc.2.unlockUser u reason now).2.escrows v
        = JsMap.get acc.2.escrows v := by
      intro v hv
      rw [hspec.2.1 v, if_neg (fun (h : u = v) => hu (h ▸ hv))]
    simp only [List.foldl]
    obtain ⟨h1, h2⟩ := ih
      (acc.1 ++ [{ userId := u, amount := (acc.2.unlockUser u reason now).1 }],
        (acc.2.unlockUser u reason now).2)
      (unlockUser_transactions_le acc.2 u reason now hlen) (List.nodup_cons.mp hnodup).2
    refine ⟨?_, ?_⟩
    · rw [h1]
      simp only [List.map, List.append_assoc, List.singleton_append]
      rw [hspec.1]
      congr 2
      apply List.map_congr_left
      intro v hv
      unfold escrowAmount
      rw [hkeep v hv]
    · rw [h2]
      simp only
      rw [refundEntries_congr acc.2 _ us reason now hkeep,
        unlockUser_transactions acc.2 u reason now hlen]
      unfold refundEntries
      rw [List.filterMap_cons]
      cases hget : JsMap.get acc.2.escrows u with
      | none => rfl
      | some e =>
        simp only [Option.map]
        rw [newestEntries_append]
        simp

theorem releasePlayers_spec (b : BetManager) (ids : List UserId) (reason : String) (now : Nat)
    (hlen : b.transactions.length ≤ LOG_LIMIT) (hnodup : ids.Nodup) :
    (b.releasePlayers ids reason now).1 =
        ids.map (fun u => ({ userId := u, amount := escrowAmount b u } : Payout)) ∧
      (b.releasePlayers ids reason now).2.transactions =
        newestEntries (b.transactions ++ refundEntries b ids reason now) := by
  have h := releasePlayers_foldl ids reason now ([], b) hlen hnodup
  simpa [releasePlayers] using h

theorem attachRoom_frame (b : BetManager) (roomId : RoomId) (a : ℚ) (ids : List UserId) (now : Nat) :
    (b.attachRoom roomId a ids now).2.transactions = b.transactions ∧
      (b.attachRoom roomId a ids now).2.pending = b.pending ∧
      (b.attachRoom roomId a ids now).2.houseCutPercentage = b.houseCutPercentage :=
  ⟨rfl, rfl, rfl⟩

theorem foldl_refundRoomStep (roomId : RoomId) (bet : Bet) (reason : String) (now : Nat)
    (us : List UserId) (acc : List Payout × BetManager)
    (hlen : acc.2.transactions.length ≤ LOG_LIMIT) :
    (us.foldl (refundRoomStep roomId bet reason now) acc).2.transactions.length ≤ LOG_LIMIT ∧
      (us.foldl (refundRoomStep roomId bet reason now) acc).2.pending = acc.2.pending := by
  induction us generalizing acc with
  | nil => exact ⟨hlen, rfl⟩
  | cons u us ih =>
    simp only [List.foldl]
    have hstep : (refundRoomStep roomId bet reason now acc u).2.transactions.length ≤ LOG_LIMIT := by
      have := log_transactions acc.2
        ({ ts := now, type := .refund, userId := some u, amount := bet.amountPerPlayer,
           roomId := some roomId, note := some reason } : Tx) hlen
      simp only [refundRoomStep]
      rw [this]
      exact newestEntries_length _
    obtain ⟨h1, h2⟩ := ih (refundRoomStep roomId bet reason now acc u) hstep
    exact ⟨h1, by rw [h2]; rfl⟩

theorem refundRoom_frame (b : BetManager) (roomId : RoomId) (reason : String) (now : Nat)
    (hlen : b.transactions.length ≤ LOG_LIMIT) :
    (b.refundRoom roomId reason now).2.transactions.length ≤ LOG_LIMIT ∧
      (b.refundRoom roomId reason now).2.pending = b.pending := by
  unfold refundRoom
  split
  · exact ⟨hlen, rfl⟩
  · exact foldl_refundRoomStep roomId _ reason now _
      ([], { b with matches_ := JsMap.delete b.matches_ roomId }) hlen

theorem releasePlayers_frame (ids : List UserId) (reason : String) (now : Nat)
    (acc : List Payout × BetManager) (hlen : acc.2.transactions.length ≤ LOG_LIMIT) :
    (ids.foldl
        (fun acc userId =>
          let r := acc.2.unlockUser userId reason now
          (acc.1 ++ [{ userId := userId, amount := r.1 }], r.2))
        acc).2.transactions.length ≤ LOG_LIMIT ∧
      (ids.foldl
        (fun acc userId =>
          let r := acc.2.unlockUser userId reason now
          (acc.1 ++ [{ userId := userId, amount := r.1 }], r.2))
        acc).2.pending = acc.2.pending := by
  induction ids generalizing acc with
  | nil => exact ⟨hlen, rfl⟩
  | cons u us ih =>
    simp only [List.foldl]
    obtain ⟨h1, h2⟩ := ih
      (acc.1 ++ [{ userId := u, amount := (acc.2.unlockUser u reason now).1 }],
        (acc.2.unlockUser u reason now).2)
      (unlockUser_transactions_le acc.2 u reason now hlen)
    exact ⟨h1, by rw [h2]; exact (unlockUser_spec acc.2 u reason now).2.2.2⟩

theorem cancelWaiting_pending (b : BetManager) (u : UserId) (reason : String) (now : Nat) :
    (b.cancelWaiting u reason now).2.pending =
      if b.pending.findIdx (fun entry => decide (entry.userId = u)) < b.pending.length then
        b.pending.eraseIdx (b.pending.findIdx (fun entry => decide (entry.userId = u)))
      else b.pending := by
  unfold cancelWaiting
  simp only
  split
  · exact (unlockUser_spec { b with pending := _ } u reason now).2.2.2
  · exact (unlockUser_spec b u reason now).2.2.2

theorem perform_transactions_le (b : BetManager) (op : LedgerOp)
    (hlen : b.transactions.length ≤ LOG_LIMIT) :
    (b.perform op).transactions.length ≤ LOG_LIMIT := by
  cases op with
  | queuePlayer u a now =>
    simp only [perform]
    cases hfree : b.hasEscrow u with
    | true => rw [queuePlayer_held b u a now hfree]; exact hlen
    | false => rw [queuePlayer_transactions b u a now hlen hfree]; exact newestEntries_length _
  | unlockUser u reason now => exact unlockUser_transactions_le b u reason now hlen
  | cancelWaiting u reason now =>
    simp only [perform]
    rw [cancelWaiting_transactions b u reason now hlen]
    split
    · exact newestEntries_length _
    · exact hlen
  | attachRoom roomId a ids now => exact hlen
  | settle roomId w now =>
    simp only [perform]
    cases hbet : JsMap.get b.matches_ roomId with
    | none => rw [settle_none b roomId w now hbet]; exact hlen
    | some bet => rw [settle_transactions b roomId bet w now hlen hbet]; exact newestEntries_length _
  | refundRoom roomId reason now => exact (refundRoom_frame b roomId reason now hlen).1
  | releasePlayers ids reason now => exact (releasePlayers_frame ids reason now ([], b) hlen).1

theorem performAll_transactions_le (ops : List LedgerOp) (b : BetManager)
    (hlen : b.transactions.length ≤ LOG_LIMIT) :
    (b.performAll ops).transactions.length ≤ LOG_LIMIT := by
  induction ops generalizing b with
  | nil => exact hlen
  | cons op ops ih => exact ih (b.perform op) (perform_transactions_le b op hlen)

end BetManager

theorem matchablePair_eq_false (l : List Offer) :
    matchablePair l = false ↔
      ∀ o1 ∈ l, ∀ o2 ∈ l, o1.amount = o2.amount → o1.userId = o2.userId := by
  unfold matchablePair
  rw [Bool.eq_false_iff]
  simp only [ne_eq, List.any_eq_true, Bool.and_eq_true, decide_eq_true_eq, not_exists, not_and,
    Decidable.not_not]

theorem matchablePair_of_subset (l l' : List Offer) (hsub : l' ⊆ l)
    (h : matchablePair l = false) : matchablePair l' = false := by
  rw [matchablePair_eq_false] at h ⊢
  intro o1 h1 o2 h2 he
  exact h o1 (hsub h1) o2 (hsub h2) he

namespace BetManager

theorem refundRoom_pending (b : BetManager) (roomId : RoomId) (reason : String) (now : Nat) :
    (b.refundRoom roomId reason now).2.pending = b.pending := by
  have hfold : ∀ (bet : Bet) (us : List UserId) (acc : List Payout × BetManager),
      (us.foldl (refundRoomStep roomId bet reason now) acc).2.pending = acc.2.pending := by
    intro bet us
    induction us with
    | nil => intro acc; rfl
    | cons u us ih => intro acc; simp only [List.foldl]; rw [ih]; rfl
  unfold refundRoom
  split
  · rfl
  · rw [hfold]

theorem releasePlayers_pending (b : BetManager) (ids : List UserId) (reason : String) (now : Nat) :
    (b.releasePlayers ids reason now).2.pending = b.pending := by
  have hfold : ∀ (us : List UserId) (acc : List Payout × BetManager),
      (us.foldl
        (fun acc userId =>
          let r := acc.2.unlockUser userId reason now
          (acc.1 ++ [{ userId := userId, amount := r.1 }], r.2))
        acc).2.pending = acc.2.pending := by
    intro us
    induction us with
    | nil => intro acc; rfl
    | cons u us ih =>
      intro acc
      simp only [List.foldl]
      rw [ih]
      exact (unlockUser_spec acc.2 u reason now).2.2.2
  unfold releasePlayers
  rw [hfold]

theorem perform_matchablePair (b : BetManager) (op : LedgerOp)
    (h : matchablePair b.pending = false) : matchablePair (b.perform op).pending = false := by
  cases op with
  | queuePlayer u a now =>
    simp only [perform]
    cases hfree : b.hasEscrow u with
    | true => rw [queuePlayer_held b u a now hfree]; exact h
    | false =>
      by_cases hlt : b.pending.findIdx (isOpponent u a) < b.pending.length
      · rw [(queuePlayer_matched b u a now hfree hlt).2.1]
        exact matchablePair_of_subset _ _ (List.eraseIdx_subset _ _) h
      · rw [(queuePlayer_waiting b u a now hfree hlt).2.1]
        have hnone : ∀ x ∈ b.pending, isOpponent u a x = false := by
          have : b.pending.findIdx (isOpponent u a) ≤ b.pending.length :=
            List.findIdx_le_length _
          exact List.findIdx_eq_length.mp (by omega)
        have hsame : ∀ x ∈ b.pending, x.amount = a → x.userId = u := by
          intro x hx hxa
          have := hnone x hx
          by_contra hne
          rw [(isOpponent_iff u a x).mpr ⟨hxa, hne⟩] at this
          exact Bool.noConfusion this
        rw [matchablePair_eq_false] at h ⊢
        intro o1 h1 o2 h2 he
        rw [List.mem_append, List.mem_singleton] at h1 h2
        rcases h1 with h1 | h1 <;> rcases h2 with h2 | h2
        · exact h o1 h1 o2 h2 he
        · subst h2
          exact hsame o1 h1 he
        · subst h1
          exact (hsame o2 h2 he.symm).symm
        · subst h1; subst h2; rfl
  | unlockUser u reason now =>
    simp only [perform]
    rw [(unlockUser_spec b u reason now).2.2.2]; exact h
  | cancelWaiting u reason now =>
    simp only [perform]
    rw [cancelWaiting_pending]
    split
    · exact matchablePair_of_subset _ _ (List.eraseIdx_subset _ _) h
    · exact h
  | attachRoom roomId a ids now => exact h
  | settle roomId w now =>
    simp only [perform]
    rw [settle_pending]; exact h
  | refundRoom roomId reason now =>
    simp only [perform]
    rw [refundRoom_pending]; exact h
  | releasePlayers ids reason now =>
    simp only [perform]
    rw [releasePlayers_pending]; exact h

theorem performAll_matchablePair (ops : List LedgerOp) (b : BetManager)
    (h : matchablePair b.pending = false) : matchablePair (b.performAll ops).pending = false := by
  induction ops generalizing b with
  | nil => exact h
  | cons op ops ih => exact ih (b.perform op) (perform_matchablePair b op h)

end BetManager

namespace GameManager

theorem ensureRanking_get_ne (g : GameManager) (u v : UserId) (h : u ≠ v) :
    JsMap.get (g.ensureRanking u).ranking v = JsMap.get g.ranking v := by
  cases hr : JsMap.get g.ranking u with
  | none =>
    cases hp : JsMap.get g.players u with
    | none =>
      simp only [ensureRanking, JsMap.has, hr, hp, Option.isSome_none, Bool.false_eq_true,
        if_false]
      exact JsMap.get_set_ne _ _ _ _ h
    | some p =>
      simp only [ensureRanking, JsMap.has, hr, hp, Option.isSome_none, Bool.false_eq_true,
        if_false, JsMap.get_set_self]
      rw [JsMap.get_set_ne _ _ _ _ h, JsMap.get_set_ne _ _ _ _ h]
  | some s =>
    cases hp : JsMap.get g.players u with
    | none => simp only [ensureRanking, JsMap.has, hr, hp, Option.isSome_some, if_true]
    | some p =>
      simp only [ensureRanking, JsMap.has, hr, hp, Option.isSome_some, if_true]
      exact JsMap.get_set_ne _ _ _ _ h

theorem ensureRanking_get_self (g : GameManager) (u : UserId) :
    ∃ s, JsMap.get (g.ensureRanking u).ranking u = some s ∧ s.games = gamesOf g u ∧
      s.wins = winsOf g u ∧ s.creditsEarned = creditsEarnedOf g u := by
  cases hr : JsMap.get g.ranking u with
  | none =>
    cases hp : JsMap.get g.players u with
    | none =>
      simp only [ensureRanking, gamesOf, winsOf, creditsEarnedOf, JsMap.has, hr, hp,
        Option.isSome_none, Bool.false_eq_true, if_false]
      exact ⟨_, JsMap.get_set_self _ _ _, rfl, rfl, rfl⟩
    | some p =>
      simp only [ensureRanking, gamesOf, winsOf, creditsEarnedOf, JsMap.has, hr, hp,
        Option.isSome_none, Bool.false_eq_true, if_false, JsMap.get_set_self]
      exact ⟨_, rfl, rfl, rfl, rfl⟩
  | some s =>
    cases hp : JsMap.get g.players u with
    | none =>
      simp only [ensureRanking, gamesOf, winsOf, creditsEarnedOf, JsMap.has, hr, hp,
        Option.isSome_some, if_true]
      exact ⟨s, rfl, rfl, rfl, rfl⟩
    | some p =>
      simp only [ensureRanking, gamesOf, winsOf, creditsEarnedOf, JsMap.has, hr, hp,
        Option.isSome_some, if_true]
      exact ⟨_, JsMap.get_set_self _ _ _, rfl, rfl, rfl⟩

theorem creditPlayerById_ranking (g : GameManager) (u : UserId) (a : ℚ) :
    (g.creditPlayerById u a).ranking = g.ranking := by
  unfold creditPlayerById creditPlayer
  split
  · rfl
  · split <;> rfl

/-- One step of `updateGamesPlayed`: the games of `u` go up by one, nothing else in the
figures of the ranking changes. -/
theorem bumpGames_figures (g : GameManager) (u v : UserId) :
    gamesOf (g.updateGamesPlayed [u]) v = gamesOf g v + (if u = v then 1 else 0) ∧
      winsOf (g.updateGamesPlayed [u]) v = winsOf g v ∧
      creditsEarnedOf (g.updateGamesPlayed [u]) v = creditsEarnedOf g v := by
  obtain ⟨s, hs, hg, hw, hc⟩ := ensureRanking_get_self g u
  simp only [updateGamesPlayed, List.foldl, hs]
  by_cases h : u = v
  · subst h
    simp only [gamesOf, winsOf, creditsEarnedOf, JsMap.get_set_self, if_true, Option.map,
      Option.getD]
    exact ⟨by rw [hg]; rfl, hw, hc⟩
  · simp only [gamesOf, winsOf, creditsEarnedOf, JsMap.get_set_ne _ _ _ _ h,
      ensureRanking_get_ne g u v h, if_neg h, Nat.add_zero]
    exact ⟨trivial, trivial, trivial⟩

theorem updateGamesPlayed_cons (g : GameManager) (u : UserId) (us : List UserId) :
    g.updateGamesPlayed (u :: us) = (g.updateGamesPlayed [u]).updateGamesPlayed us := rfl

theorem updateGamesPlayed_figures (us : List UserId) (g : GameManager) (v : UserId) :
    gamesOf (g.updateGamesPlayed us) v = gamesOf g v + us.count v ∧
      winsOf (g.updateGamesPlayed us) v = winsOf g v ∧
      creditsEarnedOf (g.updateGamesPlayed us) v = creditsEarnedOf g v := by
  induction us generalizing g with
  | nil => exact ⟨rfl, rfl, rfl⟩
  | cons u us ih =>
    rw [updateGamesPlayed_cons]
    obtain ⟨i1, i2, i3⟩ := ih (g.updateGamesPlayed [u])
    obtain ⟨h1, h2, h3⟩ := bumpGames_figures g u v
    rw [i1, i2, i3, h1, h2, h3]
    refine ⟨?_, rfl, rfl⟩
    rw [List.count_cons]
    by_cases h : u = v
    · subst h; simp; omega
    · have : (u == v) = false := by simpa using h
      simp [h, this]

theorem applyPayout_figures (w : Option UserId) (g : GameManager) (p : Payout) (v : UserId) :
    gamesOf (applyPayout w g p) v = gamesOf g v ∧
      winsOf (applyPayout w g p) v
        = winsOf g v + (if w = some p.userId ∧ p.userId = v then 1 else 0) ∧
      creditsEarnedOf (applyPayout w g p) v
        = creditsEarnedOf g v + (if w = some p.userId ∧ p.userId = v then p.amount else 0) := by
  unfold applyPayout
  by_cases hw : w = some p.userId
  · obtain ⟨s, hs, hg, hwins, hc⟩ := ensureRanking_get_self (g.creditPlayerById p.userId p.amount)
      p.userId
    have hfig : gamesOf (g.creditPlayerById p.userId p.amount) = gamesOf g ∧
        winsOf (g.creditPlayerById p.userId p.amount) = winsOf g ∧
        creditsEarnedOf (g.creditPlayerById p.userId p.amount) = creditsEarnedOf g := by
      refine ⟨?_, ?_, ?_⟩ <;> funext x <;>
        simp only [gamesOf, winsOf, creditsEarnedOf, creditPlayerById_ranking]
    simp only [hw, if_true, hs, true_and]
    by_cases h : p.userId = v
    · subst h
      simp only [gamesOf, winsOf, creditsEarnedOf, JsMap.get_set_self, if_true, Option.map,
        Option.getD]
      rw [hg, hwins, hc, hfig.1, hfig.2.1, hfig.2.2]
      exact ⟨rfl, rfl, rfl⟩
    · simp only [gamesOf, winsOf, creditsEarnedOf, JsMap.get_set_ne _ _ _ _ h,
        ensureRanking_get_ne _ p.userId v h, if_neg h, Nat.add_zero, add_zero,
        creditPlayerById_ranking]
      exact ⟨trivial, trivial, trivial⟩
  · simp only [hw, if_false, false_and, Nat.add_zero, add_zero, gamesOf, winsOf, creditsEarnedOf,
      creditPlayerById_ranking]
    exact ⟨trivial, trivial, trivial⟩

theorem figures_congr (g g' : GameManager) (h : g.ranking = g'.ranking) (u : UserId) :
    gamesOf g u = gamesOf g' u ∧ winsOf g u = winsOf g' u ∧
      creditsEarnedOf g u = creditsEarnedOf g' u := by
  simp only [gamesOf, winsOf, creditsEarnedOf, h]
  exact ⟨trivial, trivial, trivial⟩

theorem foldl_applyPayout_tie (ps : List Payout) (g : GameManager) :
    (ps.foldl (applyPayout none) g).ranking = g.ranking := by
  induction ps generalizing g with
  | nil => rfl
  | cons p ps ih =>
    simp only [List.foldl]
    rw [ih]
    simp only [applyPayout, reduceCtorEq, if_false]
    exact creditPlayerById_ranking g p.userId p.amount

/-- The ranking after `finishGame` on a room with a BetRecord: the games counted, then the
payouts applied. -/
theorem finishGame_ranking (g : GameManager) (roomId : RoomId) (room : Room)
    (reason : FinishReason) (f : Option UserId) (now : Nat) (s : Settlement)
    (hroom : JsMap.get g.rooms roomId = some room)
    (hs : (g.betManager.settle roomId (pickWinner (standings room.players) f) now).1 = some s) :
    (g.finishGame roomId reason f now).ranking =
      (s.payouts.foldl (applyPayout (pickWinner (standings room.players) f))
        { g.updateGamesPlayed (room.players.map Prod.fst) with
          betManager :=
            (g.betManager.settle roomId (pickWinner (standings room.players) f) now).2 }).ranking := by
  unfold finishGame
  simp only [hroom]
  simp [recordResult, hs, updateGamesPlayed_betManager, (foldl_resetMeta_frame _ _).2.2.2.1]

end GameManager

/-! ## Lemmas on the sign of balances, escrows and payouts -/

namespace JsMap

variable {κ α : Type} [DecidableEq κ]

theorem mem_set (m : List (κ × α)) (k : κ) (v : α) (e : κ × α) (h : e ∈ set m k v) :
    e ∈ m ∨ e = (k, v) := by
  induction m with
  | nil =>
    simp only [set, List.mem_singleton] at h
    exact Or.inr h
  | cons x m ih =>
    obtain ⟨k', v'⟩ := x
    simp only [set] at h
    by_cases hk : k' = k
    · rw [if_pos hk] at h
      rcases List.mem_cons.mp h with h | h
      · exact Or.inr h
      · exact Or.inl (List.mem_cons_of_mem _ h)
    · rw [if_neg hk] at h
      rcases List.mem_cons.mp h with h | h
      · exact Or.inl (h ▸ List.mem_cons_self _ _)
      · rcases ih h with h | h
        · exact Or.inl (List.mem_cons_of_mem _ h)
        · exact Or.inr h

theorem mem_delete (m : List (κ × α)) (k : κ) (e : κ × α) (h : e ∈ delete m k) : e ∈ m :=
  List.mem_of_mem_filter h

theorem mem_foldl_delete (ks : List κ) (m : List (κ × α)) (e : κ × α)
    (h : e ∈ ks.foldl delete m) : e ∈ m := by
  induction ks generalizing m with
  | nil => exact h
  | cons k ks ih => exact mem_delete m k e (ih _ h)

theorem mem_of_get (m : List (κ × α)) (k : κ) (v : α) (h : get m k = some v) : (k, v) ∈ m := by
  induction m with
  | nil => simp [get] at h
  | cons x m ih =>
    obtain ⟨k', v'⟩ := x
    simp only [get] at h
    by_cases hk : k' = k
    · rw [if_pos hk] at h
      cases h
      subst hk
      exact List.mem_cons_self _ _
    · rw [if_neg hk] at h
      exact List.mem_cons_of_mem _ (ih h)

end JsMap

namespace BetManager

theorem sound_congr (b b' : BetManager) (h1 : b'.houseCutPercentage = b.houseCutPercentage)
    (h2 : b'.escrows = b.escrows) (h3 : b'.matches_ = b.matches_) (h : b.sound) : b'.sound := by
  unfold sound at h ⊢
  rw [h1, h2, h3]
  exact h

theorem foldl_refundStep_houseCut (roomId : RoomId) (bet : Bet) (now : Nat) (us : List UserId)
    (acc : List Payout × BetManager) :
    (us.foldl (refundStep roomId bet now) acc).2.houseCutPercentage = acc.2.houseCutPercentage := by
  induction us generalizing acc with
  | nil => rfl
  | cons u us ih => simp only [List.foldl]; rw [ih]; rfl

theorem sound_set_escrow (b : BetManager) (u : UserId) (e : Escrow) (he : 0 ≤ e.amount)
    (h : b.sound) : ({ b with escrows := JsMap.set b.escrows u e } : BetManager).sound := by
  refine ⟨h.1, ?_, h.2.2⟩
  intro x hx
  rcases JsMap.mem_set _ _ _ _ hx with hx | hx
  · exact h.2.1 x hx
  · rw [hx]; exact he

theorem sound_get_escrow (b : BetManager) (u : UserId) (e : Escrow) (h : b.sound)
    (he : JsMap.get b.escrows u = some e) : 0 ≤ e.amount :=
  h.2.1 (u, e) (JsMap.mem_of_get _ _ _ he)

theorem queuePlayer_sound (b : BetManager) (u : UserId) (a : ℚ) (now : Nat) (ha : 0 ≤ a)
    (h : b.sound) : (b.queuePlayer u a now).2.sound := by
  unfold queuePlayer
  split
  · exact h
  · have h1 : ({ b with escrows := JsMap.set b.escrows u ⟨a, .waiting, now, none⟩ } : BetManager).sound :=
      sound_set_escrow b u _ ha h
    simp only
    split
    · have h4 := sound_set_escrow _ u ⟨a, .matched, now, none⟩ ha h1
      split
      · rename_i oe hoe
        refine sound_congr _ _ rfl rfl rfl (sound_set_escrow _ _ { oe with status := .matched } ?_ h4)
        exact sound_get_escrow _ _ oe h4 hoe
      · exact sound_congr _ _ rfl rfl rfl h4
    · exact sound_congr _ _ rfl rfl rfl h1

theorem sound_delete_escrow (b : BetManager) (u : UserId) (h : b.sound) :
    ({ b with escrows := JsMap.delete b.escrows u } : BetManager).sound :=
  ⟨h.1, fun x hx => h.2.1 x (JsMap.mem_delete _ _ _ hx), h.2.2⟩

theorem unlockUser_sound (b : BetManager) (u : UserId) (reason : String) (now : Nat)
    (h : b.sound) : (b.unlockUser u reason now).2.sound ∧ 0 ≤ (b.unlockUser u reason now).1 := by
  unfold unlockUser
  cases he : JsMap.get b.escrows u with
  | none => exact ⟨h, le_refl _⟩
  | some e =>
    exact ⟨sound_congr _ _ rfl rfl rfl (sound_delete_escrow b u h), sound_get_escrow b u e h he⟩

theorem cancelWaiting_sound (b : BetManager) (u : UserId) (reason : String) (now : Nat)
    (h : b.sound) :
    (b.cancelWaiting u reason now).2.sound ∧ 0 ≤ (b.cancelWaiting u reason now).1 := by
  unfold cancelWaiting
  simp only
  split
  · exact unlockUser_sound _ u reason now (sound_congr b _ rfl rfl rfl h)
  · exact unlockUser_sound b u reason now h

theorem attachEscrow_amounts (roomId : RoomId) (ids : List UserId) (escrows : List (UserId × Escrow))
    (h : ∀ e ∈ escrows, 0 ≤ e.2.amount) :
    ∀ e ∈ ids.foldl (attachEscrow roomId) escrows, 0 ≤ e.2.amount := by
  induction ids generalizing escrows with
  | nil => exact h
  | cons u us ih =>
    simp only [List.foldl]
    apply ih
    unfold attachEscrow
    cases he : JsMap.get escrows u with
    | none => exact h
    | some e =>
      intro x hx
      rcases JsMap.mem_set _ _ _ _ hx with hx | hx
      · exact h x hx
      · rw [hx]; exact h (u, e) (JsMap.mem_of_get _ _ _ he)

theorem attachRoom_sound (b : BetManager) (roomId : RoomId) (a : ℚ) (ids : List UserId) (now : Nat)
    (ha : 0 ≤ a) (h : b.sound) : (b.attachRoom roomId a ids now).2.sound := by
  unfold attachRoom
  refine ⟨h.1, attachEscrow_amounts roomId ids _ h.2.1, ?_⟩
  intro x hx
  rcases JsMap.mem_set _ _ _ _ hx with hx | hx
  · exact h.2.2 x hx
  · rw [hx]
    refine ⟨ha, ?_⟩
    have hpot : 0 ≤ a * (ids.length : ℚ) := mul_nonneg ha (Nat.cast_nonneg _)
    show a * (ids.length : ℚ) * b.houseCutPercentage ≤ a * (ids.length : ℚ)
    calc a * (ids.length : ℚ) * b.houseCutPercentage
        ≤ a * (ids.length : ℚ) * 1 := mul_le_mul_of_nonneg_left h.1.2 hpot
      _ = a * (ids.length : ℚ) := mul_one _

theorem settle_sound (b : BetManager) (roomId : RoomId) (w : Option UserId) (now : Nat)
    (h : b.sound) :
    (b.settle roomId w now).2.sound ∧
      ∀ s, (b.settle roomId w now).1 = some s → ∀ p ∈ s.payouts, 0 ≤ p.amount := by
  cases hbet : JsMap.get b.matches_ roomId with
  | none =>
    rw [settle_none b roomId w now hbet]
    exact ⟨h, fun s hs => Option.noConfusion hs⟩
  | some bet =>
    have hb := h.2.2 (roomId, bet) (JsMap.mem_of_get _ _ _ hbet)
    refine ⟨⟨?_, ?_, ?_⟩, ?_⟩
    · have : (b.settle roomId w now).2.houseCutPercentage = b.houseCutPercentage := by
        cases w with
        | none => simp [settle, hbet, (foldl_refundStep_houseCut roomId bet now bet.players _)]
        | some x =>
          simp only [settle, hbet]
          split <;> rfl
      rw [this]; exact h.1
    · rw [settle_escrows b roomId bet w now hbet]
      exact fun x hx => h.2.1 x (JsMap.mem_foldl_delete _ _ _ hx)
    · rw [settle_matches b roomId bet w now hbet]
      exact fun x hx => h.2.2 x (JsMap.mem_delete _ _ _ hx)
    · intro s hs p hp
      cases w with
      | none =>
        rw [settle_some_tie b roomId bet now hbet] at hs
        cases hs
        obtain ⟨v, _, hv⟩ := List.mem_map.mp hp
        rw [← hv]
        exact hb.1
      | some x =>
        rw [settle_some_winner b roomId bet x now hbet] at hs
        cases hs
        rw [List.mem_singleton.mp hp]
        exact sub_nonneg.mpr hb.2

theorem releasePlayers_sound (ids : List UserId) (reason : String) (now : Nat)
    (acc : List Payout × BetManager) (h : acc.2.sound) (hacc : ∀ p ∈ acc.1, 0 ≤ p.amount) :
    (ids.foldl
        (fun acc userId =>
          let r := acc.2.unlockUser userId reason now
          (acc.1 ++ [{ userId := userId, amount := r.1 }], r.2))
        acc).2.sound ∧
      ∀ p ∈ (ids.foldl
        (fun acc userId =>
          let r := acc.2.unlockUser userId reason now
          (acc.1 ++ [{ userId := userId, amount := r.1 }], r.2))
        acc).1, 0 ≤ p.amount := by
  induction ids generalizing acc with
  | nil => exact ⟨h, hacc⟩
  | cons u us ih =>
    obtain ⟨h1, h2⟩ := unlockUser_sound acc.2 u reason now h
    have hnext : ∀ p ∈ acc.1 ++ [({ userId := u, amount := (acc.2.unlockUser u reason now).1 } : Payout)],
        0 ≤ p.amount := by
      intro p hp
      rcases List.mem_append.mp hp with hp | hp
      · exact hacc p hp
      · rw [List.mem_singleton.mp hp]; exact h2
    have key := ih (acc.1 ++ [{ userId := u, amount := (acc.2.unlockUser u reason now).1 }],
      (acc.2.unlockUser u reason now).2) h1 hnext
    rw [List.foldl_cons]
    exact key

end BetManager

namespace GameManager

theorem solvent_congr (g g' : GameManager) (hp : g'.players = g.players)
    (ha : g'.allowedBets = g.allowedBets) (hb : g'.betManager = g.betManager) (h : g.solvent) :
    g'.solvent := by
  unfold solvent at h ⊢
  rw [hp, ha, hb]
  exact h

theorem creditPlayer_solvent (g : GameManager) (u : UserId) (a : ℚ) (ha : 0 ≤ a) (h : g.solvent) :
    (g.creditPlayer u a).solvent := by
  unfold creditPlayer
  cases hp : JsMap.get g.players u with
  | none => exact h
  | some p =>
    refine ⟨?_, h.2.1, h.2.2⟩
    intro x hx
    rcases JsMap.mem_set _ _ _ _ hx with hx | hx
    · exact h.1 x hx
    · rw [hx]
      exact add_nonneg (h.1 (u, p) (JsMap.mem_of_get _ _ _ hp)) ha

theorem creditPlayerById_solvent (g : GameManager) (u : UserId) (a : ℚ) (ha : 0 ≤ a)
    (h : g.solvent) : (g.creditPlayerById u a).solvent := by
  unfold creditPlayerById
  split
  · exact h
  · exact creditPlayer_solvent g u a ha h

theorem debitPlayer_solvent (g : GameManager) (u : UserId) (a : ℚ) (p : Player)
    (hp : JsMap.get g.players u = some p) (ha : ¬ p.balance < a) (h : g.solvent) :
    (g.debitPlayer u a).solvent := by
  unfold debitPlayer
  rw [hp]
  refine ⟨?_, h.2.1, h.2.2⟩
  intro x hx
  rcases JsMap.mem_set _ _ _ _ hx with hx | hx
  · exact h.1 x hx
  · rw [hx]
    exact sub_nonneg.mpr (not_lt.mp ha)

theorem ensureRanking_allowedBets (g : GameManager) (u : UserId) :
    (g.ensureRanking u).allowedBets = g.allowedBets := by
  unfold ensureRanking
  by_cases h : JsMap.has g.ranking u = true
  · simp only [h, if_true]
    split <;> rfl
  · simp only [h]
    split <;> rfl

theorem updateGamesPlayed_allowedBets (us : List UserId) (g : GameManager) :
    (g.updateGamesPlayed us).allowedBets = g.allowedBets := by
  unfold updateGamesPlayed
  induction us generalizing g with
  | nil => rfl
  | cons u us ih =>
    simp only [List.foldl]
    split
    · rw [ih]; exact ensureRanking_allowedBets g u
    · rw [ih]; exact ensureRanking_allowedBets g u

theorem foldl_resetMeta_allowedBets (us : List UserId) (g : GameManager) :
    (us.foldl resetMeta g).allowedBets = g.allowedBets := by
  induction us generalizing g with
  | nil => rfl
  | cons u us ih =>
    simp only [List.foldl]
    rw [ih]
    unfold resetMeta
    split
    · split <;> rfl
    · rfl

theorem applyPayout_solvent (w : Option UserId) (g : GameManager) (p : Payout) (hp : 0 ≤ p.amount)
    (h : g.solvent) : (applyPayout w g p).solvent := by
  have hc := creditPlayerById_solvent g p.userId p.amount hp h
  obtain ⟨e1, e2, -, -, -, -, -⟩ := ensureRanking_frame (g.creditPlayerById p.userId p.amount) p.userId
  have e3 := ensureRanking_allowedBets (g.creditPlayerById p.userId p.amount) p.userId
  unfold applyPayout
  by_cases hw : w = some p.userId
  · simp only [hw, if_true]
    split
    · exact solvent_congr _ _ e1 e3 e2 hc
    · exact solvent_congr _ _ e1 e3 e2 hc
  · simp only [hw, if_false]
    exact hc

theorem foldl_applyPayout_solvent (w : Option UserId) (ps : List Payout) (g : GameManager)
    (hps : ∀ p ∈ ps, 0 ≤ p.amount) (h : g.solvent) : (ps.foldl (applyPayout w) g).solvent := by
  induction ps generalizing g with
  | nil => exact h
  | cons p ps ih =>
    simp only [List.foldl]
    exact ih _ (fun q hq => hps q (List.mem_cons_of_mem _ hq))
      (applyPayout_solvent w g p (hps p (List.mem_cons_self _ _)) h)

theorem finishGame_solvent (g : GameManager) (roomId : RoomId) (reason : FinishReason)
    (f : Option UserId) (now : Nat) (h : g.solvent) : (g.finishGame roomId reason f now).solvent := by
  unfold finishGame
  cases hroom : JsMap.get g.rooms roomId with
  | none => exact h
  | some room =>
    simp only
    have h1 : (g.updateGamesPlayed (room.players.map Prod.fst)).solvent :=
      solvent_congr g _ (updateGamesPlayed_players _ _) (updateGamesPlayed_allowedBets _ _)
        (updateGamesPlayed_betManager _ _) h
    obtain ⟨hb, hpay⟩ := BetManager.settle_sound
      (g.updateGamesPlayed (room.players.map Prod.fst)).betManager roomId
      (pickWinner (standings room.players) f) now h1.2.2
    have h2 : ({ g.updateGamesPlayed (room.players.map Prod.fst) with
        betManager := ((g.updateGamesPlayed (room.players.map Prod.fst)).betManager.settle roomId
          (pickWinner (standings room.players) f) now).2 } : GameManager).solvent :=
      ⟨h1.1, h1.2.1, hb⟩
    refine solvent_congr _ _ (foldl_resetMeta_players _ _) (foldl_resetMeta_allowedBets _ _)
      (foldl_resetMeta_betManager _ _) ?_
    cases hs : ((g.updateGamesPlayed (room.players.map Prod.fst)).betManager.settle roomId
        (pickWinner (standings room.players) f) now).1 with
    | none => exact h2
    | some s =>
      exact foldl_applyPayout_solvent _ s.payouts _ (hpay s hs) h2

theorem foldl_credit_solvent (ps : List Payout) (g : GameManager)
    (hps : ∀ p ∈ ps, 0 ≤ p.amount) (h : g.solvent) :
    (ps.foldl (fun acc r => acc.creditPlayerById r.userId r.amount) g).solvent := by
  induction ps generalizing g with
  | nil => exact h
  | cons p ps ih =>
    rw [List.foldl_cons]
    exact ih _ (fun q hq => hps q (List.mem_cons_of_mem _ hq))
      (creditPlayerById_solvent g p.userId p.amount (hps p (List.mem_cons_self _ _)) h)

theorem seat_core (roomId : RoomId) (acc : List (UserId × PlayerState) × GameManager) (u : UserId) :
    (seat roomId acc u).2.players = acc.2.players ∧
      (seat roomId acc u).2.allowedBets = acc.2.allowedBets ∧
      (seat roomId acc u).2.betManager = acc.2.betManager ∧
      (seat roomId acc u).2.results = acc.2.results := by
  unfold seat
  split
  · simp only
    split <;> exact ⟨rfl, rfl, rfl, rfl⟩
  · exact ⟨rfl, rfl, rfl, rfl⟩

theorem foldl_seat_core (roomId : RoomId) (us : List UserId)
    (acc : List (UserId × PlayerState) × GameManager) :
    (us.foldl (seat roomId) acc).2.players = acc.2.players ∧
      (us.foldl (seat roomId) acc).2.allowedBets = acc.2.allowedBets ∧
      (us.foldl (seat roomId) acc).2.betManager = acc.2.betManager ∧
      (us.foldl (seat roomId) acc).2.results = acc.2.results := by
  induction us generalizing acc with
  | nil => exact ⟨rfl, rfl, rfl, rfl⟩
  | cons u us ih =>
    rw [List.foldl_cons]
    obtain ⟨i1, i2, i3, i4⟩ := ih (seat roomId acc u)
    obtain ⟨h1, h2, h3, h4⟩ := seat_core roomId acc u
    exact ⟨i1.trans h1, i2.trans h2, i3.trans h3, i4.trans h4⟩

theorem startGame_core (g : GameManager) (roomId : RoomId) (now : Nat) :
    (g.startGame roomId now).players = g.players ∧
      (g.startGame roomId now).allowedBets = g.allowedBets ∧
      (g.startGame roomId now).betManager = g.betManager ∧
      (g.startGame roomId now).results = g.results := by
  unfold startGame
  split <;> exact ⟨rfl, rfl, rfl, rfl⟩

theorem createRoom_solvent (g : GameManager) (us : List UserId) (a : ℚ) (now : Nat)
    (roomId : RoomId) (ha : 0 ≤ a) (h : g.solvent) : (g.createRoom us a now roomId).2.solvent := by
  unfold createRoom
  split
  · obtain ⟨hb, hp⟩ := BetManager.releasePlayers_sound us "oponente-offline" now ([], g.betManager)
      h.2.2 (fun p hp => absurd hp (List.not_mem_nil _))
    exact foldl_credit_solvent _ _ hp ⟨h.1, h.2.1, hb⟩
  · simp only
    obtain ⟨s1, s2, s3, -⟩ := startGame_core
      { (us.foldl (seat roomId)
          ([], { g with betManager := (g.betManager.attachRoom roomId a us now).2 })).2 with
        rooms := JsMap.set
          (us.foldl (seat roomId)
            ([], { g with betManager := (g.betManager.attachRoom roomId a us now).2 })).2.rooms
          roomId
          { id := roomId, status := .waiting,
            players := (us.foldl (seat roomId)
              ([], { g with betManager := (g.betManager.attachRoom roomId a us now).2 })).1,
            startTime := none, timer := false,
            bet := (g.betManager.attachRoom roomId a us now).1 } } roomId now
    obtain ⟨f1, f2, f3, -⟩ := foldl_seat_core roomId us
      ([], { g with betManager := (g.betManager.attachRoom roomId a us now).2 })
    refine solvent_congr _ _ (s1.trans f1) (s2.trans f2) (s3.trans f3) ?_
    exact ⟨h.1, h.2.1, BetManager.attachRoom_sound g.betManager roomId a us now ha h.2.2⟩

theorem enqueuePlayer_solvent (g : GameManager) (socket : SocketId) (amount : Option ℚ)
    (now : Nat) (uuid : RoomId) (h : g.solvent) :
    (g.enqueuePlayer socket amount now uuid).solvent := by
  unfold enqueuePlayer
  cases hm : JsMap.get g.socketMeta socket with
  | none => exact h
  | some m =>
    simp only
    split
    · exact h
    · cases hp : JsMap.get g.players m.userId with
      | none => exact h
      | some player =>
        cases amount with
        | none => exact h
        | some a =>
          simp only
          by_cases hallowed : a ∈ g.allowedBets
          · rw [if_neg (not_not.mpr hallowed)]
            split
            · exact h
            · split
              · exact h
              · rename_i hbal
                have ha : 0 ≤ a := le_of_lt (h.2.1 a hallowed)
                have h1 := debitPlayer_solvent g m.userId a player hp hbal h
                have hq := BetManager.queuePlayer_sound (g.debitPlayer m.userId a).betManager
                  m.userId a now ha h1.2.2
                have h2 : ({ g.debitPlayer m.userId a with
                    betManager := ((g.debitPlayer m.userId a).betManager.queuePlayer m.userId a
                      now).2 } : GameManager).solvent := ⟨h1.1, h1.2.1, hq⟩
                split
                · exact creditPlayer_solvent _ _ _ ha h2
                · split
                  · exact createRoom_solvent _ _ a now uuid ha h2
                  · exact h2
          · rw [if_pos hallowed]
            exact h

theorem handleClick_core (g : GameManager) (socket : SocketId) (now : Nat) :
    (g.handleClick socket now).players = g.players ∧
      (g.handleClick socket now).allowedBets = g.allowedBets ∧
      (g.handleClick socket now).betManager = g.betManager ∧
      (g.handleClick socket now).results = g.results := by
  unfold handleClick
  repeat' split
  all_goals first
    | exact ⟨rfl, rfl, rfl, rfl⟩
    | (simp only
       repeat' split
       all_goals exact ⟨rfl, rfl, rfl, rfl⟩)

theorem handleDisconnect_solvent (g : GameManager) (socket : SocketId) (now : Nat)
    (h : g.solvent) : (g.handleDisconnect socket now).solvent := by
  unfold handleDisconnect
  cases hm : JsMap.get g.socketMeta socket with
  | none => exact h
  | some m =>
    simp only
    obtain ⟨hb, hamt⟩ := BetManager.cancelWaiting_sound g.betManager m.userId "disconnect" now h.2.2
    have h1 : ({ ({ g with socketMeta := JsMap.delete g.socketMeta socket } : GameManager) with
        betManager := (g.betManager.cancelWaiting m.userId "disconnect" now).2 }
          : GameManager).solvent := ⟨h.1, h.2.1, hb⟩
    have h2 : (if (0 : ℚ) < (g.betManager.cancelWaiting m.userId "disconnect" now).1 then
        ({ ({ g with socketMeta := JsMap.delete g.socketMeta socket } : GameManager) with
          betManager := (g.betManager.cancelWaiting m.userId "disconnect" now).2 }
            : GameManager).creditPlayerById m.userId
              (g.betManager.cancelWaiting m.userId "disconnect" now).1
        else
          { ({ g with socketMeta := JsMap.delete g.socketMeta socket } : GameManager) with
            betManager := (g.betManager.cancelWaiting m.userId "disconnect" now).2 }).solvent := by
      split
      · exact creditPlayerById_solvent _ _ _ hamt h1
      · exact h1
    split
    · exact finishGame_solvent _ _ _ _ _ h2
    · exact h2

theorem closeSocket_solvent (g : GameManager) (socket : SocketId) (now : Nat) (h : g.solvent) :
    (g.closeSocket socket now).solvent := by
  unfold closeSocket
  split
  · exact handleDisconnect_solvent _ socket now ⟨h.1, h.2.1, h.2.2⟩
  · exact h

theorem registerPlayer_solvent (verify : Verifier) (g : GameManager) (socket : SocketId)
    (payload : RegisterPayload) (now : Nat) (h : g.solvent) :
    (g.registerPlayer verify socket payload now).solvent := by
  unfold registerPlayer
  split
  · exact closeSocket_solvent g socket now h
  · exact h
  · rename_i userId nickname _
    simp only
    have h1 : (match JsMap.get g.players userId with
        | some existing =>
          if existing.socketId ≠ socket then g.closeSocket existing.socketId now else g
        | none => g).solvent := by
      split
      · split
        · exact closeSocket_solvent g _ now h
        · exact h
      · exact h
    refine ⟨?_, h1.2.1, h1.2.2⟩
    intro x hx
    rcases JsMap.mem_set _ _ _ _ hx with hx | hx
    · exact h1.1 x hx
    · rw [hx]
      simp only
      split
      · rename_i existing he
        exact h1.1 (userId, existing) (JsMap.mem_of_get _ _ _ he)
      · unfold DEFAULT_BALANCE
        norm_num

theorem tick_solvent (g : GameManager) (roomId : RoomId) (now : Nat) (h : g.solvent) :
    (g.tick roomId now).solvent := by
  unfold tick
  split
  · exact h
  · split
    · split
      · exact finishGame_solvent _ _ _ _ _ h
      · exact h
    · exact h

end GameManager

theorem step_solvent (verify : Verifier) (g : GameManager) (e : Event) (h : g.solvent) :
    (step verify g e).solvent := by
  cases e with
  | connect socket =>
    simp only [step]
    split
    · exact h
    · exact ⟨h.1, h.2.1, h.2.2⟩
  | register socket payload now =>
    simp only [step]
    split
    · exact GameManager.registerPlayer_solvent verify g socket payload now h
    · exact h
  | queueJoin socket amount now uuid =>
    simp only [step]
    split
    · exact GameManager.enqueuePlayer_solvent g socket amount now uuid h
    · exact h
  | click socket now =>
    simp only [step]
    split
    · obtain ⟨c1, c2, c3, -⟩ := GameManager.handleClick_core g socket now
      exact GameManager.solvent_congr g _ c1 c2 c3 h
    · exact h
  | disconnect socket now => exact GameManager.closeSocket_solvent g socket now h
  | tick roomId now => exact GameManager.tick_solvent g roomId now h

theorem run_solvent (verify : Verifier) (events : List Event) (g : GameManager) (h : g.solvent) :
    (run verify g events).solvent := by
  induction events generalizing g with
  | nil => exact h
  | cons e es ih => exact ih (step verify g e) (step_solvent verify g e h)

/-! ## Lemmas on the length of the result history -/

namespace GameManager

theorem creditPlayerById_results (g : GameManager) (u : UserId) (a : ℚ) :
    (g.creditPlayerById u a).results = g.results := by
  unfold creditPlayerById creditPlayer
  split
  · rfl
  · split <;> rfl

theorem finishGame_results_le (g : GameManager) (roomId : RoomId) (reason : FinishReason)
    (f : Option UserId) (now : Nat) (h : g.results.length ≤ RESULTS_LIMIT) :
    (g.finishGame roomId reason f now).results.length ≤ RESULTS_LIMIT := by
  unfold finishGame
  cases hroom : JsMap.get g.rooms roomId with
  | none => exact h
  | some room =>
    simp only [foldl_resetMeta_results, recordResult, List.length_take]
    exact Nat.min_le_left _ _

theorem createRoom_results (g : GameManager) (us : List UserId) (a : ℚ) (now : Nat)
    (roomId : RoomId) : (g.createRoom us a now roomId).2.results = g.results := by
  have hfold : ∀ (ps : List Payout) (g0 : GameManager),
      (ps.foldl (fun acc r => acc.creditPlayerById r.userId r.amount) g0).results = g0.results := by
    intro ps
    induction ps with
    | nil => intro g0; rfl
    | cons p ps ih =>
      intro g0
      rw [List.foldl_cons, ih]
      exact creditPlayerById_results g0 p.userId p.amount
  unfold createRoom
  split
  · simp only
    rw [hfold]
  · simp only
    rw [(startGame_core _ roomId now).2.2.2]
    exact (foldl_seat_core roomId us _).2.2.2

theorem enqueuePlayer_results (g : GameManager) (socket : SocketId) (amount : Option ℚ)
    (now : Nat) (uuid : RoomId) : (g.enqueuePlayer socket amount now uuid).results = g.results := by
  have hdebit : ∀ (u : UserId) (a : ℚ), (g.debitPlayer u a).results = g.results := by
    intro u a
    unfold debitPlayer
    split <;> rfl
  unfold enqueuePlayer
  cases hm : JsMap.get g.socketMeta socket with
  | none => rfl
  | some m =>
    simp only
    split
    · rfl
    · cases hp : JsMap.get g.players m.userId with
      | none => rfl
      | some player =>
        cases amount with
        | none => rfl
        | some a =>
          simp only
          split
          · rfl
          · split
            · rfl
            · split
              · rfl
              · split
                · unfold creditPlayer
                  split
                  · exact hdebit m.userId a
                  · exact hdebit m.userId a
                · split
                  · rw [createRoom_results]
                    exact hdebit m.userId a
                  · exact hdebit m.userId a

theorem handleDisconnect_results_le (g : GameManager) (socket : SocketId) (now : Nat)
    (h : g.results.length ≤ RESULTS_LIMIT) :
    (g.handleDisconnect socket now).results.length ≤ RESULTS_LIMIT := by
  unfold handleDisconnect
  cases hm : JsMap.get g.socketMeta socket with
  | none => exact h
  | some m =>
    simp only
    have h2 : (if (0 : ℚ) < (g.betManager.cancelWaiting m.userId "disconnect" now).1 then
        ({ ({ g with socketMeta := JsMap.delete g.socketMeta socket } : GameManager) with
          betManager := (g.betManager.cancelWaiting m.userId "disconnect" now).2 }
            : GameManager).creditPlayerById m.userId
              (g.betManager.cancelWaiting m.userId "disconnect" now).1
        else
          { ({ g with socketMeta := JsMap.delete g.socketMeta socket } : GameManager) with
            betManager := (g.betManager.cancelWaiting m.userId "disconnect" now).2 }).results.length
          ≤ RESULTS_LIMIT := by
      split
      · rw [creditPlayerById_results]; exact h
      · exact h
    split
    · exact finishGame_results_le _ _ _ _ _ h2
    · exact h2

theorem closeSocket_results_le (g : GameManager) (socket : SocketId) (now : Nat)
    (h : g.results.length ≤ RESULTS_LIMIT) :
    (g.closeSocket socket now).results.length ≤ RESULTS_LIMIT := by
  unfold closeSocket
  split
  · exact handleDisconnect_results_le _ socket now h
  · exact h

theorem registerPlayer_results_le (verify : Verifier) (g : GameManager) (socket : SocketId)
    (payload : RegisterPayload) (now : Nat) (h : g.results.length ≤ RESULTS_LIMIT) :
    (g.registerPlayer verify socket payload now).results.length ≤ RESULTS_LIMIT := by
  unfold registerPlayer
  split
  · exact closeSocket_results_le g socket now h
  · exact h
  · simp only
    split
    · split
      · exact closeSocket_results_le g _ now h
      · exact h
    · exact h

theorem tick_results_le (g : GameManager) (roomId : RoomId) (now : Nat)
    (h : g.results.length ≤ RESULTS_LIMIT) : (g.tick roomId now).results.length ≤ RESULTS_LIMIT := by
  unfold tick
  split
  · exact h
  · split
    · split
      · exact finishGame_results_le _ _ _ _ _ h
      · exact h
    · exact h

end GameManager

theorem step_results_le (verify : Verifier) (g : GameManager) (e : Event)
    (h : g.results.length ≤ RESULTS_LIMIT) : (step verify g e).results.length ≤ RESULTS_LIMIT := by
  cases e with
  | connect socket =>
    simp only [step]
    split <;> exact h
  | register socket payload now =>
    simp only [step]
    split
    · exact GameManager.registerPlayer_results_le verify g socket payload now h
    · exact h
  | queueJoin socket amount now uuid =>
    simp only [step]
    split
    · rw [GameManager.enqueuePlayer_results]; exact h
    · exact h
  | click socket now =>
    simp only [step]
    split
    · rw [(GameManager.handleClick_core g socket now).2.2.2]; exact h
    · exact h
  | disconnect socket now => exact GameManager.closeSocket_results_le g socket now h
  | tick roomId now => exact GameManager.tick_results_le g roomId now h

theorem run_results_le (verify : Verifier) (events : List Event) (g : GameManager)
    (h : g.results.length ≤ RESULTS_LIMIT) : (run verify g events).results.length ≤ RESULTS_LIMIT := by
  induction events generalizing g with
  | nil => exact h
  | cons e es ih => exact ih (step verify g e) (step_results_le verify g e h)

theorem new_solvent (allowedBets : Option (List ℚ)) (rate : Option ℚ)
    (hbets : ∀ a ∈ allowedBets.getD DEFAULT_BETS, 0 < a)
    (hrate : 0 ≤ rate.getD HOUSE_CUT_PERCENTAGE ∧ rate.getD HOUSE_CUT_PERCENTAGE ≤ 1) :
    (GameManager.new allowedBets rate).solvent := by
  refine ⟨fun e he => absurd he (List.not_mem_nil _), ?_, hrate, fun e he => absurd he (List.not_mem_nil _),
    fun e he => absurd he (List.not_mem_nil _)⟩
  intro a ha
  exact hbets a ((List.perm_insertionSort _ _).mem_iff.mp ha)

/-! ## Lemmas on the keys of the player map -/

namespace JsMap

variable {κ α : Type} [DecidableEq κ]

end JsMap

namespace GameManager

end GameManager

/-! ## Lemmas on the connection records -/

namespace GameManager

end GameManager

/-! ## Auxiliary arithmetic -/

/-- C1 (code defect): the disconnect of a participant during a running session creates
credits.  After identities 11 and 12 have each staked 5 and been paired, balances, escrows
and house balance total 40.  The disconnect of identity 11 refunds its escrowed stake and
then settles the whole pot: the total becomes 45.  The timeout of the same session keeps the
total at 40. -/
theorem disconnect_in_session_creates_credits :
    totalCredits (after matchOfFive) = 40 ∧
      totalCredits (step none (after matchOfFive) (.disconnect 1 50)) = 45 ∧
      (step none (after matchOfFive) (.disconnect 1 50)).players.map (fun e => (e.1, e.2.balance))
        = [(11, 20), (12, 24)] ∧
      (step none (after matchOfFive) (.disconnect 1 50)).betManager.escrows = [] ∧
      (step none (after matchOfFive) (.disconnect 1 50)).houseBalance = 1 ∧
      totalCredits (step none (after matchOfFive) (.tick 101 10001)) = 40 := by
  decide!

/-- C3: a finish without a forfeiting identity on a two-participant session records as
winner the participant with strictly more clicks, and no winner (`none`) when the two click
counts are equal. -/
theorem finishGame_timeout_winner (g : GameManager) (roomId : RoomId) (room : Room)
    (p q : UserId) (sp sq : PlayerState) (reason : FinishReason) (now : Nat)
    (hroom : JsMap.get g.rooms roomId = some room)
    (hplayers : room.players = [(p, sp), (q, sq)]) :
    ((g.finishGame roomId reason none now).results.head?).map (fun r => r.winnerId) =
      some (if sq.clicks < sp.clicks then some p
            else if sp.clicks < sq.clicks then some q
            else none) := by
  rw [GameManager.finishGame_results g roomId room reason none now hroom, hplayers,
    GameManager.pickWinner_pair]

/-- Instance of the timeout rule: at 3 clicks against 1 the timeout makes identity 11 the winner. -/
theorem finishGame_timeout_winner_witness :
    JsMap.get (after threeToOne).rooms 101 = some (roomOfFive 3 1) ∧
      (roomOfFive 3 1).players = [(11, ⟨1, 3⟩), (12, ⟨2, 1⟩)] ∧
      ((((after threeToOne).finishGame 101 .time none 10001).results.head?).map
        (fun r => r.winnerId)) = some (some 11) :=
  ⟨by decide!, rfl,
    finishGame_timeout_winner (after threeToOne) 101 (roomOfFive 3 1) 11 12 ⟨1, 3⟩ ⟨2, 1⟩ .time
      10001 (by decide!) rfl⟩

/-- C4: for a room whose BetRecord was created by `attachRoom` (stake `amount`, participants
`playerIds`, on a ledger with house cut rate `b0.houseCutPercentage`) and a non-null
winner `w`, `settle` returns exactly one payout, addressed to `w`, of amount pot − houseFee,
and reports houseFee = pot × rate, where pot = amount × number of participants. -/
theorem settle_decisive (b b0 : BetManager) (roomId : RoomId) (amount : ℚ)
    (playerIds : List UserId) (t0 now : Nat) (w : UserId)
    (hbet : JsMap.get b.matches_ roomId = some (b0.attachRoom roomId amount playerIds t0).1) :
    ∃ s : Settlement, (b.settle roomId (some w) now).1 = some s ∧
      s.payouts = [{ userId := w, amount := s.bet.pot - s.bet.houseFee }] ∧
      s.houseFee = s.bet.pot * b0.houseCutPercentage ∧
      s.bet.houseFee = s.houseFee ∧
      s.bet.pot = amount * (playerIds.length : ℚ) := by
  refine ⟨_, BetManager.settle_some_winner b roomId _ w now hbet, ?_, ?_, ?_, ?_⟩ <;>
    simp [BetManager.attachRoom]

/-- Instance of the decisive settlement on the ledger of `matchOfFive`. -/
theorem settle_decisive_witness :
    JsMap.get (after matchOfFive).betManager.matches_ 101
        = some ((BetManager.new none).attachRoom 101 5 [11, 12] 1).1 ∧
      ∃ s : Settlement, ((after matchOfFive).betManager.settle 101 (some 11) 10001).1 = some s ∧
        s.payouts = [{ userId := 11, amount := s.bet.pot - s.bet.houseFee }] ∧
        s.houseFee = s.bet.pot * (BetManager.new none).houseCutPercentage ∧
        s.bet.houseFee = s.houseFee ∧
        s.bet.pot = 5 * (([11, 12] : List UserId).length : ℚ) :=
  ⟨by decide!,
    settle_decisive (after matchOfFive).betManager (BetManager.new none) 101 5 [11, 12] 1 10001 11
      (by decide!)⟩

/-- The figures of scenario 1: stake 5 each at rate 0.1 gives pot 10, fee 1, payout 9. -/
theorem scenario_one_settlement :
    ((after matchOfFive).betManager.settle 101 (some 11) 10001).1 =
      some { payouts := [{ userId := 11, amount := 9 }], houseFee := 1, bet := betOfFive } := by
  decide!

/-- C5: for a room that has a BetRecord, `settle` with no winner returns one payout per
participant, each of exactly `amountPerPlayer` and in participant order, and reports a house
fee of 0. -/
theorem settle_tie (b : BetManager) (roomId : RoomId) (bet : Bet) (now : Nat)
    (hbet : JsMap.get b.matches_ roomId = some bet) :
    ∃ s : Settlement, (b.settle roomId none now).1 = some s ∧
      s.payouts = bet.players.map (fun u => ({ userId := u, amount := bet.amountPerPlayer } : Payout)) ∧
      s.houseFee = 0 :=
  ⟨_, BetManager.settle_some_tie b roomId bet now hbet, rfl, rfl⟩

/-- Instance of the tie settlement on the ledger of `matchOfFive`. -/
theorem settle_tie_witness :
    JsMap.get (after matchOfFive).betManager.matches_ 101 = some betOfFive ∧
      ∃ s : Settlement, ((after matchOfFive).betManager.settle 101 none 10001).1 = some s ∧
        s.payouts =
          betOfFive.players.map (fun u => ({ userId := u, amount := betOfFive.amountPerPlayer } : Payout)) ∧
        s.houseFee = 0 :=
  ⟨by decide!, settle_tie (after matchOfFive).betManager 101 betOfFive 10001 (by decide!)⟩

/-- C7: `settle` consumes the bet.  On a room with a BetRecord it removes the BetRecord and
the escrow of every participant; on a room with no BetRecord (never attached, or already
settled) it returns `null` and leaves the whole ledger (escrows, pending offers, BetRecords,
log) as it was, and `finishGame` on such a room then credits nobody: balances, house balance
and ledger are unchanged. -/
theorem settle_consumes_bet (g : GameManager) (roomId : RoomId) (w : Option UserId) (now : Nat)
    (reason : FinishReason) (f : Option UserId) :
    (∀ bet, JsMap.get g.betManager.matches_ roomId = some bet →
        JsMap.get (g.betManager.settle roomId w now).2.matches_ roomId = none ∧
        (∀ u ∈ bet.players, JsMap.get (g.betManager.settle roomId w now).2.escrows u = none) ∧
        (g.betManager.settle roomId w now).2.settle roomId w now
          = (none, (g.betManager.settle roomId w now).2)) ∧
      (JsMap.get g.betManager.matches_ roomId = none →
        g.betManager.settle roomId w now = (none, g.betManager) ∧
        ∀ room, JsMap.get g.rooms roomId = some room →
          (g.finishGame roomId reason f now).players = g.players ∧
          (g.finishGame roomId reason f now).houseBalance = g.houseBalance ∧
          (g.finishGame roomId reason f now).betManager = g.betManager) := by
  constructor
  · intro bet hbet
    have hm : JsMap.get (g.betManager.settle roomId w now).2.matches_ roomId = none := by
      rw [BetManager.settle_matches _ _ bet _ _ hbet]
      exact JsMap.get_delete_self _ _
    refine ⟨hm, ?_, BetManager.settle_none _ _ _ _ hm⟩
    intro u hu
    rw [BetManager.settle_escrows _ _ bet _ _ hbet]
    exact JsMap.get_foldl_delete _ _ _ hu
  · intro hnone
    exact ⟨BetManager.settle_none _ _ _ _ hnone,
      fun room hroom => GameManager.finishGame_unsettled g roomId room reason f now hroom hnone⟩

/-- Instances of both cases: room 101 with its BetRecord, and room 101 after the ledger has already settled it. -/
theorem settle_consumes_bet_witness :
    (JsMap.get (after matchOfFive).betManager.matches_ 101 = some betOfFive ∧
      JsMap.get ((after matchOfFive).betManager.settle 101 (some 12) 9000).2.matches_ 101 = none ∧
      (∀ u ∈ betOfFive.players,
        JsMap.get ((after matchOfFive).betManager.settle 101 (some 12) 9000).2.escrows u = none)) ∧
    (JsMap.get settledBehindTheRoom.betManager.matches_ 101 = none ∧
      JsMap.get settledBehindTheRoom.rooms 101 = some (roomOfFive 0 0) ∧
      settledBehindTheRoom.betManager.settle 101 none 10001 = (none, settledBehindTheRoom.betManager) ∧
      (settledBehindTheRoom.finishGame 101 .time none 10001).players = settledBehindTheRoom.players) :=
  ⟨⟨by decide!,
      ((settle_consumes_bet (after matchOfFive) 101 (some 12) 9000 .time none).1 betOfFive
        (by decide!)).1,
      ((settle_consumes_bet (after matchOfFive) 101 (some 12) 9000 .time none).1 betOfFive
        (by decide!)).2.1⟩,
    by decide!, by decide!,
    ((settle_consumes_bet settledBehindTheRoom 101 none 10001 .time none).2 (by decide!)).1,
    (((settle_consumes_bet settledBehindTheRoom 101 none 10001 .time none).2 (by decide!)).2
      (roomOfFive 0 0) (by decide!)).1⟩

/-- The figures of scenario 1 after the timeout: the winner 11 goes from 15 to 24, the loser
stays at 15 and the house takes 1. -/
theorem scenario_one_balances :
    balanceOf ((after threeToOne).finishGame 101 .time none 10001) 11 = some 24 ∧
      balanceOf ((after threeToOne).finishGame 101 .time none 10001) 12 = some 15 ∧
      ((after threeToOne).finishGame 101 .time none 10001).houseBalance = 1 := by
  decide!

/-- C9 (as stated, refuted): on `orphanOffer` identity 1 has no escrow and queues 5; the call
reports a match with identity 2, yet identity 2 has no escrow afterwards, so its escrow
has not become matched. -/
theorem queuePlayer_opponent_escrow_absent :
    orphanOffer.pending = [{ userId := 2, amount := 5, createdAt := 0 }] ∧
      orphanOffer.hasEscrow 1 = false ∧
      ((orphanOffer.queuePlayer 1 5 2).1.toOption.map (fun r => (r.matched, r.opponentId)))
        = some (true, some 2) ∧
      JsMap.get (orphanOffer.queuePlayer 1 5 2).2.escrows 2 = none ∧
      (JsMap.get (orphanOffer.queuePlayer 1 5 2).2.escrows 2).map (fun e => e.status)
        ≠ some EscrowStatus.matched := by
  decide!

/-- C9 (amended): for every ledger and every identity `u` without an escrow, `queuePlayer`
succeeds and reports a match exactly when some pending offer has amount `a` and another
identity.  On a match the opponent is the earliest such offer (none before it qualifies),
exactly that offer is removed, the escrow of `u` is matched, and the escrow of the
opponent is matched whenever the opponent has one.  Without a match the offer of `u` is
appended at the end of the pending list, the earlier offers keeping their positions. -/
theorem queuePlayer_fifo (b : BetManager) (u : UserId) (a : ℚ) (now : Nat)
    (hfree : b.hasEscrow u = false) :
    ∃ res : QueueResult, (b.queuePlayer u a now).1 = Except.ok res ∧
      (res.matched = true ↔ ∃ e ∈ b.pending, e.amount = a ∧ e.userId ≠ u) ∧
      (res.matched = true →
        ∃ (i : Nat) (opp : Offer), b.pending[i]? = some opp ∧
          opp.amount = a ∧ opp.userId ≠ u ∧
          (∀ (j : Nat) (e : Offer), j < i → b.pending[j]? = some e → ¬ (e.amount = a ∧ e.userId ≠ u)) ∧
          res.opponentId = some opp.userId ∧
          (b.queuePlayer u a now).2.pending = b.pending.eraseIdx i ∧
          (JsMap.get (b.queuePlayer u a now).2.escrows u).map (fun e => e.status)
            = some EscrowStatus.matched ∧
          JsMap.get (b.queuePlayer u a now).2.escrows opp.userId =
            (JsMap.get b.escrows opp.userId).map (fun e => { e with status := .matched })) ∧
      (res.matched = false →
        res.opponentId = none ∧
        (b.queuePlayer u a now).2.pending =
          b.pending ++ [{ userId := u, amount := a, createdAt := now }] ∧
        (JsMap.get (b.queuePlayer u a now).2.escrows u).map (fun e => e.status)
          = some EscrowStatus.waiting) := by
  have hex : b.pending.findIdx (BetManager.isOpponent u a) < b.pending.length ↔
      ∃ e ∈ b.pending, e.amount = a ∧ e.userId ≠ u := by
    rw [List.findIdx_lt_length]
    constructor
    · rintro ⟨e, he, hp⟩
      exact ⟨e, he, (BetManager.isOpponent_iff u a e).mp hp⟩
    · rintro ⟨e, he, hp⟩
      exact ⟨e, he, (BetManager.isOpponent_iff u a e).mpr hp⟩
  by_cases hlt : b.pending.findIdx (BetManager.isOpponent u a) < b.pending.length
  · obtain ⟨q1, q2, q3, q4, -, -⟩ := BetManager.queuePlayer_matched b u a now hfree hlt
    have hopp : BetManager.isOpponent u a (b.pending[b.pending.findIdx (BetManager.isOpponent u a)])
        = true := List.findIdx_getElem
    obtain ⟨ho1, ho2⟩ := (BetManager.isOpponent_iff u a _).mp hopp
    refine ⟨_, q1, ⟨fun _ => hex.mp hlt, fun _ => rfl⟩, fun _ => ?_, fun h => ?_⟩
    · refine ⟨_, _, List.getElem?_eq_getElem hlt, ho1, ho2, ?_, rfl, q2, ?_, q4⟩
      · intro j e hj hje hq
        have hjlen : j < b.pending.length := Nat.lt_trans hj hlt
        have hfalse := List.not_of_lt_findIdx hj
        rw [List.getElem?_eq_getElem hjlen] at hje
        have hje' : b.pending[j] = e := Option.some.inj hje
        rw [hje'] at hfalse
        rw [(BetManager.isOpponent_iff u a e).mpr hq] at hfalse
        exact Bool.noConfusion hfalse
      · rw [q3]
        rfl
    · exact Bool.noConfusion h
  · obtain ⟨q1, q2, q3, -, -⟩ := BetManager.queuePlayer_waiting b u a now hfree hlt
    refine ⟨_, q1, ⟨fun h => Bool.noConfusion h, fun h => absurd (hex.mpr h) hlt⟩,
      fun h => Bool.noConfusion h, fun _ => ⟨rfl, q2, ?_⟩⟩
    rw [q3]
    rfl

/-- Instance of the matching rule: identity 1 queues 5 while identity 2 waits with 5. -/
theorem queuePlayer_fifo_witness :
    ((BetManager.new none).queuePlayer 2 5 0).2.hasEscrow 1 = false ∧
      ∃ res : QueueResult,
        ((((BetManager.new none).queuePlayer 2 5 0).2).queuePlayer 1 5 1).1 = Except.ok res ∧
        (res.matched = true ↔
          ∃ e ∈ (((BetManager.new none).queuePlayer 2 5 0).2).pending, e.amount = 5 ∧ e.userId ≠ 1) :=
  ⟨by decide!,
    (queuePlayer_fifo (((BetManager.new none).queuePlayer 2 5 0).2) 1 5 1 (by decide!)).imp
      (fun _ h => ⟨h.1, h.2.1⟩)⟩

/-- C10: `queuePlayer` throws exactly when the identity already has an escrow; when it
throws, the ledger (pending list, escrows, BetRecords, transaction log) is unchanged; when
it succeeds the identity has exactly one escrow, of amount `a`. -/
theorem queuePlayer_one_escrow (b : BetManager) (u : UserId) (a : ℚ) (now : Nat) :
    ((∃ msg, (b.queuePlayer u a now).1 = Except.error msg) ↔ b.hasEscrow u = true) ∧
      (b.hasEscrow u = true → (b.queuePlayer u a now).2 = b) ∧
      (b.hasEscrow u = false →
        JsMap.count (b.queuePlayer u a now).2.escrows u = 1 ∧
        (JsMap.get (b.queuePlayer u a now).2.escrows u).map (fun e => e.amount) = some a) := by
  have hok : b.hasEscrow u = false →
      (∃ res, (b.queuePlayer u a now).1 = Except.ok res) ∧
        JsMap.count (b.queuePlayer u a now).2.escrows u = 1 ∧
        (JsMap.get (b.queuePlayer u a now).2.escrows u).map (fun e => e.amount) = some a := by
    intro hfree
    by_cases hlt : b.pending.findIdx (BetManager.isOpponent u a) < b.pending.length
    · obtain ⟨q1, -, q3, -, q5, -⟩ := BetManager.queuePlayer_matched b u a now hfree hlt
      exact ⟨⟨_, q1⟩, q5, by rw [q3]; rfl⟩
    · obtain ⟨q1, -, q3, q4, -⟩ := BetManager.queuePlayer_waiting b u a now hfree hlt
      exact ⟨⟨_, q1⟩, q4, by rw [q3]; rfl⟩
  have hthrow : b.hasEscrow u = true →
      (b.queuePlayer u a now) = (Except.error "El jugador ya tiene créditos bloqueados", b) := by
    intro h
    simp [BetManager.queuePlayer, h]
  refine ⟨⟨?_, fun h => ⟨_, by rw [hthrow h]⟩⟩, fun h => by rw [hthrow h], fun h => (hok h).2⟩
  rintro ⟨msg, hmsg⟩
  cases hfree : b.hasEscrow u with
  | true => rfl
  | false =>
    obtain ⟨⟨res, hres⟩, -⟩ := hok hfree
    rw [hres] at hmsg
    exact Except.noConfusion hmsg

/-- Instances of both cases: identity 2 queueing twice, and identity 2 queueing on an empty ledger. -/
theorem queuePlayer_one_escrow_witness :
    (((BetManager.new none).queuePlayer 2 5 0).2.hasEscrow 2 = true ∧
      ((((BetManager.new none).queuePlayer 2 5 0).2).queuePlayer 2 1 7).2
        = ((BetManager.new none).queuePlayer 2 5 0).2) ∧
    ((BetManager.new none).hasEscrow 2 = false ∧
      JsMap.count ((BetManager.new none).queuePlayer 2 5 0).2.escrows 2 = 1 ∧
      (JsMap.get ((BetManager.new none).queuePlayer 2 5 0).2.escrows 2).map (fun e => e.amount)
        = some 5) :=
  ⟨⟨by decide!,
      (queuePlayer_one_escrow (((BetManager.new none).queuePlayer 2 5 0).2) 2 1 7).2.1 (by decide!)⟩,
    by decide!, (queuePlayer_one_escrow (BetManager.new none) 2 5 0).2.2 (by decide!)⟩

/-- C11: a queue-join is rejected with an `error` event and leaves the whole server state
(balances, escrows, pending offers, rooms, transaction log) unchanged whenever the socket is
unregistered, its meta has a room id, the requested amount is not in the allow-list, the
identity already has an escrow, or the balance of the identity is smaller than the amount. -/
theorem enqueuePlayer_rejected (g : GameManager) (socket : SocketId) (amount : Option ℚ)
    (now : Nat) (uuid : RoomId)
    (h : JsMap.get g.socketMeta socket = none ∨
      ∃ m, JsMap.get g.socketMeta socket = some m ∧
        (m.roomId.isSome = true ∨
          (∀ a, amount = some a → a ∉ g.allowedBets) ∨
          g.betManager.hasEscrow m.userId = true ∨
          ∃ p a, JsMap.get g.players m.userId = some p ∧ amount = some a ∧ p.balance < a)) :
    (g.enqueuePlayerEmit socket amount now uuid).1.isSome = true ∧
      (g.enqueuePlayerEmit socket amount now uuid).2 = g ∧
      g.enqueuePlayer socket amount now uuid = g := by
  have key : (g.enqueuePlayerEmit socket amount now uuid).1.isSome = true ∧
      (g.enqueuePlayerEmit socket amount now uuid).2 = g := by
    unfold GameManager.enqueuePlayerEmit
    rcases h with h | ⟨m, hm, h⟩
    · simp [h]
    · simp only [hm]
      by_cases hroom : m.roomId.isSome = true
      · simp [hroom]
      · simp only [hroom]
        cases hp : JsMap.get g.players m.userId with
        | none => simp
        | some p =>
          cases ha : amount with
          | none => simp
          | some a =>
            by_cases hallow : a ∈ g.allowedBets
            · by_cases hesc : g.betManager.hasEscrow m.userId = true
              · simp [hallow, hesc]
              · by_cases hbal : p.balance < a
                · simp [hallow, hesc, hbal]
                · exfalso
                  rcases h with h | h | h | ⟨p', a', hp', ha', hlt⟩
                  · exact hroom h
                  · exact h a ha hallow
                  · exact hesc h
                  · rw [hp] at hp'
                    rw [ha] at ha'
                    cases hp'
                    cases ha'
                    exact hbal hlt
            · simp [hallow]
  exact ⟨key.1, key.2, by rw [← GameManager.enqueuePlayerEmit_state]; exact key.2⟩

/-- Instance of the rejection rule: socket 1 is seated in room 101 after `matchOfFive`. -/
theorem enqueuePlayer_rejected_witness :
    (JsMap.get (after matchOfFive).socketMeta 1 = none ∨
      ∃ m, JsMap.get (after matchOfFive).socketMeta 1 = some m ∧
        (m.roomId.isSome = true ∨
          (∀ a, some (1 : ℚ) = some a → a ∉ (after matchOfFive).allowedBets) ∨
          (after matchOfFive).betManager.hasEscrow m.userId = true ∨
          ∃ p a, JsMap.get (after matchOfFive).players m.userId = some p ∧
            some (1 : ℚ) = some a ∧ p.balance < a)) ∧
      ((after matchOfFive).enqueuePlayerEmit 1 (some 1) 9 102).1.isSome = true ∧
      ((after matchOfFive).enqueuePlayerEmit 1 (some 1) 9 102).2 = after matchOfFive ∧
      (after matchOfFive).enqueuePlayer 1 (some 1) 9 102 = after matchOfFive :=
  ⟨Or.inr ⟨⟨11, some 101, 0, 0, 0⟩, by decide!, Or.inl rfl⟩,
    enqueuePlayer_rejected (after matchOfFive) 1 (some 1) 9 102
      (Or.inr ⟨⟨11, some 101, 0, 0, 0⟩, by decide!, Or.inl rfl⟩)⟩

/-- C12 (code defect): after `secondCommitment` identity 11 is a participant of the still
existing room 101; its queue-join of 5 on socket 3 is not rejected: no error is emitted, the
state changes, and identity 11 holds a pending offer while still seated in room 101. -/
theorem participant_queues_again :
    inSomeRoom (after secondCommitment) 11 = true ∧
      ((after secondCommitment).enqueuePlayerEmit 3 (some 5) 5 102).1 = none ∧
      step none (after secondCommitment) (.queueJoin 3 (some 5) 5 102) ≠ after secondCommitment ∧
      inSomeRoom (step none (after secondCommitment) (.queueJoin 3 (some 5) 5 102)) 11 = true ∧
      hasPendingOffer (step none (after secondCommitment) (.queueJoin 3 (some 5) 5 102)).betManager 11
        = true := by
  decide!

/-- C13 (code defect): after `lostRoomLink` room 101 exists with identity 11 as a
participant, yet identity 11 has no escrow (and no pending offer). -/
theorem participant_without_escrow :
    (after lostRoomLink).rooms.map (fun r => (r.1, r.2.players.map Prod.fst)) = [(101, [11, 12])] ∧
      inSomeRoom (after lostRoomLink) 11 = true ∧
      (after lostRoomLink).betManager.hasEscrow 11 = false ∧
      hasPendingOffer (after lostRoomLink).betManager 11 = false ∧
      (after lostRoomLink).betManager.escrows.map (fun e => (e.1, e.2.status))
        = [(12, EscrowStatus.inRoom)] := by
  decide!

/-- C14 (code defect): on the ledger of `matchOfFive` identity 11 has no pending offer (its
escrow is in room 101); `cancelWaiting` nevertheless returns 5, removes the escrow and
appends a refund entry to the log. -/
theorem cancelWaiting_unlocks_seated :
    hasPendingOffer (after matchOfFive).betManager 11 = false ∧
      (JsMap.get (after matchOfFive).betManager.escrows 11).map (fun e => e.status)
        = some EscrowStatus.inRoom ∧
      ((after matchOfFive).betManager.cancelWaiting 11 "cancelled" 9).1 = 5 ∧
      JsMap.get ((after matchOfFive).betManager.cancelWaiting 11 "cancelled" 9).2.escrows 11 = none ∧
      ((after matchOfFive).betManager.cancelWaiting 11 "cancelled" 9).2.transactions
        = (after matchOfFive).betManager.transactions ++
            [{ ts := 9, type := .refund, userId := some 11, amount := 5, roomId := none,
               note := some "cancelled" }] := by
  decide!

/-- C16: when `createRoom` is called for two identities of which at least one has no live
connection, it reports failure and creates no room and no BetRecord, removes the escrows of
both identities, and credits each registered one with exactly the amount of its own escrow
(so a balance that was debited by the escrowed stake is back at its value before the debit),
every other balance staying as it was. -/
theorem createRoom_vanished_opponent (g : GameManager) (u1 u2 : UserId) (a : ℚ) (now : Nat)
    (roomId : RoomId) (hne : u1 ≠ u2)
    (hoff : (GameManager.liveSocket g u1).isNone = true ∨ (GameManager.liveSocket g u2).isNone = true) :
    (g.createRoom [u1, u2] a now roomId).1 = false ∧
      (g.createRoom [u1, u2] a now roomId).2.rooms = g.rooms ∧
      (g.createRoom [u1, u2] a now roomId).2.betManager.matches_ = g.betManager.matches_ ∧
      (g.createRoom [u1, u2] a now roomId).2.betManager.hasEscrow u1 = false ∧
      (g.createRoom [u1, u2] a now roomId).2.betManager.hasEscrow u2 = false ∧
      balanceOf (g.createRoom [u1, u2] a now roomId).2 u1 =
        (balanceOf g u1).map (fun x => x + escrowAmount g.betManager u1) ∧
      balanceOf (g.createRoom [u1, u2] a now roomId).2 u2 =
        (balanceOf g u2).map (fun x => x + escrowAmount g.betManager u2) ∧
      ∀ v, v ≠ u1 → v ≠ u2 → balanceOf (g.createRoom [u1, u2] a now roomId).2 v = balanceOf g v := by
  rw [GameManager.createRoom_offline g u1 u2 a now roomId hoff]
  obtain ⟨a1, e1, m1, -⟩ := BetManager.unlockUser_spec g.betManager u1 "oponente-offline" now
  obtain ⟨a2, e2, m2, -⟩ := BetManager.unlockUser_spec
    (g.betManager.unlockUser u1 "oponente-offline" now).2 u2 "oponente-offline" now
  have ha2 : ((g.betManager.unlockUser u1 "oponente-offline" now).2.unlockUser u2
      "oponente-offline" now).1 = escrowAmount g.betManager u2 := by
    rw [a2]
    simp [escrowAmount, e1 u2, hne]
  have hbal : ∀ v, balanceOf
      (({ g with
            betManager :=
              ((g.betManager.unlockUser u1 "oponente-offline" now).2.unlockUser u2 "oponente-offline"
                now).2 }.creditPlayerById u1
              (g.betManager.unlockUser u1 "oponente-offline" now).1).creditPlayerById u2
          ((g.betManager.unlockUser u1 "oponente-offline" now).2.unlockUser u2 "oponente-offline"
            now).1) v =
      (balanceOf g v).map (fun x => x + (if u1 = v then escrowAmount g.betManager u1 else 0)
        + (if u2 = v then escrowAmount g.betManager u2 else 0)) := by
    intro v
    rw [GameManager.balanceOf_creditPlayerById, GameManager.balanceOf_creditPlayerById, ha2, a1]
    have : balanceOf { g with
        betManager := ((g.betManager.unlockUser u1 "oponente-offline" now).2.unlockUser u2
          "oponente-offline" now).2 } v = balanceOf g v := rfl
    rw [this]
    cases balanceOf g v <;> simp
  obtain ⟨f1, f2⟩ := GameManager.creditPlayerById_frame
    ({ g with
        betManager := ((g.betManager.unlockUser u1 "oponente-offline" now).2.unlockUser u2
          "oponente-offline" now).2 }.creditPlayerById u1
      (g.betManager.unlockUser u1 "oponente-offline" now).1) u2
    ((g.betManager.unlockUser u1 "oponente-offline" now).2.unlockUser u2 "oponente-offline" now).1
  obtain ⟨f3, f4⟩ := GameManager.creditPlayerById_frame
    { g with
        betManager := ((g.betManager.unlockUser u1 "oponente-offline" now).2.unlockUser u2
          "oponente-offline" now).2 } u1 (g.betManager.unlockUser u1 "oponente-offline" now).1
  obtain ⟨r1, -, -⟩ := GameManager.creditPlayerById_rooms
    ({ g with
        betManager := ((g.betManager.unlockUser u1 "oponente-offline" now).2.unlockUser u2
          "oponente-offline" now).2 }.creditPlayerById u1
      (g.betManager.unlockUser u1 "oponente-offline" now).1) u2
    ((g.betManager.unlockUser u1 "oponente-offline" now).2.unlockUser u2 "oponente-offline" now).1
  obtain ⟨r2, -, -⟩ := GameManager.creditPlayerById_rooms
    { g with
        betManager := ((g.betManager.unlockUser u1 "oponente-offline" now).2.unlockUser u2
          "oponente-offline" now).2 } u1 (g.betManager.unlockUser u1 "oponente-offline" now).1
  refine ⟨rfl, ?_, ?_, ?_, ?_, ?_, ?_, ?_⟩
  · simp only []
    rw [r1, r2]
  · simp only []
    rw [f2, f4]
    simp only []
    rw [m2, m1]
  · simp only [BetManager.hasEscrow, JsMap.has]
    rw [f2, f4]
    simp only []
    rw [e2 u1, e1 u1]
    simp [hne.symm]
  · simp only [BetManager.hasEscrow, JsMap.has]
    rw [f2, f4]
    simp only []
    rw [e2 u2]
    simp
  · rw [hbal u1]
    simp [hne.symm]
  · rw [hbal u2]
    simp [hne]
  · intro v hv1 hv2
    rw [hbal v]
    have h1 : ¬ u1 = v := fun h => hv1 h.symm
    have h2 : ¬ u2 = v := fun h => hv2 h.symm
    cases balanceOf g v <;> simp [h1, h2]

/-- Instance of the vanished-opponent race: identity 11 is matched with identity 12, whose
connection is gone; both end with their balance of 20 and without escrow. -/
theorem createRoom_vanished_opponent_witness :
    ((11 : UserId) ≠ 12 ∧ (GameManager.liveSocket pairedWithVanished 12).isNone = true) ∧
      (pairedWithVanished.createRoom [11, 12] 5 5 101).1 = false ∧
      (pairedWithVanished.createRoom [11, 12] 5 5 101).2.rooms = pairedWithVanished.rooms ∧
      balanceOf (pairedWithVanished.createRoom [11, 12] 5 5 101).2 11 =
        (balanceOf pairedWithVanished 11).map (fun x => x + escrowAmount pairedWithVanished.betManager 11) ∧
      balanceOf (pairedWithVanished.createRoom [11, 12] 5 5 101).2 12 =
        (balanceOf pairedWithVanished 12).map (fun x => x + escrowAmount pairedWithVanished.betManager 12) :=
  have h := createRoom_vanished_opponent pairedWithVanished 11 12 5 5 101 (by decide)
    (Or.inr (by decide!))
  ⟨⟨by decide, by decide!⟩, h.1, h.2.1, h.2.2.2.2.2.1, h.2.2.2.2.2.2.1⟩

/-- The figures of the vanished-opponent race, through the queue-join itself: every balance
is back at 20, no escrow and no room is left. -/
theorem vanished_opponent_balances :
    (after (vanishedOpponent ++ [.queueJoin 1 (some 5) 5 101])).players.map
        (fun e => (e.1, e.2.balance)) = [(12, 20), (13, 20), (11, 20)] ∧
      (after (vanishedOpponent ++ [.queueJoin 1 (some 5) 5 101])).betManager.escrows = [] ∧
      (after (vanishedOpponent ++ [.queueJoin 1 (some 5) 5 101])).rooms = [] ∧
      (after (vanishedOpponent ++ [.queueJoin 1 (some 5) 5 101])).betManager.matches_ = [] := by
  decide!

/-- C17: a second `finishGame` on the same room, with any reason, forfeiting identity and
time, leaves the state exactly as the first call left it: balances, house balance, ranking,
result history, escrows and transaction log included. -/
theorem finishGame_idempotent (g : GameManager) (roomId : RoomId)
    (reason reason' : FinishReason) (f f' : Option UserId) (now now' : Nat) :
    (g.finishGame roomId reason f now).finishGame roomId reason' f' now'
      = g.finishGame roomId reason f now :=
  finishGame_of_no_room _ roomId reason' f' now' (finishGame_room_gone g roomId reason f now)

/-- C18 (as stated, refuted): the clicks of `burstAcrossWindows` have non-decreasing
timestamps; of those identity 11 sends in room 101, seventeen are counted with a timestamp
in the one second from 5520 to 6520. -/
theorem seventeen_clicks_in_a_second :
    burstAcrossWindows.Pairwise (fun a b => a ≤ b) ∧
      ((GameManager.acceptedClicks (after matchOfFive) 1 burstAcrossWindows).filter
        (fun e => decide (5520 ≤ e.1 ∧ e.1 < 5520 + 1000))).length = 17 ∧
      ¬ ((GameManager.acceptedClicks (after matchOfFive) 1 burstAcrossWindows).filter
        (fun e => decide (5520 ≤ e.1 ∧ e.1 < 5520 + 1000))).length ≤ MAX_CLICKS_PER_SECOND := by
  decide!

/-- C18 (amended): for every sequence of click events from one connection, the counted
clicks that the limiter booked under one window start `w` number at most
`MAX_CLICKS_PER_SECOND`; and when the timestamps are non-decreasing and not before the
current window start, every counted click lies in the second that begins at the window start
it was booked under. -/
theorem acceptedClicks_window_bound (g : GameManager) (socket : SocketId) (ts : List Nat) (w : Nat) :
    ((GameManager.acceptedClicks g socket ts).filter (fun e => decide (e.2 = w))).length
        ≤ MAX_CLICKS_PER_SECOND ∧
      (ts.Pairwise (fun a b => a ≤ b) → (∀ t ∈ ts, GameManager.windowStart g socket ≤ t) →
        ∀ e ∈ GameManager.acceptedClicks g socket ts, e.2 ≤ e.1 ∧ e.1 < e.2 + 1000) := by
  rw [GameManager.acceptedClicks_eq]
  cases h : GameManager.clickContext g socket with
  | none => simp
  | some c =>
    obtain ⟨m, r, room, ps⟩ := c
    obtain ⟨hm, -⟩ := (GameManager.clickContext_iff g socket m r room ps).mp h
    refine ⟨?_, ?_⟩
    · have hb := GameManager.limiterRun_window_count ts m w
      simp only [MAX_CLICKS_PER_SECOND]
      split_ifs at hb <;> omega
    · intro hsorted hstart
      have hws : GameManager.windowStart g socket = m.cpsWindowStart := by
        simp [GameManager.windowStart, hm]
      rw [hws] at hstart
      exact GameManager.limiterRun_in_window ts m hsorted hstart

/-- Instance of the window bound on `burstAcrossWindows`, for the window that starts at 6000. -/
theorem acceptedClicks_window_bound_witness :
    (burstAcrossWindows.Pairwise (fun a b => a ≤ b) ∧
        ∀ t ∈ burstAcrossWindows, GameManager.windowStart (after matchOfFive) 1 ≤ t) ∧
      ((GameManager.acceptedClicks (after matchOfFive) 1 burstAcrossWindows).filter
        (fun e => decide (e.2 = 6000))).length ≤ MAX_CLICKS_PER_SECOND ∧
      ∀ e ∈ GameManager.acceptedClicks (after matchOfFive) 1 burstAcrossWindows,
        e.2 ≤ e.1 ∧ e.1 < e.2 + 1000 :=
  ⟨⟨by decide!, by decide!⟩,
    (acceptedClicks_window_bound (after matchOfFive) 1 burstAcrossWindows 6000).1,
    (acceptedClicks_window_bound (after matchOfFive) 1 burstAcrossWindows 6000).2 (by decide!)
      (by decide!)⟩

/-- C19: for every sequence of click events from one connection, two consecutive counted
clicks are at least 60 ms apart; hence of clicks that all arrive within a span of `d` ms at
most `d / 60 + 1` are counted; and a click that either limiter rule rejects leaves every
click count as it was. -/
theorem acceptedClicks_spacing (g : GameManager) (socket : SocketId) (ts : List Nat) :
    List.Chain' (fun a b => a + MIN_CLICK_INTERVAL_MS ≤ b)
        ((GameManager.acceptedClicks g socket ts).map Prod.fst) ∧
      (∀ lo d, (∀ t ∈ ts, lo ≤ t ∧ t ≤ lo + d) →
        (GameManager.acceptedClicks g socket ts).length ≤ d / MIN_CLICK_INTERVAL_MS + 1) ∧
      (∀ now m, JsMap.get g.socketMeta socket = some m →
        (now - m.lastClickTs < MIN_CLICK_INTERVAL_MS ∨
          (GameManager.rollWindow m now).clicksThisWindow ≥ MAX_CLICKS_PER_SECOND) →
        (g.handleClick socket now).rooms = g.rooms) := by
  have hchain : List.Chain' (fun a b => a + 60 ≤ b)
      ((GameManager.acceptedClicks g socket ts).map Prod.fst) := by
    rw [GameManager.acceptedClicks_eq]
    cases GameManager.clickContext g socket with
    | none => simp
    | some c => exact (GameManager.limiterRun_spacing ts c.1).2
  have hsub : ∀ x ∈ (GameManager.acceptedClicks g socket ts).map Prod.fst, x ∈ ts := by
    rw [GameManager.acceptedClicks_eq]
    cases GameManager.clickContext g socket with
    | none => simp
    | some c =>
      intro x hx
      obtain ⟨e, he, rfl⟩ := List.mem_map.mp hx
      exact GameManager.limiterRun_subset ts c.1 e he
  refine ⟨hchain, ?_, ?_⟩
  · intro lo d hrange
    have := GameManager.spaced_length_le _ lo d hchain (fun x hx => hrange x (hsub x hx))
    simpa [MIN_CLICK_INTERVAL_MS] using this
  · intro now m hm hrej
    cases h : GameManager.clickContext g socket with
    | none => rw [GameManager.handleClick_of_no_context g socket now h]
    | some c =>
      obtain ⟨m', r, room, ps⟩ := c
      obtain ⟨hm', -⟩ := (GameManager.clickContext_iff g socket m' r room ps).mp h
      rw [hm] at hm'
      cases hm'
      have hp : GameManager.limiterPasses m now = false := by
        rcases hrej with h1 | h1 <;> simp [GameManager.limiterPasses, h1]
      rw [GameManager.handleClick_of_rejected g socket now m r room ps h hp]

/-- Instance of the spacing bound (scenario 4): of the thirty clicks of `thirtyClicks`,
which arrive within 500 ms, at most 9 are counted (8 are). -/
theorem acceptedClicks_spacing_witness :
    (∀ t ∈ thirtyClicks, 8000 ≤ t ∧ t ≤ 8000 + 500) ∧
      thirtyClicks.length = 30 ∧
      (GameManager.acceptedClicks (after matchOfFive) 1 thirtyClicks).length ≤ 9 ∧
      (GameManager.acceptedClicks (after matchOfFive) 1 thirtyClicks).length = 8 :=
  ⟨by decide!, by decide!,
    (acceptedClicks_spacing (after matchOfFive) 1 thirtyClicks).2.1 8000 500 (by decide!),
    by decide!⟩

/-- C20: `handleClick` emits nothing and leaves the whole state (click counts, limiter
fields, balances, session status) unchanged when the socket is unregistered, has no room,
its room does not exist or is not running, or its identity is not a participant of that
room.  In particular, once `finishGame` has run on a room, no later click brings the room
back or is counted for it, and a click on a socket whose meta has no room or still names
that room is dropped. -/
theorem handleClick_dropped (g : GameManager) (socket : SocketId) (now : Nat) (roomId : RoomId)
    (reason : FinishReason) (f : Option UserId) (t : Nat) :
    ((JsMap.get g.socketMeta socket = none ∨
        ∃ m, JsMap.get g.socketMeta socket = some m ∧
          (m.roomId = none ∨
            ∃ r, m.roomId = some r ∧
              (JsMap.get g.rooms r = none ∨
                ∃ room, JsMap.get g.rooms r = some room ∧
                  (room.status ≠ RoomStatus.running ∨ JsMap.get room.players m.userId = none)))) →
        g.handleClickEmit socket now = (none, g) ∧ g.handleClick socket now = g) ∧
      JsMap.get ((g.finishGame roomId reason f t).handleClick socket now).rooms roomId = none ∧
      ((∀ m, JsMap.get (g.finishGame roomId reason f t).socketMeta socket = some m →
          m.roomId = none ∨ m.roomId = some roomId) →
        (g.finishGame roomId reason f t).handleClickEmit socket now
            = (none, g.finishGame roomId reason f t) ∧
          (g.finishGame roomId reason f t).handleClick socket now = g.finishGame roomId reason f t) := by
  have drop : ∀ (g' : GameManager),
      (JsMap.get g'.socketMeta socket = none ∨
        ∃ m, JsMap.get g'.socketMeta socket = some m ∧
          (m.roomId = none ∨
            ∃ r, m.roomId = some r ∧
              (JsMap.get g'.rooms r = none ∨
                ∃ room, JsMap.get g'.rooms r = some room ∧
                  (room.status ≠ RoomStatus.running ∨ JsMap.get room.players m.userId = none)))) →
        g'.handleClickEmit socket now = (none, g') ∧ g'.handleClick socket now = g' := by
    intro g' h
    have h1 := GameManager.handleClickEmit_dropped g' socket now h
    refine ⟨h1, ?_⟩
    rw [← GameManager.handleClickEmit_state, h1]
  refine ⟨drop g, ?_, ?_⟩
  · exact GameManager.handleClick_room_absent _ socket now roomId
      (finishGame_room_gone g roomId reason f t)
  · intro hmeta
    apply drop
    cases hget : JsMap.get (g.finishGame roomId reason f t).socketMeta socket with
    | none => exact Or.inl rfl
    | some m =>
      refine Or.inr ⟨m, rfl, ?_⟩
      rcases hmeta m hget with h | h
      · exact Or.inl h
      · exact Or.inr ⟨roomId, h, Or.inl (finishGame_room_gone g roomId reason f t)⟩

/-- Instances of the drop rule: a click on the unregistered socket 9 during the match, and
a click on socket 1 after room 101 has been finished. -/
theorem handleClick_dropped_witness :
    (JsMap.get (after matchOfFive).socketMeta 9 = none ∧
        (after matchOfFive).handleClickEmit 9 500 = (none, after matchOfFive)) ∧
      JsMap.get (((after threeToOne).finishGame 101 .time none 10001).handleClick 1 10050).rooms 101
        = none ∧
      ((∀ m, JsMap.get ((after threeToOne).finishGame 101 .time none 10001).socketMeta 1 = some m →
          m.roomId = none ∨ m.roomId = some 101) ∧
        ((after threeToOne).finishGame 101 .time none 10001).handleClick 1 10050
          = (after threeToOne).finishGame 101 .time none 10001) :=
  have hmeta : ∀ m, JsMap.get ((after threeToOne).finishGame 101 .time none 10001).socketMeta 1 = some m →
      m.roomId = none ∨ m.roomId = some 101 := by
    intro m hm
    have h0 : JsMap.get ((after threeToOne).finishGame 101 .time none 10001).socketMeta 1
        = some ⟨11, none, 0, 0, 0⟩ := by decide!
    rw [h0] at hm
    cases hm
    exact Or.inl rfl
  ⟨⟨by decide!,
      ((handleClick_dropped (after matchOfFive) 9 500 101 .time none 0).1 (Or.inl (by decide!))).1⟩,
    (handleClick_dropped (after threeToOne) 1 10050 101 .time none 10001).2.1,
    hmeta,
    ((handleClick_dropped (after threeToOne) 1 10050 101 .time none 10001).2.2 hmeta).2⟩

/-- C21: `finishGame` on a session whose room has a BetRecord adds exactly 1 to the games
count of every participant (a participant without a ranking entry counts from 0).  With a
winner, the wins of the winner go up by 1 and its credits earned by its payout, the pot less
the house fee, and the wins and credits earned of every other identity stay as they were;
without a winner nobody's wins or credits earned change. -/
theorem finishGame_updates_ranking (g : GameManager) (roomId : RoomId) (room : Room) (bet : Bet)
    (reason : FinishReason) (f : Option UserId) (now : Nat)
    (hroom : JsMap.get g.rooms roomId = some room)
    (hbet : JsMap.get g.betManager.matches_ roomId = some bet)
    (hdistinct : (room.players.map Prod.fst).Nodup) :
    (∀ u ∈ room.players.map Prod.fst,
        gamesOf (g.finishGame roomId reason f now) u = gamesOf g u + 1) ∧
      (∀ x, GameManager.pickWinner (GameManager.standings room.players) f = some x →
        winsOf (g.finishGame roomId reason f now) x = winsOf g x + 1 ∧
        creditsEarnedOf (g.finishGame roomId reason f now) x
          = creditsEarnedOf g x + (bet.pot - bet.houseFee) ∧
        ∀ u, u ≠ x →
          winsOf (g.finishGame roomId reason f now) u = winsOf g u ∧
          creditsEarnedOf (g.finishGame roomId reason f now) u = creditsEarnedOf g u) ∧
      (GameManager.pickWinner (GameManager.standings room.players) f = none →
        ∀ u, winsOf (g.finishGame roomId reason f now) u = winsOf g u ∧
          creditsEarnedOf (g.finishGame roomId reason f now) u = creditsEarnedOf g u) := by
  have hgames := GameManager.updateGamesPlayed_figures (room.players.map Prod.fst) g
  cases hw : GameManager.pickWinner (GameManager.standings room.players) f with
  | none =>
    have hs := BetManager.settle_some_tie g.betManager roomId bet now hbet
    have hr := GameManager.finishGame_ranking g roomId room reason f now _ hroom (by rw [hw]; exact hs)
    rw [hw] at hr
    simp only at hr
    rw [GameManager.foldl_applyPayout_tie] at hr
    have hfig := GameManager.figures_congr (g.finishGame roomId reason f now)
      (g.updateGamesPlayed (room.players.map Prod.fst)) hr
    refine ⟨?_, ?_, ?_⟩
    · intro u hu
      rw [(hfig u).1, (hgames u).1, List.count_eq_one_of_mem hdistinct hu]
    · intro x hx
      exact Option.noConfusion hx
    · intro _ u
      rw [(hfig u).2.1, (hfig u).2.2, (hgames u).2.1, (hgames u).2.2]
      exact ⟨rfl, rfl⟩
  | some x =>
    have hs := BetManager.settle_some_winner g.betManager roomId bet x now hbet
    have hr := GameManager.finishGame_ranking g roomId room reason f now _ hroom (by rw [hw]; exact hs)
    rw [hw] at hr
    simp only [List.foldl] at hr
    obtain ⟨g2, hg2⟩ : ∃ g2 : GameManager, g2 =
        { g.updateGamesPlayed (room.players.map Prod.fst) with
          betManager := (g.betManager.settle roomId (some x) now).2 } := ⟨_, rfl⟩
    rw [← hg2] at hr
    have hg2r : g2.ranking = (g.updateGamesPlayed (room.players.map Prod.fst)).ranking := by
      rw [hg2]
    have hfig : ∀ u, gamesOf (g.finishGame roomId reason f now) u
          = gamesOf g u + (room.players.map Prod.fst).count u ∧
        winsOf (g.finishGame roomId reason f now) u = winsOf g u + (if x = u then 1 else 0) ∧
        creditsEarnedOf (g.finishGame roomId reason f now) u
          = creditsEarnedOf g u + (if x = u then bet.pot - bet.houseFee else 0) := by
      intro u
      obtain ⟨p1, p2, p3⟩ := GameManager.applyPayout_figures (some x) g2
        { userId := x, amount := bet.pot - bet.houseFee } u
      simp only [true_and] at p2 p3
      obtain ⟨q1, q2, q3⟩ := hgames u
      obtain ⟨e1, e2, e3⟩ := GameManager.figures_congr _ _ hr u
      obtain ⟨d1, d2, d3⟩ := GameManager.figures_congr _ _ hg2r u
      exact ⟨by rw [e1, p1, d1, q1], by rw [e2, p2, d2, q2], by rw [e3, p3, d3, q3]⟩
    refine ⟨?_, ?_, ?_⟩
    · intro u hu
      rw [(hfig u).1, List.count_eq_one_of_mem hdistinct hu]
    · intro y hy
      have hxy : x = y := Option.some.inj hy
      subst hxy
      refine ⟨?_, ?_, ?_⟩
      · rw [(hfig x).2.1, if_pos rfl]
      · rw [(hfig x).2.2, if_pos rfl]
      · intro u hu
        rw [(hfig u).2.1, (hfig u).2.2, if_neg (Ne.symm hu), if_neg (Ne.symm hu)]
        simp
    · intro hnone
      exact Option.noConfusion hnone

/-- An instance: room 101 of `threeToOne` finished at its time limit, won by identity 11. -/
theorem finishGame_updates_ranking_witness :
    JsMap.get (after threeToOne).rooms 101 = some (roomOfFive 3 1) ∧
      JsMap.get (after threeToOne).betManager.matches_ 101 = some betOfFive ∧
      ((roomOfFive 3 1).players.map Prod.fst).Nodup ∧
      GameManager.pickWinner (GameManager.standings (roomOfFive 3 1).players) none = some 11 ∧
      gamesOf ((after threeToOne).finishGame 101 .time none 10001) 12
        = gamesOf (after threeToOne) 12 + 1 ∧
      creditsEarnedOf ((after threeToOne).finishGame 101 .time none 10001) 11
        = creditsEarnedOf (after threeToOne) 11 + (betOfFive.pot - betOfFive.houseFee) :=
  ⟨by decide!, by decide!, by decide, by decide,
    (finishGame_updates_ranking (after threeToOne) 101 (roomOfFive 3 1) betOfFive .time none 10001
      (by decide!) (by decide!) (by decide)).1 12 (by decide),
    ((finishGame_updates_ranking (after threeToOne) 101 (roomOfFive 3 1) betOfFive .time none 10001
      (by decide!) (by decide!) (by decide)).2.1 11 (by decide)).2.1⟩

/-- C22: `getRanking` returns a rearrangement of all the ranking entries in which every
entry has more wins than each later one, or the same wins and at least its credits
earned. -/
theorem getRanking_sorted_permutation (g : GameManager) :
    g.getRanking.Perm (g.ranking.map Prod.snd) ∧
      g.getRanking.Pairwise (fun a b =>
        b.wins < a.wins ∨ (b.wins = a.wins ∧ b.creditsEarned ≤ a.creditsEarned)) := by
  refine ⟨List.perm_insertionSort _ _, ?_⟩
  have hs : (g.getRanking).Sorted GameManager.rankedBefore :=
    @List.sorted_insertionSort _ GameManager.rankedBefore _ ⟨rankedBefore_total⟩
      ⟨rankedBefore_trans⟩ _
  exact List.Pairwise.imp (fun {a b} h => (rankedBefore_iff a b).1 h) hs

/-- C23: `recordResult(r)` puts `r` at index 0 of the result history and keeps the earlier
records after it in their order, cutting the history to its first 25 records: the records
after `r` are the first 24 earlier ones, and the history holds `min (n + 1) 25` records when
it held `n`.  From a fresh server, after any sequence of events, the history holds at most
25 records. -/
theorem recordResult_newest_first (g : GameManager) (r : GameResult) (verify : Verifier)
    (allowedBets : Option (List ℚ)) (rate : Option ℚ) (events : List Event) :
    (g.recordResult r).results.head? = some r ∧
      (g.recordResult r).results.tail = g.results.take 24 ∧
      (g.recordResult r).results.length = min (g.results.length + 1) 25 ∧
      (g.recordResult r).results.length ≤ 25 ∧
      (run verify (GameManager.new allowedBets rate) events).results.length ≤ 25 := by
  refine ⟨?_, ?_, ?_, ?_, run_results_le verify events _ (Nat.zero_le _)⟩
  · simp [GameManager.recordResult, RESULTS_LIMIT]
  · simp [GameManager.recordResult, RESULTS_LIMIT]
  · simp only [GameManager.recordResult, RESULTS_LIMIT, List.length_take, List.length_cons]
    omega
  · simp only [GameManager.recordResult, RESULTS_LIMIT, List.length_take]
    exact Nat.min_le_left _ _

/-- C25: the transaction log is a bounded ring buffer.  After any sequence of calls on a
fresh ledger the log holds at most 200 entries; and `log` appends the entry to a log of
fewer than 200 entries, while on a log that is full it drops the oldest entry, keeps the
others in their order and puts the new entry last. -/
theorem transactions_ring_buffer (rate : Option ℚ) (ops : List LedgerOp) (b : BetManager)
    (e : Tx) :
    ((BetManager.new rate).performAll ops).transactions.length ≤ 200 ∧
      (b.log e).transactions =
        if b.transactions.length < 200 then b.transactions ++ [e]
        else b.transactions.tail ++ [e] :=
  ⟨BetManager.performAll_transactions_le ops (BetManager.new rate) (Nat.zero_le _),
    BetManager.log_full b e⟩

/-- C26: no funds move without a log entry.  On a ledger whose log is within its limit, the
log after a call is the log before it followed by the entries of the call, cut to the newest
200: a successful `queuePlayer` writes one `lock` entry with the identity and the amount it
returns; `cancelWaiting` on an identity with an escrow returns the escrowed amount and writes
one `refund` entry with it; `releasePlayers` (distinct identities) returns for each identity
its escrowed amount and writes one `refund` entry for each that had an escrow; `settle` on a
room with a BetRecord writes one `payout` entry for the payout of the winner, followed by a
`house` entry with the fee when the fee is positive, or on a tie one `refund` entry for each
participant.  Entries written by one call, when no more than 200, are the last ones of the
log. -/
theorem ledger_moves_are_logged (b : BetManager) (u : UserId) (a : ℚ) (reason : String)
    (now : Nat) (ids : List UserId) (roomId : RoomId) (w : Option UserId)
    (hlen : b.transactions.length ≤ LOG_LIMIT) (hids : ids.Nodup) :
    (b.hasEscrow u = false →
        (∃ res, (b.queuePlayer u a now).1 = Except.ok res ∧ res.amount = a) ∧
        (b.queuePlayer u a now).2.transactions =
          newestEntries (b.transactions ++
            [{ ts := now, type := .lock, userId := some u, amount := a, roomId := none,
               note := some "offer" }])) ∧
      (∀ e, JsMap.get b.escrows u = some e →
        (b.cancelWaiting u reason now).1 = e.amount ∧
        (b.cancelWaiting u reason now).2.transactions =
          newestEntries (b.transactions ++
            [{ ts := now, type := .refund, userId := some u, amount := e.amount, roomId := none,
               note := some reason }])) ∧
      ((b.releasePlayers ids reason now).1 =
          ids.map (fun v => ({ userId := v, amount := escrowAmount b v } : Payout)) ∧
        (b.releasePlayers ids reason now).2.transactions =
          newestEntries (b.transactions ++ refundEntries b ids reason now)) ∧
      (∀ bet, JsMap.get b.matches_ roomId = some bet →
        ((b.settle roomId w now).1.map (fun s => s.payouts) =
          some
            (match w with
            | some x => [{ userId := x, amount := bet.pot - bet.houseFee }]
            | none => bet.players.map (fun v =>
                ({ userId := v, amount := bet.amountPerPlayer } : Payout)))) ∧
        (b.settle roomId w now).2.transactions =
          newestEntries (b.transactions ++
            match w with
            | some x =>
              ({ ts := now, type := .payout, userId := some x, amount := bet.pot - bet.houseFee,
                 roomId := some roomId, note := none } : Tx) ::
                (if bet.houseFee > 0 then
                  [{ ts := now, type := .house, userId := none, amount := bet.houseFee,
                     roomId := some roomId, note := none }]
                else [])
            | none => bet.players.map (fun v =>
              ({ ts := now, type := .refund, userId := some v, amount := bet.amountPerPlayer,
                 roomId := some roomId, note := some "tie" } : Tx)))) ∧
      (∀ es : List Tx, es.length ≤ LOG_LIMIT → es <:+ newestEntries (b.transactions ++ es)) := by
  refine ⟨?_, ?_, ?_, ?_, ?_⟩
  · intro hfree
    refine ⟨?_, BetManager.queuePlayer_transactions b u a now hlen hfree⟩
    by_cases hlt : b.pending.findIdx (BetManager.isOpponent u a) < b.pending.length
    · exact ⟨_, (BetManager.queuePlayer_matched b u a now hfree hlt).1, rfl⟩
    · exact ⟨_, (BetManager.queuePlayer_waiting b u a now hfree hlt).1, rfl⟩
  · intro e he
    refine ⟨?_, ?_⟩
    · rw [BetManager.cancelWaiting_amount]
      unfold escrowAmount
      rw [he]
      rfl
    · rw [BetManager.cancelWaiting_transactions b u reason now hlen, he]
  · exact BetManager.releasePlayers_spec b ids reason now hlen hids
  · intro bet hbet
    refine ⟨?_, BetManager.settle_transactions b roomId bet w now hlen hbet⟩
    cases w with
    | none => rw [BetManager.settle_some_tie b roomId bet now hbet]; rfl
    | some x => rw [BetManager.settle_some_winner b roomId bet x now hbet]; rfl
  · intro es hes
    exact newestEntries_suffix b.transactions es hes

/-- An instance on the ledger of `matchOfFive`: settling room 101 for identity 11, and
releasing identities 11 and 12. -/
theorem ledger_moves_are_logged_witness :
    (after matchOfFive).betManager.transactions.length ≤ LOG_LIMIT ∧ [11, 12].Nodup ∧
      JsMap.get (after matchOfFive).betManager.matches_ 101 = some betOfFive ∧
      ((after matchOfFive).betManager.settle 101 (some 11) 9).2.transactions =
        newestEntries ((after matchOfFive).betManager.transactions ++
          [{ ts := 9, type := .payout, userId := some 11, amount := 9, roomId := some 101,
             note := none },
           { ts := 9, type := .house, userId := none, amount := 1, roomId := some 101,
             note := none }]) ∧
      ((after matchOfFive).betManager.releasePlayers [11, 12] "x" 9).1 =
        [{ userId := 11, amount := 5 }, { userId := 12, amount := 5 }] :=
  ⟨by decide!, by decide, by decide!,
    ((ledger_moves_are_logged (after matchOfFive).betManager 13 5 "x" 9 [11, 12] 101 (some 11)
      (by decide!) (by decide)).2.2.2.1 betOfFive (by decide!)).2.trans (by decide!),
    (ledger_moves_are_logged (after matchOfFive).betManager 13 5 "x" 9 [11, 12] 101 (some 11)
      (by decide!) (by decide)).2.2.1.1.trans (by decide!)⟩

/-- C28: balances never go negative.  On a server whose allowed stakes are all positive and
whose house cut rate lies in [0, 1], after any sequence of events every player record has a
balance of at least 0. -/
theorem balances_never_negative (verify : Verifier) (allowedBets : Option (List ℚ))
    (rate : Option ℚ) (events : List Event)
    (hbets : ∀ a ∈ allowedBets.getD DEFAULT_BETS, 0 < a)
    (hrate : 0 ≤ rate.getD HOUSE_CUT_PERCENTAGE ∧ rate.getD HOUSE_CUT_PERCENTAGE ≤ 1) :
    ∀ e ∈ (run verify (GameManager.new allowedBets rate) events).players, 0 ≤ e.2.balance :=
  (run_solvent verify events _ (new_solvent allowedBets rate hbets hrate)).1

/-- An instance: the default stakes and rate, and the events of `threeToOne` followed by
the time limit of room 101. -/
theorem balances_never_negative_witness :
    (∀ a ∈ (none : Option (List ℚ)).getD DEFAULT_BETS, 0 < a) ∧
      (0 ≤ (none : Option ℚ).getD HOUSE_CUT_PERCENTAGE ∧
        (none : Option ℚ).getD HOUSE_CUT_PERCENTAGE ≤ 1) ∧
      ∀ e ∈ (run none (GameManager.new none none) (threeToOne ++ [.tick 101 10001])).players,
        0 ≤ e.2.balance :=
  ⟨by decide!, by decide!,
    balances_never_negative none none none (threeToOne ++ [.tick 101 10001]) (by decide!)
      (by decide!)⟩

/-- C29: starting from an empty ledger, after any sequence of calls (`queuePlayer`,
`unlockUser`, `cancelWaiting`, `attachRoom`, `settle`, `refundRoom`, `releasePlayers`) the
pending list holds no two offers of equal amount that belong to different identities. -/
theorem pending_never_matchable (rate : Option ℚ) (ops : List LedgerOp) :
    matchablePair ((BetManager.new rate).performAll ops).pending = false :=
  BetManager.performAll_matchablePair ops (BetManager.new rate) rfl

end PulseBattle
